import Mathlib

/-!
CINN: a shallow embedding of the expression IR, of the snippet builder, of the dependency
analysis and of the translation from the schedule AST to the IR, with the properties of
the specification checked against it.

Conventions of the embedding.

* A handle `ir::Expr` is a possibly-null shared pointer to a node that carries a
  primitive and a composite type.  `Expr.null` is the null handle, `Expr.mk pt ct n`
  a handle to a node `n` whose `ptype()` is `pt` and whose `ctype()` is `ct`.  Nodes are
  values: a function that writes through a handle returns the new value.
* A function that can abort (a failed `CHECK`, `LOG(FATAL)`, or the dereference of a
  null handle) returns `Option`; `none` is the abort.
* Objects of the integer-set library are embedded by their extension: a set is the
  list of its points, a map the list of its pairs.  Where the program hands a text to
  the library, the object is kept as that text with the parts it was put together from;
  for the texts built from index expressions, which the library may reject, the functions
  take an argument that tells whether the library reads a text.
* Process-wide state (the registry of variable names, the registry of stages) is passed
  in and returned: a constructor that writes it returns its new value.  The maker
  `Var.make` of the translation to the IR is kept apart from the registry, which it
  does not read.
* The nodes `SIMDOpr` and `Identity` are kept apart from the nodes of `IRNode`, which
  the walks of the other sections go through: each has a type of its own that holds the
  fields its functions read.
-/

set_option autoImplicit false

namespace cinn

/-! ## Types (`cinn/type.h`) -/

/-- Modelled from the spec: the header `cinn/type.h` is not part of the sources at hand;
the primitive types are the nine of section 3 of the specification. -/
inductive primitive_t where
  | unk | boolean | int8 | int16 | int32 | int64 | float32 | float64 | void_
  deriving DecidableEq, Repr

/-- Modelled from the spec: the header `cinn/type.h` is not part of the sources at hand;
the composite types are the three of section 3 of the specification. -/
inductive composite_t where
  | primitive | simd128 | simd256
  deriving DecidableEq, Repr

namespace ir

/-- Tags of the nodes that hold two operands `a` and `b` (`ir.cc`). -/
inductive Op2 where
  | Add | Sub | Mul | Div | Mod | Min | Max
  | EQ | NE | LT | LE | GT | GE
  | And | Or
  | Assign | SumAssign | SubAssign | MulAssign | DivAssign
  deriving DecidableEq, Repr

/-- Tags of the nodes that hold one operand `a` (`ir.cc`). -/
inductive Op1 where
  | Minus | Exp
  deriving DecidableEq, Repr

/-- The tag of a node, `ir::NodeTy`. -/
inductive NodeTy where
  | IntImm | Var | Tensor
  | Unary (op : Op1)
  | Binary (op : Op2)
  | Block | For | IfThenElse | Call | Reference | Mark | Allocate
  deriving DecidableEq, Repr

/-! ### Constants (`ir.cc`, lines 135-239): the values the dims of a tensor are given as -/

/-- A floating-point value as the comparison `==` sees it: not a number, an infinity, or a
finite value (the two zeros are one value). -/
inductive float_val where
  | nan
  | inf (negative : Bool)
  | finite (q : Rat)
  deriving DecidableEq, Repr

/-- The comparison `==` of two floating-point values: false when either is not a number,
and the equality of the values otherwise. -/
def float_val.eq (a b : float_val) : Bool :=
  match a, b with
  | .nan, _ => false
  | _, .nan => false
  | a, b => decide (a = b)

/-- The fields of a `Constant` that the functions below read: its name, its primitive
type, whether a value is set, and the value members of the types that are compared. -/
structure Constant where
  name_ : String
  ptype : primitive_t
  value_set_ : Bool
  int32_val_ : Int
  int64_val_ : Int
  float32_val_ : float_val
  float64_val_ : float_val
  deriving DecidableEq, Repr

/-- Modelled from the spec: the constructor of a `Constant` from an `int32_t` is declared
in a header that is not part of the sources at hand; it gives an unnamed int32 literal
(section 3, a Constant stores a literal value or a named symbol).  The members of the
other types are not read on an int32 constant and are given as zero. -/
def Constant.of_int32 (v : Int) : Constant := ⟨"", .int32, true, v, 0, .finite 0, .finite 0⟩

/-- Modelled from the spec: `is_integer()` is declared in a header that is not part of the
sources at hand; the integer primitive types are int8, int16, int32 and int64. -/
def Constant.is_integer (c : Constant) : Bool :=
  c.ptype = .int8 || c.ptype = .int16 || c.ptype = .int32 || c.ptype = .int64

mutual
/-- The handle `ir::Expr`: null, or a pointer to a typed node. -/
inductive Expr where
  | null : Expr
  | mk (ptype : primitive_t) (ctype : composite_t) (node : IRNode) : Expr
/-- The nodes of the IR with the fields that `ir.cc` fills in. -/
inductive IRNode where
  | IntImm (val : Int)
  | Var (name : String)
  | Tensor (name : String) (dims : List Constant)
  | Unary (op : Op1) (a : Expr)
  | Binary (op : Op2) (a b : Expr)
  | Block (body : List Expr)
  | For (iter_init iter_cond iter_inc body iterator : Expr)
  | IfThenElse (condition true_block false_block : Expr)
  | Call (caller : String) (arguments : List Expr)
  | Reference (target : Expr) (iterators : List Expr)
  | Mark (content : String)
  | Allocate (buffer_name : String) (size : Expr) (dtype : primitive_t)
end

/-- The tag of a node. -/
def IRNode.type : IRNode → NodeTy
  | .IntImm _ => .IntImm
  | .Var _ => .Var
  | .Tensor _ _ => .Tensor
  | .Unary op _ => .Unary op
  | .Binary op _ _ => .Binary op
  | .Block _ => .Block
  | .For _ _ _ _ _ => .For
  | .IfThenElse _ _ _ => .IfThenElse
  | .Call _ _ => .Call
  | .Reference _ _ => .Reference
  | .Mark _ => .Mark
  | .Allocate _ _ _ => .Allocate

/-- The check `Expr::valid()`: the pointer is not null. -/
def Expr.valid : Expr → Bool
  | .null => false
  | .mk _ _ _ => true

/-- The accessor `ptype()`; it dereferences the pointer. -/
def Expr.ptype : Expr → Option primitive_t
  | .null => none
  | .mk pt _ _ => some pt

/-- The accessor `ctype()`; it dereferences the pointer. -/
def Expr.ctype : Expr → Option composite_t
  | .null => none
  | .mk _ ct _ => some ct

/-- The accessor `type()`; it dereferences the pointer. -/
def Expr.type : Expr → Option NodeTy
  | .null => none
  | .mk _ _ n => some n.type

/-- The setter `set_ptype`; it writes through the pointer. -/
def Expr.set_ptype : Expr → primitive_t → Option Expr
  | .null, _ => none
  | .mk _ ct n, pt => some (.mk pt ct n)

/-- The setter `set_ctype`; it writes through the pointer. -/
def Expr.set_ctype : Expr → composite_t → Option Expr
  | .null, _ => none
  | .mk pt _ n, ct => some (.mk pt ct n)

/-- The test `is_unk()`: the primitive type is `unk`. -/
def Expr.is_unk (e : Expr) : Option Bool :=
  e.ptype.map (fun pt => decide (pt = primitive_t.unk))

/-- The test `is_boolean()`: the primitive type is `boolean`. -/
def Expr.is_boolean (e : Expr) : Option Bool :=
  e.ptype.map (fun pt => decide (pt = primitive_t.boolean))

/-- Modelled from the spec: `is_simd()` is declared in `cinn/ir/expr.h`, which is not
part of the sources at hand; a handle is SIMD when its composite type is one of the
two vector types. -/
def Expr.is_simd (e : Expr) : Option Bool :=
  e.ctype.map (fun ct => decide (ct ≠ composite_t.primitive))

/-- The macro `CHECK(cond)`: abort unless the condition holds. -/
def CHECK (cond : Bool) : Option Unit :=
  if cond then some () else none

/-- A node fresh from `std::make_shared<T>()` has primitive type `unk` and composite
type `primitive` until a setter is called; the makers below set the primitive type and
leave the composite type alone unless stated. -/
def fresh (pt : primitive_t) (n : IRNode) : Expr :=
  .mk pt .primitive n

/-! ## The makers of the two-operand nodes (`ir.cc`, lines 20-134 and 253-335) -/

/-- The function `EQ::make`. -/
def EQ.make (a b : Expr) : Option Expr := do
  CHECK a.valid
  CHECK b.valid
  CHECK (!(← b.is_unk))
  let node_a := a
  let node_b := b
  CHECK (decide ((← node_a.ptype) = (← node_b.ptype)))
  CHECK (!(← node_a.is_unk))
  pure (fresh .boolean (.Binary .EQ node_a node_b))

/-- The function `NE::make`. -/
def NE.make (a b : Expr) : Option Expr := do
  CHECK a.valid
  CHECK b.valid
  CHECK (decide ((← a.ptype) = (← b.ptype)))
  CHECK (!(← a.is_unk))
  pure (fresh .boolean (.Binary .NE a b))

/-- The function `Mod::make`.  The assignment `node->a = std::move(a)` goes through
`Expr::operator=(const Expr&)`, which copies the pointer, so `a` is still set when its
type is read. -/
def Mod.make (a b : Expr) : Option Expr := do
  CHECK a.valid
  CHECK b.valid
  let node_a := a
  let node_b := b
  CHECK (decide ((← a.ptype) = (← b.ptype)))
  CHECK (!(← a.is_unk))
  pure (fresh (← node_a.ptype) (.Binary .Mod node_a node_b))

/-- The function `SetOprSimdIfAnyOprandIsSimd`: returns the operation with its
composite type updated. -/
def SetOprSimdIfAnyOprandIsSimd (op a b : Expr) : Option Expr := do
  if (← a.is_simd) && (← b.is_simd) then
    CHECK (decide ((← a.ctype) = (← b.ctype)))
  if (← a.is_simd) || (← b.is_simd) then
    op.set_ctype (← a.ctype)
  else
    pure op

/-- The template `MakeMathExpr<T>`, for `+ - * /`. -/
def MakeMathExpr (T : Op2) (a b : Expr) : Option Expr := do
  CHECK a.valid
  CHECK b.valid
  CHECK (!(← a.is_unk))
  CHECK (!(← b.is_unk))
  let node_a := a
  let node_b := b
  CHECK (decide ((← a.ptype) = (← b.ptype)))
  let expr := fresh (← a.ptype) (.Binary T node_a node_b)
  SetOprSimdIfAnyOprandIsSimd expr node_a node_b

/-- The function `Add::make`. -/
def Add.make (a b : Expr) : Option Expr := MakeMathExpr .Add a b
/-- The function `Sub::make`. -/
def Sub.make (a b : Expr) : Option Expr := MakeMathExpr .Sub a b
/-- The function `Mul::make`. -/
def Mul.make (a b : Expr) : Option Expr := MakeMathExpr .Mul a b
/-- The function `Div::make`. -/
def Div.make (a b : Expr) : Option Expr := MakeMathExpr .Div a b

/-- The function `Min::make`.  As in `Mod::make`, `a` is still set when its type is read
after `node->a = std::move(a)`. -/
def Min.make (a b : Expr) : Option Expr := do
  CHECK a.valid
  CHECK b.valid
  let node_a := a
  let node_b := b
  CHECK (decide ((← node_a.ptype) = (← node_b.ptype)))
  CHECK (!(← node_a.is_unk))
  pure (fresh (← a.ptype) (.Binary .Min node_a node_b))

/-- The function `Max::make`. -/
def Max.make (a b : Expr) : Option Expr := do
  CHECK a.valid
  CHECK b.valid
  let node_a := a
  let node_b := b
  CHECK (decide ((← node_a.ptype) = (← node_b.ptype)))
  CHECK (!(← node_a.is_unk))
  pure (fresh (← node_a.ptype) (.Binary .Max node_a node_b))

/-- The body shared, word for word, by `LT::make`, `LE::make`, `GT::make` and
`GE::make`. -/
def cmp_make (T : Op2) (a b : Expr) : Option Expr := do
  CHECK a.valid
  CHECK b.valid
  let node_a := a
  let node_b := b
  CHECK (decide ((← node_a.ptype) = (← node_b.ptype)))
  CHECK (!(← node_a.is_unk))
  pure (fresh .boolean (.Binary T node_a node_b))

/-- The function `LT::make`. -/
def LT.make (a b : Expr) : Option Expr := cmp_make .LT a b
/-- The function `LE::make`. -/
def LE.make (a b : Expr) : Option Expr := cmp_make .LE a b
/-- The function `GT::make`. -/
def GT.make (a b : Expr) : Option Expr := cmp_make .GT a b
/-- The function `GE::make`. -/
def GE.make (a b : Expr) : Option Expr := cmp_make .GE a b

/-- The body shared, word for word, by `And::make` and `Or::make`. -/
def logic_make (T : Op2) (a b : Expr) : Option Expr := do
  CHECK a.valid
  CHECK b.valid
  let node_a := a
  let node_b := b
  CHECK (decide ((← node_a.ptype) = (← node_b.ptype)))
  CHECK (← node_a.is_boolean)
  pure (fresh .boolean (.Binary T node_a node_b))

/-- The function `And::make`. -/
def And.make (a b : Expr) : Option Expr := logic_make .And a b
/-- The function `Or::make`. -/
def Or.make (a b : Expr) : Option Expr := logic_make .Or a b


/-- The makers of the arithmetic nodes, each with the tag of the node it builds. -/
def arithmetic_makers : List (Op2 × (Expr → Expr → Option Expr)) :=
  [(.Add, Add.make), (.Sub, Sub.make), (.Mul, Mul.make), (.Div, Div.make),
   (.Mod, Mod.make), (.Min, Min.make), (.Max, Max.make)]

/-- The makers of the comparison and logical nodes, each with the tag of the node it
builds. -/
def boolean_makers : List (Op2 × (Expr → Expr → Option Expr)) :=
  [(.EQ, EQ.make), (.NE, NE.make), (.LT, LT.make), (.LE, LE.make), (.GT, GT.make),
   (.GE, GE.make), (.And, And.make), (.Or, Or.make)]

/-- The four makers that go through `MakeMathExpr`, each with the tag of the node it
builds. -/
def math_makers : List (Op2 × (Expr → Expr → Option Expr)) :=
  [(.Add, Add.make), (.Sub, Sub.make), (.Mul, Mul.make), (.Div, Div.make)]

/-- A float32 variable held in a 128-bit vector. -/
def v128 : Expr := .mk .float32 .simd128 (.Var "v")

/-- A float32 variable held in a 256-bit vector. -/
def v256 : Expr := .mk .float32 .simd256 (.Var "w")

/-- The literal `1` of type int32. -/
def one_i32 : Expr := .mk .int32 .primitive (.IntImm 1)

/-- The literal `2` of type int32. -/
def two_i32 : Expr := .mk .int32 .primitive (.IntImm 2)

end ir

open ir

/-! ## The integer-set library, by extension

The library is an external collaborator.  Its objects are embedded by the points they
contain: a point of a named space is a tuple name with integer coordinates, a union set
is a list of points and a union map a list of pairs of points; a point or a pair is in
the object when it is in the list.  Every tuple is named, as the statement tuples of
stages and the tensors they access are. -/

namespace isl

/-- A point `T[c0, ..., cn-1]` of the space whose tuple is named `T`. -/
structure Point where
  tuple : String
  coords : List Int
  deriving DecidableEq, Repr

/-- A union set `isl::union_set`, by extension. -/
abbrev union_set := List Point

/-- A union map `isl::union_map`, by extension. -/
abbrev union_map := List (Point × Point)

/-- A set `isl::set`: the points of one space. -/
structure set where
  tuple : String
  points : List (List Int)
  deriving DecidableEq, Repr

/-- A map `isl::map`: the pairs of one pair of spaces. -/
structure map where
  in_tuple : String
  n_in : Nat
  out_tuple : String
  n_out : Nat
  pairs : List (List Int × List Int)
  deriving DecidableEq, Repr

/-- The pair of spaces a pair of points lives in: each tuple name with its number of
dimensions. -/
def pair_space (p : Point × Point) : (String × Nat) × (String × Nat) :=
  ((p.1.tuple, p.1.coords.length), (p.2.tuple, p.2.coords.length))

/-- Modelled from the spec: the library is not part of the sources at hand;
`isl_union_set_from_set` views a set as a union set. -/
def isl_union_set_from_set (s : set) : union_set :=
  s.points.map (fun c => ⟨s.tuple, c⟩)

/-- Modelled from the spec: the library is not part of the sources at hand;
`isl_union_set_add_set` adds the points of a set to a union set. -/
def isl_union_set_add_set (u : union_set) (s : set) : union_set :=
  u ++ isl_union_set_from_set s

/-- Modelled from the spec: the library is not part of the sources at hand;
`isl_union_map_empty` is the map without pairs. -/
def isl_union_map_empty : union_map := []

/-- Modelled from the spec: the library is not part of the sources at hand;
`isl_union_map_union` (section 4.3, `union`) holds the pairs of both maps. -/
def isl_union_map_union (a b : union_map) : union_map := a ++ b

/-- Modelled from the spec: the library is not part of the sources at hand;
`isl_union_map_intersect_domain` (section 4.3, `intersect_domain`) keeps the pairs that
start in the given set. -/
def isl_union_map_intersect_domain (m : union_map) (d : union_set) : union_map :=
  m.filter (fun p => decide (p.1 ∈ d))

/-- Modelled from the spec: the library is not part of the sources at hand;
`isl_union_map_reverse` (section 4.3, `reverse`) swaps every pair. -/
def isl_union_map_reverse (m : union_map) : union_map := m.map Prod.swap

/-- Modelled from the spec: the library is not part of the sources at hand;
`isl_union_map_apply_range` (section 4.3, `apply_range`) follows the first map by the
second: it holds `(x, z)` when the first holds some `(x, y)` and the second `(y, z)`. -/
def isl_union_map_apply_range (a b : union_map) : union_map :=
  a.flatMap (fun p => (b.filter (fun q => decide (q.1 = p.2))).map (fun q => (p.1, q.2)))

/-- Modelled from the spec: the library is not part of the sources at hand;
`isl_union_map_detect_equalities` (section 4.3, "detect equalities") rewrites the
constraints of a map and leaves its pairs as they are. -/
def isl_union_map_detect_equalities (m : union_map) : union_map := m

/-- Modelled from the spec: the library is not part of the sources at hand;
`isl_union_map_get_map_list` lists the maps of a union map, one for each pair of spaces
that holds a pair. -/
def isl_union_map_get_map_list (u : union_map) : List map :=
  (u.map pair_space).dedup.map (fun sp =>
    ⟨sp.1.1, sp.1.2, sp.2.1, sp.2.2,
      (u.filter (fun p => decide (pair_space p = sp))).map (fun p => (p.1.coords, p.2.coords))⟩)

/-- Modelled from the spec: the library is not part of the sources at hand;
`isl_union_map_n_map` counts the maps of a union map. -/
def isl_union_map_n_map (u : union_map) : Nat :=
  (isl_union_map_get_map_list u).length

/-- Modelled from the spec: the library is not part of the sources at hand;
`isl_union_map_from_map` views a map as a union map. -/
def isl_union_map_from_map (m : map) : union_map :=
  m.pairs.map (fun p => (⟨m.in_tuple, p.1⟩, ⟨m.out_tuple, p.2⟩))

/-- Modelled from the spec: the library is not part of the sources at hand;
`isl_map_is_identity` holds when both sides of the map are the same space and every
point is mapped to itself only. -/
def isl_map_is_identity (m : map) : Bool :=
  decide (m.in_tuple = m.out_tuple) && decide (m.n_in = m.n_out) &&
    m.pairs.all (fun p => decide (p.1 = p.2))

/-- The operation of an operation expression, `enum isl_ast_op_type`. -/
inductive ast_op_type where
  | and | and_then | or | or_else | max | min | minus | add | sub | mul | div
  | fdiv_q | pdiv_q | pdiv_r | zdiv_r | cond | select
  | eq | le | lt | ge | gt | call | access | member | address_of
  deriving DecidableEq, Repr

/-- An expression `isl_ast_expr` of the AST: an integer, an identifier or an operation on
argument expressions. -/
inductive ast_expr where
  | int (val : Int)
  | id (name : String)
  | op (type : ast_op_type) (args : List ast_expr)

/-- A node `isl_ast_node` of the AST: a block, a `for`, an `if` without or with an `else`
branch, a user statement or a mark. -/
inductive ast_node where
  | block (children : List ast_node)
  | for_ (iterator init cond inc : ast_expr) (body : ast_node)
  | if_then (cond : ast_expr) (then_ : ast_node)
  | if_then_else (cond : ast_expr) (then_ else_ : ast_node)
  | user (expr : ast_expr)
  | mark (id : String) (node : ast_node)

end isl

/-- The bytes of a C string, without the terminating NUL. -/
def c_str (s : String) : List Nat :=
  s.toUTF8.data.toList.map UInt8.toNat

/-- The function `strcmp` of `<cstring>` on the bytes of two C strings: negative, zero or
positive as the first string is smaller than, equal to or greater than the second, byte
by byte. -/
def strcmp : List Nat → List Nat → Int
  | [], [] => 0
  | [], _ :: _ => -1
  | _ :: _, [] => 1
  | a :: as, b :: bs => if a < b then -1 else if b < a then 1 else strcmp as bs

open isl

/-- The function `ComputeDeps` of `function.cc`. -/
def ComputeDeps (domain : union_set) (reads writes : union_map) : union_map :=
  let access_reads_with_domain := isl_union_map_intersect_domain reads domain
  let access_writes_with_domain := isl_union_map_intersect_domain writes domain
  let reads_writes := access_reads_with_domain
  let reads_writes := isl_union_map_union reads_writes access_writes_with_domain
  let left :=
    isl_union_map_apply_range reads_writes (isl_union_map_reverse access_writes_with_domain)
  let right :=
    isl_union_map_apply_range access_writes_with_domain
      (isl_union_map_reverse access_reads_with_domain)
  let deps := isl_union_map_union left right
  isl_union_map_detect_equalities deps

/-- The loop of `ComputeScheduleValidity`, from the index `i` on, with as many rounds
left as there are maps from `i` on.  The validity starts as the empty map, which is not
null, so the loop takes the union of the validity and the map it keeps. -/
def ComputeScheduleValidity_loop (deps : union_map) : Nat → Nat → union_map → union_map
  | 0, _, validity => validity
  | rounds + 1, i, validity =>
    let map_list := isl_union_map_get_map_list deps
    match map_list.get? i with
    | none => validity
    | some map =>
      if isl_map_is_identity map then
        ComputeScheduleValidity_loop deps rounds (i + 1) validity
      else
        let left_tuple := map.in_tuple
        let right_tuple := map.out_tuple
        if strcmp (c_str left_tuple) (c_str right_tuple) ≥ 0 then
          ComputeScheduleValidity_loop deps rounds (i + 1) validity
        else
          let union_map := isl_union_map_from_map map
          ComputeScheduleValidity_loop deps rounds (i + 1)
            (isl_union_map_union validity union_map)

/-- The function `ComputeScheduleValidity` of `function.cc`. -/
def ComputeScheduleValidity (_domain : union_set) (deps : union_map) : union_map :=
  let validity := isl_union_map_empty
  ComputeScheduleValidity_loop deps (isl_union_map_n_map deps) 0 validity

/-! ## Stages, snippets and functions (`stage.cc`, `function.cc`) -/

/-- The makers `Block::make`: every child has to be defined; the block has type `void`. -/
def ir.Block.make (list : List Expr) : Option Expr := do
  CHECK (list.all Expr.valid)
  pure (fresh .void_ (.Block list))

/-- The template `XAssignMake<T>`: the left operand takes the primitive type of the right
operand, and so does the node. -/
def ir.XAssignMake (T : Op2) (a b : Expr) : Option Expr := do
  CHECK a.valid
  CHECK b.valid
  let node_a := a
  let node_b := b
  CHECK (!(← node_b.is_unk))
  let node_a ← node_a.set_ptype (← node_b.ptype)
  pure (fresh (← node_b.ptype) (.Binary T node_a node_b))

/-- The function `Assign::make`. -/
def ir.Assign.make (a b : Expr) : Option Expr := XAssignMake .Assign a b

/-- The operator `Expr::operator=`, returning the new value of the handle assigned to: a
handle that is null or is not a `Reference` is rebound to the right-hand side; a
`Reference` becomes an `Assign` node. -/
def ir.Expr.assign (self other : Expr) : Option Expr :=
  if !self.valid || self.type != some NodeTy.Reference then
    some other
  else do
    CHECK other.valid
    Assign.make self other

/-- The enumeration `Stage::Type`. -/
inductive Stage.Type_ where
  | polyhedral | function_call | unk
  deriving DecidableEq, Repr

/-- The part of a stage (`Stage::Data`) that the functions below read: its name, its
expression, the points of its iteration domain, and its read and write accesses, which
map the points of the domain to elements of tensors. -/
structure Stage where
  name : String
  expr : Expr
  domain_points : List (List Int)
  reads : List (List Int × isl.Point)
  writes : List (List Int × isl.Point)

/-- Modelled from the spec: `is_assign_derived()` is declared in `cinn/ir/expr.h`, which is
not part of the sources at hand; the assignment family is `Assign`, `SumAssign`,
`SubAssign`, `MulAssign` and `DivAssign`. -/
def ir.Expr.is_assign_derived (e : Expr) : Bool :=
  e.type = some (.Binary .Assign) || e.type = some (.Binary .SumAssign) ||
  e.type = some (.Binary .SubAssign) || e.type = some (.Binary .MulAssign) ||
  e.type = some (.Binary .DivAssign)

/-- The function `Stage::type`; a stage without an expression has no type here. -/
def Stage.type (s : Stage) : Stage.Type_ :=
  if s.expr.is_assign_derived then .polyhedral
  else match s.expr.type with
    | some .Call => .function_call
    | some .Allocate => .function_call
    | _ => .unk

/-- The fields of a `Snippet` that `function.cc` reads and writes while snippets are
built. -/
structure Snippet where
  type_ : Stage.Type_
  stages_ : List Stage
  is_end_ : Bool

/-- A snippet as `emplace_back()` constructs it. -/
def Snippet.new : Snippet := ⟨.unk, [], false⟩

/-- Modelled from the spec: `Snippet::is_unk` is declared in `cinn/core/function.h`, which
is not part of the sources at hand; a snippet is `unk` until its first stage gives it a
type. -/
def Snippet.is_unk (sn : Snippet) : Bool := sn.type_ = .unk

/-- Modelled from the spec: `Snippet::is_polyhedral` is declared in
`cinn/core/function.h`, which is not part of the sources at hand; it tests the type of the
snippet. -/
def Snippet.is_polyhedral (sn : Snippet) : Bool := sn.type_ = .polyhedral

/-- Modelled from the spec: `Snippet::End` is declared in `cinn/core/function.h`, which is
not part of the sources at hand; it closes the snippet, after which no stage may be
added. -/
def Snippet.End (sn : Snippet) : Snippet := { sn with is_end_ := true }

/-- The function `Snippet::AddStage`. -/
def Snippet.AddStage (sn : Snippet) (stage : Stage) : Option Snippet := do
  CHECK (!sn.is_end_)
  CHECK (decide (stage.type ≠ .unk))
  let sn ←
    if sn.is_unk then pure { sn with type_ := stage.type }
    else do
      CHECK (decide (sn.type_ = stage.type))
      pure sn
  pure { sn with stages_ := sn.stages_ ++ [stage] }

/-- The element `back()` of a vector and the vector without it; `none` on an empty
vector. -/
def vec_back {α : Type} : List α → Option (List α × α)
  | [] => none
  | x :: xs =>
    match vec_back xs with
    | none => some ([], x)
    | some (init, last) => some (x :: init, last)

/-- One round of the loop of `Function::BuildSnippets`. -/
def BuildSnippets_body (snippets : List Snippet) (stage : Stage) : Option (List Snippet) := do
  let snippets ←
    match vec_back snippets with
    | none => pure (snippets ++ [Snippet.new])
    | some (init, back) =>
      if back.is_unk then pure (snippets ++ [Snippet.new])
      else if back.type_ ≠ stage.type then pure (init ++ [back.End] ++ [Snippet.new])
      else pure snippets
  let (init, back) ← vec_back snippets
  let back ← back.AddStage stage
  pure (init ++ [back])

/-- The loop of `Function::BuildSnippets` over the stages that are left. -/
def BuildSnippets_loop : List Snippet → List Stage → Option (List Snippet)
  | snippets, [] => some snippets
  | snippets, stage :: stages => do
    let snippets ← BuildSnippets_body snippets stage
    BuildSnippets_loop snippets stages

/-- The data of a `Function` that `function.cc` reads and writes. -/
structure Function.Data where
  name : String
  stages : List Stage
  snippets : List Snippet
  transformed_expr : Expr

/-- The function `Function::BuildSnippets`. -/
def Function.BuildSnippets (d : Function.Data) : Option Function.Data := do
  let snippets ← BuildSnippets_loop d.snippets d.stages
  let snippets :=
    match vec_back snippets with
    | none => snippets
    | some (init, back) => init ++ [back.End]
  pure { d with snippets := snippets }

/-! ## The validity a snippet hands to the scheduler (`function.cc`) -/

/-- The accessor `Stage::iterator_domain`: the points of the stage under the tuple name
that `Stage::ExtractDomainFromExpr` gives the domain, the name of the stage. -/
def Stage.iterator_domain (s : Stage) : isl.set := ⟨s.name, s.domain_points⟩

/-- The accessor `Stage::read_access`: the reads that `CollectAccess` builds, from the
statement of the stage to the elements read. -/
def Stage.read_access (s : Stage) : union_map :=
  s.reads.map (fun r => (⟨s.name, r.1⟩, r.2))

/-- The accessor `Stage::write_access`: the writes that `CollectAccess` builds, from the
statement of the stage to the elements written. -/
def Stage.write_access (s : Stage) : union_map :=
  s.writes.map (fun r => (⟨s.name, r.1⟩, r.2))

/-- The function `Snippet::CollectIteratorDomain`, returning the domain it leaves in the
snippet; `none` inside is the null object the snippet starts with. -/
def Snippet.CollectIteratorDomain (sn : Snippet) : Option (Option union_set) := do
  CHECK (decide (sn.type_ = .polyhedral))
  pure (sn.stages_.foldl (fun iterator_domain stage =>
    match iterator_domain with
    | none => some (isl_union_set_from_set stage.iterator_domain)
    | some u => some (isl_union_set_add_set u stage.iterator_domain)) none)

/-- The function `Snippet::CollectReadAccess`, returning the union it leaves in the
snippet; `none` inside is the null object the snippet starts with. -/
def Snippet.CollectReadAccess (sn : Snippet) : Option (Option union_map) := do
  CHECK (decide (sn.type_ = .polyhedral))
  pure (sn.stages_.foldl (fun access_reads stage =>
    match access_reads with
    | none => some stage.read_access
    | some u => some (isl_union_map_union u stage.read_access)) none)

/-- The function `Snippet::CollectWriteAccess`, returning the union it leaves in the
snippet; `none` inside is the null object the snippet starts with. -/
def Snippet.CollectWriteAccess (sn : Snippet) : Option (Option union_map) := do
  CHECK (decide (sn.type_ = .polyhedral))
  pure (sn.stages_.foldl (fun access_writes stage =>
    match access_writes with
    | none => some stage.write_access
    | some u => some (isl_union_map_union u stage.write_access)) none)

/-- The function `Snippet::ComputeSchedule` up to the validity it sets on the schedule
constraints, on a snippet whose domain and accesses were collected from its stages (the
collecting functions run first, section 4.4 of the specification).  A null domain or
access aborts. -/
def Snippet.ComputeSchedule_validity (sn : Snippet) : Option union_map := do
  CHECK (decide (sn.type_ = .polyhedral))
  let iterator_domain ← sn.CollectIteratorDomain
  let access_reads ← sn.CollectReadAccess
  let access_writes ← sn.CollectWriteAccess
  let reads ← access_reads
  let writes ← access_writes
  let domain ← iterator_domain
  let deps := ComputeDeps domain reads writes
  let validity := ComputeScheduleValidity domain deps
  pure validity

/-- The tensor `A` with one int32 element. -/
def tensor_A : Expr := .mk .int32 .primitive (.Tensor "A" [Constant.of_int32 1])

/-- The tensor `B` with one int32 element. -/
def tensor_B : Expr := .mk .int32 .primitive (.Tensor "B" [Constant.of_int32 1])

/-- The iterator `i`. -/
def iter_i : Expr := .mk .int32 .primitive (.Var "i")

/-- The reference `A[i]`. -/
def ref_A : Expr := .mk .int32 .primitive (.Reference tensor_A [iter_i])

/-- The reference `B[i]`. -/
def ref_B : Expr := .mk .int32 .primitive (.Reference tensor_B [iter_i])

/-- The stage `name: A[i] = 1` over the single instance `i = 0`: it reads nothing and
writes `A[0]`. -/
def stage_write_A (name : String) : Stage :=
  ⟨name, .mk .int32 .primitive (.Binary .Assign ref_A one_i32), [[0]],
    [], [([0], ⟨"A", [0]⟩)]⟩

/-- The stage `name: B[i] = A[i]` over the single instance `i = 0`: it reads `A[0]` and
writes `B[0]`. -/
def stage_read_A (name : String) : Stage :=
  ⟨name, .mk .int32 .primitive (.Binary .Assign ref_B ref_A), [[0]],
    [([0], ⟨"A", [0]⟩)], [([0], ⟨"B", [0]⟩)]⟩

/-- The ended polyhedral snippet of the stages `S2: A[i] = 1` and `S10: B[i] = A[i]`, in
this order. -/
def snippet_S2_S10 : Snippet :=
  ⟨.polyhedral, [stage_write_A "S2", stage_read_A "S10"], true⟩

/-! ## From the AST of a schedule to the IR (`isl_code_gen.cc`, with the makers of
`ir.cc` it calls) -/

/-- The function `Minus::make`. -/
def ir.Minus.make (a : Expr) : Option Expr := do
  CHECK a.valid
  let node_a := a
  CHECK (!(← node_a.is_unk))
  pure (fresh (← a.ptype) (.Unary .Minus node_a))

/-- The function `For::make`; the iterator is a `Var`, held here as the handle to it. -/
def ir.For.make (iter_init iter_cond iter_inc body iterator : Expr) : Option Expr := do
  CHECK iter_inc.valid
  CHECK iter_cond.valid
  CHECK iter_inc.valid
  CHECK body.valid
  CHECK (!(← iter_init.is_unk))
  CHECK (!(← iter_cond.is_unk))
  CHECK (!(← iter_inc.is_unk))
  pure (fresh .void_ (.For iter_init iter_cond iter_inc body iterator))

/-- The function `IfThenElse::make` with two arguments. -/
def ir.IfThenElse.make (condition true_block : Expr) : Expr :=
  fresh .void_ (.IfThenElse condition true_block .null)

/-- The function `IfThenElse::make` with three arguments. -/
def ir.IfThenElse.make3 (condition true_block false_block : Expr) : Expr :=
  fresh .void_ (.IfThenElse condition true_block false_block)

/-- The function `Call::make`. -/
def ir.Call.make (caller : String) (arguments : List Expr) : Option Expr := do
  CHECK (arguments.all Expr.valid)
  CHECK (arguments.all (fun v => v.is_unk = some false))
  pure (fresh .void_ (.Call caller arguments))

/-- The function `Mark::make`; it sets no type on the node. -/
def ir.Mark.make (content : String) : Expr :=
  fresh .unk (.Mark content)

/-- The conversion `static_cast<int>` of a `long`: the value modulo `2^32`, as a signed
32-bit integer. -/
def to_int32 (v : Int) : Int :=
  (v + 2147483648) % 4294967296 - 2147483648

/-- Modelled from the spec: the constructor `Expr(int32_t)` is declared in
`cinn/ir/expr.h`, which is not part of the sources at hand; integers become `IntImm` of
type int32 (section 4.5). -/
def ir.Expr.of_int32 (x : Int) : Expr :=
  fresh .int32 (.IntImm x)

/-- The constructor `Var(name, dtype)` followed by the conversion `Var::operator Expr`:
a handle to a `Var` node of the given primitive type. -/
def ir.Var.make (name : String) (dtype : primitive_t) : Expr :=
  fresh dtype (.Var name)

mutual
/-- The function `IslAstExprToCinnExpr`, returning the new value of the handle `expr`
points to.  The constructor `Var(name)` is declared in a header that is not part of the
sources at hand; `var_ptype` is the primitive type it leaves on the variable. -/
def IslAstExprToCinnExpr (var_ptype : primitive_t) : isl.ast_expr → Expr → Option Expr
  | .int val, expr => expr.assign (Expr.of_int32 (to_int32 val))
  | .id name, expr => expr.assign (Var.make name var_ptype)
  | .op op_type args, expr => do
    let ops ← IslAstExprToCinnExpr_ops var_ptype args
    let ops ← ops.mapM (fun op => op.set_ptype .int32)
    match op_type with
    | .and => do
      let ops ← ops.mapM (fun op => op.set_ptype .boolean)
      expr.assign (← And.make (← ops.get? 0) (← ops.get? 1))
    | .or => do expr.assign (← Or.make (← ops.get? 0) (← ops.get? 1))
    | .min => do expr.assign (← Min.make (← ops.get? 0) (← ops.get? 1))
    | .max => do expr.assign (← Max.make (← ops.get? 0) (← ops.get? 1))
    | .minus => do expr.assign (← Minus.make (← ops.get? 0))
    | .add => do expr.assign (← Add.make (← ops.get? 0) (← ops.get? 1))
    | .sub => do expr.assign (← Sub.make (← ops.get? 0) (← ops.get? 1))
    | .mul => do expr.assign (← Mul.make (← ops.get? 0) (← ops.get? 1))
    | .div => do expr.assign (← Div.make (← ops.get? 0) (← ops.get? 1))
    | .le => do expr.assign (← LE.make (← ops.get? 0) (← ops.get? 1))
    | .lt => do expr.assign (← LT.make (← ops.get? 0) (← ops.get? 1))
    | .ge => do expr.assign (← GE.make (← ops.get? 0) (← ops.get? 1))
    | .gt => do expr.assign (← GT.make (← ops.get? 0) (← ops.get? 1))
    | .eq => do expr.assign (← EQ.make (← ops.get? 0) (← ops.get? 1))
    | .call => do
      let caller_expr ← ops.head?
      let caller ←
        match caller_expr with
        | .mk _ _ (.Var name) => some name
        | _ => none
      let ops := ops.tail
      expr.assign (← Call.make caller ops)
    | .fdiv_q => do expr.assign (← Div.make (← ops.get? 0) (← ops.get? 1))
    | _ => none
/-- The loop of `IslAstExprToCinnExpr` over the arguments of an operation: each argument
is translated into a fresh handle and pushed onto `ops`. -/
def IslAstExprToCinnExpr_ops (var_ptype : primitive_t) : List isl.ast_expr → Option (List Expr)
  | [] => some []
  | expr0 :: rest => do
    let op ← IslAstExprToCinnExpr var_ptype expr0 .null
    let ops ← IslAstExprToCinnExpr_ops var_ptype rest
    pure (op :: ops)
end

mutual
/-- The function `IslAstNodeToCinnExpr` with the functions `EatBlock`, `EatFor`, `EatIf`,
`EatUser` and `EatMark` it dispatches to, returning the new value of the handle `expr`
points to. -/
def IslAstNodeToCinnExpr (var_ptype : primitive_t) : isl.ast_node → Expr → Option Expr
  | .block children, expr => do
    let exprs ← EatBlock_children var_ptype children
    expr.assign (← Block.make exprs)
  | .for_ iter initializer condition incrementor body, expr => do
    let iter_name ←
      match iter with
      | .id name => some name
      | _ => none
    let ir_body ← IslAstNodeToCinnExpr var_ptype body .null
    let ir_body ← ir_body.assign (← Block.make [ir_body])
    let ir_initializer ← IslAstExprToCinnExpr var_ptype initializer .null
    let ir_condition ← IslAstExprToCinnExpr var_ptype condition .null
    let _tmp ←
      match condition with
      | .op _ (_ :: arg :: _) => IslAstExprToCinnExpr var_ptype arg .null
      | _ => some .null
    let ir_inc ← IslAstExprToCinnExpr var_ptype incrementor .null
    let ir_iter := Var.make iter_name .float32
    expr.assign (← For.make ir_initializer ir_condition ir_inc ir_body ir_iter)
  | .if_then condition then_body, expr => do
    let ir_then_body ← IslAstNodeToCinnExpr var_ptype then_body .null
    let ir_else_body := Expr.null
    let ir_condition ← IslAstExprToCinnExpr var_ptype condition .null
    if ir_else_body.valid then
      expr.assign (IfThenElse.make3 ir_condition ir_then_body ir_else_body)
    else
      expr.assign (IfThenElse.make ir_condition ir_then_body)
  | .if_then_else condition then_body else_body, expr => do
    let ir_then_body ← IslAstNodeToCinnExpr var_ptype then_body .null
    let ir_else_body ← IslAstNodeToCinnExpr var_ptype else_body .null
    let ir_condition ← IslAstExprToCinnExpr var_ptype condition .null
    if ir_else_body.valid then
      expr.assign (IfThenElse.make3 ir_condition ir_then_body ir_else_body)
    else
      expr.assign (IfThenElse.make ir_condition ir_then_body)
  | .user isl_expr, expr => IslAstExprToCinnExpr var_ptype isl_expr expr
  | .mark id child_node, expr => do
    let mark := Mark.make id
    let child ← IslAstNodeToCinnExpr var_ptype child_node .null
    expr.assign (← Block.make [mark, child])
/-- The loop of `EatBlock` over the children of a block: each child is translated into a
fresh handle and pushed onto `exprs`. -/
def EatBlock_children (var_ptype : primitive_t) : List isl.ast_node → Option (List Expr)
  | [] => some []
  | child :: rest => do
    let child_expr ← IslAstNodeToCinnExpr var_ptype child .null
    let exprs ← EatBlock_children var_ptype rest
    pure (child_expr :: exprs)
end

/-- The loop `for (c0 = 0; c0 <= 19; c0 += 1) S0(c0);` as the AST generator emits it. -/
def for_c0 : isl.ast_node :=
  .for_ (.id "c0") (.int 0) (.op .le [.id "c0", .int 19]) (.int 1)
    (.user (.op .call [.id "S0", .id "c0"]))

/-- A stage that calls `f`. -/
def call_stage (n : String) : Stage :=
  ⟨n, .mk .void_ .primitive (.Call "f" []), [], [], []⟩

/-- A stage that assigns `1` to the variable `x`. -/
def assign_stage (n : String) : Stage :=
  ⟨n, .mk .int32 .primitive (.Binary .Assign (.mk .int32 .primitive (.Var "x")) one_i32),
    [], [], []⟩

/-- The state of the loop of `BuildSnippets` after the stages `done`: closed snippets
`pre` followed by the open snippet `cur`. -/
def BuildSnippets_inv (pre : List Snippet) (cur : Snippet) (done : List Stage) : Prop :=
  ((pre ++ [cur]).map Snippet.stages_).flatten = done ∧
  (∀ sn ∈ pre ++ [cur], sn.stages_ ≠ [] ∧ ∀ st ∈ sn.stages_, st.type = sn.type_) ∧
  List.Chain' (fun a b : Snippet => a.type_ ≠ b.type_) (pre ++ [cur]) ∧
  (∀ sn ∈ pre, sn.is_end_ = true) ∧ cur.is_end_ = false ∧ cur.type_ ≠ .unk


/-- The ended polyhedral snippet of the stages `S0: A[i] = 1` and `S1: B[i] = A[i]`, in
this order. -/
def snippet_S0_S1 : Snippet :=
  ⟨.polyhedral, [stage_write_A "S0", stage_read_A "S1"], true⟩

/-- A function of four stages, two assignments, a call and an assignment, before its
snippets are built. -/
def function_four_stages : Function.Data :=
  ⟨"f", [assign_stage "S0", assign_stage "S1", call_stage "S2", assign_stage "S3"], [], .null⟩

/-! ## Substituting the scheduled indices (`isl_code_gen.cc`) -/

/-- Modelled from the spec: the macro `OP_2_ARGS_FOR_EACH` is defined in a header that is
not part of the sources at hand; it lists the tags of the nodes with two operands, the
binary arithmetic, comparison, logical and assignment nodes of section 3. -/
def OP_2_ARGS_FOR_EACH : List Op2 :=
  [.Add, .Sub, .Mul, .Div, .Mod, .Min, .Max, .EQ, .NE, .LT, .LE, .GT, .GE, .And, .Or,
   .Assign, .SumAssign, .SubAssign, .MulAssign, .DivAssign]

/-- Modelled from the spec: the macro `OP_1_ARGS_FOR_EACH` is defined in a header that is
not part of the sources at hand; it lists the tags of the nodes with one operand, `Minus`
and `Exp` of section 3. -/
def OP_1_ARGS_FOR_EACH : List Op1 :=
  [.Minus, .Exp]

/-- Modelled from the spec: `ir::CopyExpr` is declared in `cinn/ir/ir_helper.h`, which is
not part of the sources at hand; it is the deep copy of section 4.1, and a tree is its own
copy. -/
def ir.CopyExpr (e : Expr) : Expr := e

mutual
/-- The function `ReplaceCinnIndiceWithIslTransformedIndicesHelper`, returning the new
value of `root`; the map from names to expressions is a list of pairs looked up by key.
The function reads `root.type()` first, which dereferences the handle. -/
def ReplaceCinnIndiceWithIslTransformedIndicesHelper (indice_map : List (String × Expr)) :
    Expr → Option Expr
  | .null => none
  | .mk pt ct (.Binary op a b) =>
    if op ∈ OP_2_ARGS_FOR_EACH then do
      let a ← ReplaceCinnIndiceWithIslTransformedIndicesHelper indice_map a
      let b ← ReplaceCinnIndiceWithIslTransformedIndicesHelper indice_map b
      pure (.mk pt ct (.Binary op a b))
    else
      some (.mk pt ct (.Binary op a b))
  | .mk pt ct (.Unary op a) =>
    if op ∈ OP_1_ARGS_FOR_EACH then do
      let a ← ReplaceCinnIndiceWithIslTransformedIndicesHelper indice_map a
      pure (.mk pt ct (.Unary op a))
    else
      some (.mk pt ct (.Unary op a))
  | .mk pt ct (.Var name) =>
    match indice_map.lookup name with
    | some it => some (CopyExpr it)
    | none => some (.mk pt ct (.Var name))
  | .mk pt ct (.Call caller arguments) => do
    let arguments ← ReplaceCinnIndiceWithIslTransformedIndicesHelper_each indice_map arguments
    pure (.mk pt ct (.Call caller arguments))
  | .mk pt ct (.Reference target iterators) => do
    let iterators ← ReplaceCinnIndiceWithIslTransformedIndicesHelper_each indice_map iterators
    pure (.mk pt ct (.Reference target iterators))
  | .mk pt ct (.IfThenElse condition true_block false_block) => do
    let condition ← ReplaceCinnIndiceWithIslTransformedIndicesHelper indice_map condition
    let true_block ←
      if true_block.valid then
        ReplaceCinnIndiceWithIslTransformedIndicesHelper indice_map true_block
      else pure true_block
    let false_block ←
      if false_block.valid then
        ReplaceCinnIndiceWithIslTransformedIndicesHelper indice_map false_block
      else pure false_block
    pure (.mk pt ct (.IfThenElse condition true_block false_block))
  | .mk pt ct (.IntImm val) => some (.mk pt ct (.IntImm val))
  | .mk pt ct (.Tensor name dims) => some (.mk pt ct (.Tensor name dims))
  | .mk pt ct (.Block body) => some (.mk pt ct (.Block body))
  | .mk pt ct (.For i c n b it) => some (.mk pt ct (.For i c n b it))
  | .mk pt ct (.Mark content) => some (.mk pt ct (.Mark content))
  | .mk pt ct (.Allocate n s t) => some (.mk pt ct (.Allocate n s t))
/-- The loops `for (auto& it : ...)` of the helper over the arguments of a call and over
the iterators of a reference: each handle of the vector is replaced in place. -/
def ReplaceCinnIndiceWithIslTransformedIndicesHelper_each (indice_map : List (String × Expr)) :
    List Expr → Option (List Expr)
  | [] => some []
  | it :: rest => do
    let it ← ReplaceCinnIndiceWithIslTransformedIndicesHelper indice_map it
    let rest ← ReplaceCinnIndiceWithIslTransformedIndicesHelper_each indice_map rest
    pure (it :: rest)
end

mutual
/-- The substitution as the specification words it: a `Var` whose name is a key of the map
becomes the expression the map gives; the substitution goes into the operands of unary and
binary operators, the arguments of a `Call`, the indices of a `Reference` and the
condition and both branches of an `IfThenElse`; every other node stays as it is. -/
def substitute_indices (m : List (String × Expr)) : Expr → Expr
  | .null => .null
  | .mk pt ct (.Var name) =>
    match m.lookup name with
    | some e => e
    | none => .mk pt ct (.Var name)
  | .mk pt ct (.Binary op a b) =>
    .mk pt ct (.Binary op (substitute_indices m a) (substitute_indices m b))
  | .mk pt ct (.Unary op a) => .mk pt ct (.Unary op (substitute_indices m a))
  | .mk pt ct (.Call caller arguments) =>
    .mk pt ct (.Call caller (substitute_indices_each m arguments))
  | .mk pt ct (.Reference target iterators) =>
    .mk pt ct (.Reference target (substitute_indices_each m iterators))
  | .mk pt ct (.IfThenElse condition true_block false_block) =>
    .mk pt ct (.IfThenElse (substitute_indices m condition) (substitute_indices m true_block)
      (substitute_indices m false_block))
  | .mk pt ct (.IntImm val) => .mk pt ct (.IntImm val)
  | .mk pt ct (.Tensor name dims) => .mk pt ct (.Tensor name dims)
  | .mk pt ct (.Block body) => .mk pt ct (.Block body)
  | .mk pt ct (.For i c n b it) => .mk pt ct (.For i c n b it)
  | .mk pt ct (.Mark content) => .mk pt ct (.Mark content)
  | .mk pt ct (.Allocate n s t) => .mk pt ct (.Allocate n s t)
/-- The substitution on each expression of a list. -/
def substitute_indices_each (m : List (String × Expr)) : List Expr → List Expr
  | [] => []
  | e :: rest => substitute_indices m e :: substitute_indices_each m rest
end

mutual
/-- An expression the helper can walk: the handle is defined, and so are the operands of
its operators, the arguments of its calls, the indices of its references and the
conditions of its `IfThenElse` nodes, at any depth the helper goes to; a branch of an
`IfThenElse` may be missing. -/
def walkable : Expr → Prop
  | .null => False
  | .mk _ _ (.Binary _ a b) => walkable a ∧ walkable b
  | .mk _ _ (.Unary _ a) => walkable a
  | .mk _ _ (.Call _ arguments) => walkable_each arguments
  | .mk _ _ (.Reference _ iterators) => walkable_each iterators
  | .mk _ _ (.IfThenElse condition true_block false_block) =>
    walkable condition ∧ (true_block = .null ∨ walkable true_block) ∧
      (false_block = .null ∨ walkable false_block)
  | .mk _ _ (.Var _) => True
  | .mk _ _ (.IntImm _) => True
  | .mk _ _ (.Tensor _ _) => True
  | .mk _ _ (.Block _) => True
  | .mk _ _ (.For _ _ _ _ _) => True
  | .mk _ _ (.Mark _) => True
  | .mk _ _ (.Allocate _ _ _) => True
/-- Every expression of the list can be walked. -/
def walkable_each : List Expr → Prop
  | [] => True
  | e :: rest => walkable e ∧ walkable_each rest
end

/-- The expression `A[i + 1] = B[j]`. -/
def assign_A_B : Expr :=
  .mk .int32 .primitive (.Binary .Assign
    (.mk .int32 .primitive (.Reference tensor_A
      [.mk .int32 .primitive (.Binary .Add iter_i one_i32)]))
    (.mk .int32 .primitive (.Reference tensor_B [.mk .int32 .primitive (.Var "j")])))

/-- The index map `i -> c0, j -> c1 + 1`. -/
def indices_c0_c1 : List (String × Expr) :=
  [("i", .mk .int32 .primitive (.Var "c0")),
   ("j", .mk .int32 .primitive (.Binary .Add (.mk .int32 .primitive (.Var "c1")) one_i32))]

/-! ## The transformed expression of a function (`function.cc`) -/

/-- The function `Snippet::GetTransformedExpr`.  The polyhedral path goes through the AST
generator of the integer-set library and through `ReplaceExprWithStage`, which are not
part of the sources at hand; `polyhedral_expr` is the expression that path returns for a
snippet, `none` when it aborts. -/
def Snippet.GetTransformedExpr (polyhedral_expr : Snippet → Option Expr) (sn : Snippet) :
    Option Expr := do
  CHECK sn.is_end_
  if !sn.is_polyhedral then
    if sn.stages_.length = 1 then do
      let (_, back) ← vec_back sn.stages_
      pure back.expr
    else
      Block.make (sn.stages_.map Stage.expr)
  else
    polyhedral_expr sn

/-- The loop of `Function::ComputeTransformedExpr` over the snippets: the transformed
expression of each snippet is pushed onto `exprs`. -/
def ComputeTransformedExpr_exprs (polyhedral_expr : Snippet → Option Expr) :
    List Snippet → Option (List Expr)
  | [] => some []
  | snippet :: rest => do
    let expr ← snippet.GetTransformedExpr polyhedral_expr
    let exprs ← ComputeTransformedExpr_exprs polyhedral_expr rest
    pure (expr :: exprs)

/-- The function `Function::ComputeTransformedExpr`, returning the expression and the data
of the function with the expression stored. -/
def Function.ComputeTransformedExpr (polyhedral_expr : Snippet → Option Expr)
    (d : Function.Data) : Option (Expr × Function.Data) := do
  if d.transformed_expr.valid then
    pure (d.transformed_expr, d)
  else
    let (_, back) ← vec_back d.snippets
    let transformed_expr ←
      d.transformed_expr.assign (← back.GetTransformedExpr polyhedral_expr)
    let transformed_expr ←
      if d.snippets.length > 1 then do
        let exprs ← ComputeTransformedExpr_exprs polyhedral_expr d.snippets
        transformed_expr.assign (← Block.make exprs)
      else pure transformed_expr
    pure (transformed_expr, { d with transformed_expr := transformed_expr })

/-- The invariant `Snippet::AddStage` keeps with its two checks: every stage of a snippet
has a type other than `unk`, and it is the type of the snippet. -/
def Snippet.stages_typed (sn : Snippet) : Prop :=
  ∀ st ∈ sn.stages_, st.type ≠ .unk ∧ st.type = sn.type_

/-- The ended snippet of one call stage. -/
def snippet_call (n : String) : Snippet := ⟨.function_call, [call_stage n], true⟩

/-- A function with one ended snippet and no transformed expression yet. -/
def function_one_snippet : Function.Data :=
  ⟨"f", [call_stage "S0"], [snippet_call "S0"], .null⟩

/-- A function with two ended snippets and no transformed expression yet. -/
def function_two_snippets : Function.Data :=
  ⟨"f", [call_stage "S0", call_stage "S1"], [snippet_call "S0", snippet_call "S1"], .null⟩

/-! ## The assignment family (`ir.cc`, lines 436-519) -/

/-- The function `SumAssign::make`. -/
def ir.SumAssign.make (a b : Expr) : Option Expr := XAssignMake .SumAssign a b

/-- The function `MulAssign::make`. -/
def ir.MulAssign.make (a b : Expr) : Option Expr := XAssignMake .MulAssign a b

/-- The function `DivAssign::make`. -/
def ir.DivAssign.make (a b : Expr) : Option Expr := XAssignMake .DivAssign a b

/-- The function `SubAssign::make`. -/
def ir.SubAssign.make (a b : Expr) : Option Expr := XAssignMake .SubAssign a b

/-- The operator `Expr::operator+=`, returning the new value of the handle assigned to. -/
def ir.Expr.sum_assign (self other : Expr) : Option Expr :=
  if !self.valid || self.type != some NodeTy.Reference then
    some other
  else do
    CHECK other.valid
    SumAssign.make self other

/-- The operator `Expr::operator-=`, returning the new value of the handle assigned to. -/
def ir.Expr.sub_assign (self other : Expr) : Option Expr :=
  if !self.valid || self.type != some NodeTy.Reference then
    some other
  else do
    CHECK other.valid
    SubAssign.make self other

/-- The operator `Expr::operator*=`, returning the new value of the handle assigned to. -/
def ir.Expr.mul_assign (self other : Expr) : Option Expr :=
  if !self.valid || self.type != some NodeTy.Reference then
    some other
  else do
    CHECK other.valid
    MulAssign.make self other

/-- The operator `Expr::operator/=`, returning the new value of the handle assigned to. -/
def ir.Expr.div_assign (self other : Expr) : Option Expr :=
  if !self.valid || self.type != some NodeTy.Reference then
    some other
  else do
    CHECK other.valid
    DivAssign.make self other

/-- The makers of the assignment family, each with the tag of the node it builds. -/
def assign_makers : List (Op2 × (Expr → Expr → Option Expr)) :=
  [(.Assign, Assign.make), (.SumAssign, SumAssign.make), (.SubAssign, SubAssign.make),
   (.MulAssign, MulAssign.make), (.DivAssign, DivAssign.make)]

/-- The assignment operators `=`, `+=`, `-=`, `*=` and `/=` on handles, each with the tag
of the node it builds on a `Reference`. -/
def assign_operators : List (Op2 × (Expr → Expr → Option Expr)) :=
  [(.Assign, Expr.assign), (.SumAssign, Expr.sum_assign), (.SubAssign, Expr.sub_assign),
   (.MulAssign, Expr.mul_assign), (.DivAssign, Expr.div_assign)]

/-- A mark, as `Mark::make` returns it: a defined handle of primitive type `unk`. -/
def mark_m : Expr := Mark.make "m"

/-- The float32 literal handle used as a right-hand side. -/
def rhs_f32 : Expr := .mk .float32 .primitive (.Var "t")

/-- A function of one assignment stage, before its snippets are built. -/
def function_one_stage : Function.Data :=
  ⟨"f", [assign_stage "S0"], [], .null⟩

/-- A function of an assignment stage followed by a call stage, before its snippets are
built. -/
def function_assign_call : Function.Data :=
  ⟨"f", [assign_stage "S0", call_stage "S1"], [], .null⟩

/-! ## Constants, intervals and the registry of variable names (`ir.cc`, lines 362-406) -/

/-- The bounds of a variable, `Interval`. -/
structure ir.Interval where
  lower_bound : Constant
  upper_bound : Constant
  deriving DecidableEq, Repr

/-- The object `ir::Var` as its constructors leave it: name, primitive type and interval
(the default interval when the constructor sets none). -/
structure ir.Var.Object where
  name_ : String
  ptype : primitive_t
  interval_ : Option Interval
  deriving DecidableEq, Repr

/-- The function `Var::CheckNameValid` on the set `Var::name_set_`, given by its elements:
the answer and the set afterwards. -/
def ir.Var.CheckNameValid (name_set_ : List String) (name : String) : Bool × List String :=
  if !(name_set_.contains name) then
    (true, name :: name_set_)
  else
    (false, name_set_)

/-- The constructor `Var(name, lower_bound, upper_bound)`: the variable and the name set
afterwards.  The answer of `CheckNameValid` is not read. -/
def ir.Var.new_bounds (name_set_ : List String) (name : String) (lower_bound upper_bound : Int) :
    Var.Object × List String :=
  let data : Var.Object :=
    ⟨name, .int32, some ⟨Constant.of_int32 lower_bound, Constant.of_int32 upper_bound⟩⟩
  (data, (Var.CheckNameValid name_set_ name).2)

/-- The constructor `Var(name, dtype)`: the variable and the name set afterwards.  The
answer of `CheckNameValid` is not read. -/
def ir.Var.new_typed (name_set_ : List String) (name : String) (dtype : primitive_t) :
    Var.Object × List String :=
  let name_set_ := (Var.CheckNameValid name_set_ name).2
  (⟨name, dtype, none⟩, name_set_)

/-- The constructor `Var(name, type, interval)`: the variable and the name set afterwards.
The answer of `CheckNameValid` is not read. -/
def ir.Var.new_interval (name_set_ : List String) (name : String) (type : primitive_t)
    (interval : Interval) : Var.Object × List String :=
  let data : Var.Object := ⟨name, type, some interval⟩
  (data, (Var.CheckNameValid name_set_ data.name_).2)

/-- The constructor `Var(name, type, lower_bound, upper_bound)` on two constants: the
variable and the name set afterwards.  The answer of `CheckNameValid` is not read. -/
def ir.Var.new_constants (name_set_ : List String) (name : String) (type : primitive_t)
    (lower_bound upper_bound : Constant) : Var.Object × List String :=
  let data : Var.Object := ⟨name, type, some ⟨lower_bound, upper_bound⟩⟩
  (data, (Var.CheckNameValid name_set_ name).2)

/-! ## Stages built from text, and `Split` (`stage.cc`, lines 218-344)

A set read from text is kept as the text with the tuple name and the dim names the library
reads from it; a schedule is kept as the operations that built it. -/

namespace isl

/-- A set read from its text: the text, the name of its tuple and the names of its dims. -/
structure named_set where
  text : String
  tuple : String
  dims : List String
  deriving DecidableEq, Repr

/-- A map read from the text `repr` of the form
`{ in_statement -> out_tuple[out_dims] : conds }`, with the parts the text was put together
from; `in_dims` are the names the statement lists. -/
structure transform where
  repr : String
  in_statement : String
  in_dims : List String
  out_tuple : String
  out_dims : List String
  conds : List String
  deriving DecidableEq, Repr

/-- A schedule: the identity map of a domain, or an older schedule followed by a
transform (`apply_range`). -/
inductive sched where
  | identity (domain : named_set)
  | apply_range (old : sched) (t : transform)
  deriving DecidableEq, Repr

/-- The name of the output tuple of a schedule. -/
def sched.out_tuple : sched → String
  | .identity domain => domain.tuple
  | .apply_range _ t => t.out_tuple

/-- The names of the output dims of a schedule, `isl_map_get_dim_name(_, isl_dim_out, i)`
for `i` below `isl_map_dim(_, isl_dim_out)`. -/
def sched.out_dims : sched → List String
  | .identity domain => domain.dims
  | .apply_range _ t => t.out_dims

/-- Whether an output dim of the schedule has the name, `isl_map_has_dim_name`. -/
def isl_map_has_dim_name (s : sched) (name : String) : Bool :=
  s.out_dims.contains name

end isl

/-- Modelled from the spec: `Concat` is defined in a file that is not part of the sources
at hand; it joins the strings with the separator between them. -/
def Concat (fields : List String) (splitter : String) : String :=
  splitter.intercalate fields

/-- Modelled from the spec: `isl_map_get_statement_repr` is defined in a file that is not
part of the sources at hand; it gives the statement `T[d0, d1, ..]` of the output tuple. -/
def isl_map_get_statement_repr_out (s : isl.sched) : String :=
  s.out_tuple ++ "[" ++ Concat s.out_dims ", " ++ "]"

/-- The fields of `Stage::Data` that the constructor from a name and a domain text fills
or leaves as `InitData` made them. -/
structure Stage.TextData where
  name : String
  iter_domain : Option isl.named_set
  schedule : Option isl.sched
  deriving DecidableEq, Repr

/-- The function `Stage::InitData` : a fresh record, every field empty. -/
def Stage.InitData : Stage.TextData := ⟨"", none, none⟩

/-- The function `Stage::InitSchedule` (lines 218-231): the schedule becomes the identity
map of the iteration domain. -/
def Stage.InitSchedule (data_ : Stage.TextData) : Option Stage.TextData := do
  let iter_domain ← data_.iter_domain
  let schedule := isl.sched.identity iter_domain
  pure { data_ with schedule := some schedule }

/-- Modelled from the spec: `Generator::RegisterStage` is defined in a file that is not
part of the sources at hand; it records the stage in the process-wide registry under the
key it is given. -/
def Generator.RegisterStage (registry : List (String × Stage.TextData)) (name : String)
    (x : Stage.TextData) : List (String × Stage.TextData) :=
  (name, x) :: registry

/-- Modelled from the spec: the lookup in the process-wide stage registry is defined in a
file that is not part of the sources at hand; it gives the stage recorded last under the
key. -/
def Generator.GetStageByName (registry : List (String × Stage.TextData)) (name : String) :
    Option Stage.TextData :=
  (registry.find? (fun kv => kv.1 == name)).map (fun kv => kv.2)

/-- The constructor `Stage::Stage(name, iter_domain)` (lines 233-243).  `read_set` stands
for `isl::set(ctx, text)`, `none` being the null set of a text that does not parse.  The
result is the stage's data and the registry afterwards. -/
def Stage.new_named (read_set : String → Option isl.named_set)
    (registry : List (String × Stage.TextData)) (name iter_domain : String) :
    Option (Stage.TextData × List (String × Stage.TextData)) := do
  let data_ := Stage.InitData
  CHECK (!name.isEmpty)
  CHECK (!iter_domain.isEmpty)
  let data_ := { data_ with iter_domain := read_set iter_domain }
  CHECK data_.iter_domain.isSome
  let data_ ← Stage.InitSchedule data_
  pure (data_, Generator.RegisterStage registry data_.name data_)

/-- The function `Stage::set_name` (lines 245-250) on the stage's data and the set
`Data::names` of the names in use. -/
def Stage.set_name (names : List String) (data_ : Stage.TextData) (name : String) :
    Option (Stage.TextData × List String) := do
  CHECK (!name.isEmpty)
  CHECK (!names.contains name)
  let data_ := { data_ with name := name }
  pure (data_, data_.name :: names)

/-- The loop of `Stage::Split` over the output dims of the schedule: `target_dims` and
`target_conds` after the dims listed. -/
def Stage.Split_loop (iter new_i_name new_i_name1 new_i_repr new_i_repr1 : String) :
    List String → List String × List String → List String × List String
  | [], acc => acc
  | dim_name :: rest, (target_dims, target_conds) =>
      if iter = dim_name then
        Stage.Split_loop iter new_i_name new_i_name1 new_i_repr new_i_repr1 rest
          (target_dims ++ [new_i_name, new_i_name1], target_conds ++ [new_i_repr, new_i_repr1])
      else
        Stage.Split_loop iter new_i_name new_i_name1 new_i_repr new_i_repr1 rest
          (target_dims ++ [dim_name], target_conds)

/-- The function `Stage::Split` (lines 300-344) on the stage's name and schedule: the
schedule it stores.  The transform is the map the library reads from `transform_repr`, its
output dims then given the names `target_dims` by `isl_map_set_dim_names`. -/
def Stage.Split (name : String) (schedule : Option isl.sched) (iter : String) (size : Int) :
    Option isl.sched := do
  let schedule ← schedule
  CHECK (decide (size > 0))
  CHECK (isl_map_has_dim_name schedule iter)
  let new_i_name := iter ++ "_"
  let new_i_name1 := iter ++ "__"
  let out_statement_repr := isl_map_get_statement_repr_out schedule
  let new_i_repr := new_i_name ++ " = floor(" ++ iter ++ "/" ++ toString size ++ ")"
  let new_i_repr1 := new_i_name1 ++ " = " ++ iter ++ " % " ++ toString size
  let (target_dims, target_conds) :=
    Stage.Split_loop iter new_i_name new_i_name1 new_i_repr new_i_repr1 schedule.out_dims ([], [])
  let transform_repr := "\x7b " ++ out_statement_repr ++ " -> " ++ name ++ "[" ++
    Concat target_dims ", " ++ "]: " ++ Concat target_conds " and " ++ " \x7d"
  let transform : isl.transform :=
    ⟨transform_repr, out_statement_repr, schedule.out_dims, name, target_dims, target_conds⟩
  pure (schedule.apply_range transform)

/-- The text `{ S0[i] : 0 <= i < 10 }` read as a set; any other text is taken not to
parse. -/
def read_S0 (text : String) : Option isl.named_set :=
  if text = "\x7b S0[i] : 0 <= i < 10 \x7d" then some ⟨text, "S0", ["i"]⟩ else none

/-- The schedule of a stage `S` over `i, j, k`. -/
def sched_ijk : isl.sched :=
  .identity ⟨"\x7b S[i, j, k] : 0 <= i, j, k < 100 \x7d", "S", ["i", "j", "k"]⟩

/-! ## Subscripting and the iteration domain of a reference (`ir.cc`, lines 421-434, 521-549, 600-722)

The printer `ir::Dump` is not part of the sources at hand; the functions below take it as
the argument `Dump`.  The integer-set library reads an object from a text, or gives the
null object when it rejects the text, as it does for an index that is not affine; the
functions below take the argument `reads`, which tells whether the library reads a text.
An object read is kept as its text with the parts the text was put together from; the null
object is `none`. -/

mutual
/-- Modelled from the spec: `CollectVarsFromExpr` is defined in a file that is not part of
the sources at hand; it gathers the descendants of an expression that are variables
(section 4.1, Collect), given here by their names in the order of the walk. -/
def CollectVarsFromExpr : Expr → List String
  | .null => []
  | .mk _ _ (.Var name) => [name]
  | .mk _ _ (.Binary _ a b) => CollectVarsFromExpr a ++ CollectVarsFromExpr b
  | .mk _ _ (.Unary _ a) => CollectVarsFromExpr a
  | .mk _ _ (.Call _ arguments) => CollectVarsFromExpr_each arguments
  | .mk _ _ (.Reference target iterators) =>
    CollectVarsFromExpr target ++ CollectVarsFromExpr_each iterators
  | .mk _ _ (.IfThenElse condition true_block false_block) =>
    CollectVarsFromExpr condition ++ CollectVarsFromExpr true_block ++
      CollectVarsFromExpr false_block
  | .mk _ _ (.Block body) => CollectVarsFromExpr_each body
  | .mk _ _ (.For i c n b it) =>
    CollectVarsFromExpr i ++ CollectVarsFromExpr c ++ CollectVarsFromExpr n ++
      CollectVarsFromExpr b ++ CollectVarsFromExpr it
  | .mk _ _ (.Allocate _ s _) => CollectVarsFromExpr s
  | .mk _ _ (.IntImm _) => []
  | .mk _ _ (.Tensor _ _) => []
  | .mk _ _ (.Mark _) => []
/-- The variables of each expression of a list. -/
def CollectVarsFromExpr_each : List Expr → List String
  | [] => []
  | e :: rest => CollectVarsFromExpr e ++ CollectVarsFromExpr_each rest
end

mutual
/-- The loop `for (auto &var : vars) var->set_ptype(primitive_t::int32)` of `operator[]`
over the variables that `CollectVarsFromExpr` gathered: the expression once each of its
variables has primitive type int32. -/
def set_vars_int32 : Expr → Expr
  | .null => .null
  | .mk _ ct (.Var name) => .mk .int32 ct (.Var name)
  | .mk pt ct (.Binary op a b) => .mk pt ct (.Binary op (set_vars_int32 a) (set_vars_int32 b))
  | .mk pt ct (.Unary op a) => .mk pt ct (.Unary op (set_vars_int32 a))
  | .mk pt ct (.Call caller arguments) => .mk pt ct (.Call caller (set_vars_int32_each arguments))
  | .mk pt ct (.Reference target iterators) =>
    .mk pt ct (.Reference (set_vars_int32 target) (set_vars_int32_each iterators))
  | .mk pt ct (.IfThenElse condition true_block false_block) =>
    .mk pt ct (.IfThenElse (set_vars_int32 condition) (set_vars_int32 true_block)
      (set_vars_int32 false_block))
  | .mk pt ct (.Block body) => .mk pt ct (.Block (set_vars_int32_each body))
  | .mk pt ct (.For i c n b it) =>
    .mk pt ct (.For (set_vars_int32 i) (set_vars_int32 c) (set_vars_int32 n) (set_vars_int32 b)
      (set_vars_int32 it))
  | .mk pt ct (.Allocate n s t) => .mk pt ct (.Allocate n (set_vars_int32 s) t)
  | .mk pt ct (.IntImm val) => .mk pt ct (.IntImm val)
  | .mk pt ct (.Tensor name dims) => .mk pt ct (.Tensor name dims)
  | .mk pt ct (.Mark content) => .mk pt ct (.Mark content)
/-- The same on each expression of a list. -/
def set_vars_int32_each : List Expr → List Expr
  | [] => []
  | e :: rest => set_vars_int32 e :: set_vars_int32_each rest
end

/-- The loop of `Reference::make` over the iterators: each is defined and of a known type. -/
def ir.Reference.make_check : List Expr → Option Unit
  | [] => some ()
  | iterator :: rest => do
    CHECK iterator.valid
    CHECK (!(← iterator.is_unk))
    Reference.make_check rest

/-- The function `Reference::make` (lines 421-434). -/
def ir.Reference.make (expr : Expr) (iterators : List Expr) : Option Expr := do
  CHECK expr.valid
  CHECK (!(← expr.is_unk))
  Reference.make_check iterators
  pure (fresh (← expr.ptype) (.Reference expr iterators))

/-- The insertion into a `std::set<std::string>`, given by its elements in the order of the
set: a name the set holds is not inserted again. -/
def std_set_insert (s : List String) (x : String) : List String :=
  if s.contains x then s
  else s.orderedInsert (fun a b => strcmp (c_str a) (c_str b) ≤ 0) x

/-- The function `GenIndexedIteratorName`. -/
def GenIndexedIteratorName (id : Nat) : String := "ii" ++ toString id

namespace isl

/-- The set that `BuildDomainFromDimensions` reads from the text
`[params] -> { [dims] : constraints }`. -/
structure built_set where
  repr : String
  params : List String
  dims : List String
  constraints : List String
  deriving DecidableEq, Repr

/-- The map that `BuildDomainFromExprWithDimension` reads from the text
`{ in_tuple[in_dims] -> out_tuple[out_dims] : conds }`; a tuple the text gives no name
has the name `none`. -/
structure built_map where
  repr : String
  in_tuple : Option String
  in_dims : List String
  out_tuple : Option String
  out_dims : List String
  conds : List String
  deriving DecidableEq, Repr

/-- The image of a set under a map. -/
structure applied_set where
  set : built_set
  map : built_map
  deriving DecidableEq, Repr

/-- Modelled from the spec: the library is not part of the sources at hand; `set.apply(map)`
(section 4.2, step 4) is the image of the set under the map, and is null when the set or
the map is. -/
def isl_set_apply : Option built_set → Option built_map → Option applied_set
  | some s, some m => some ⟨s, m⟩
  | _, _ => none

/-- The names of the set dimensions of an image: those of the range of the map. -/
def applied_set.dims (a : applied_set) : List String := a.map.out_dims

end isl

/-- The loop of `BuildDomainFromDimensions` over the dims, each with its iterator:
`constraints` and `params` after the dims listed.  A dim without an iterator is read out
of range.  The accessor `int32_val()` is declared in a header that is not part of the
sources at hand; it is taken to give the int32 member, and the theorems on this loop are
stated for dims whose set values are of type int32. -/
def BuildDomainFromDimensions_loop :
    List Constant → List String → List String × List String → Option (List String × List String)
  | [], _, acc => some acc
  | _ :: _, [], _ => none
  | d :: dims, it :: iterators, (constraints, params) => do
    CHECK d.is_integer
    if d.value_set_ then
      BuildDomainFromDimensions_loop dims iterators
        (constraints ++ ["0<= " ++ it ++ " <" ++ toString d.int32_val_], params)
    else
      BuildDomainFromDimensions_loop dims iterators
        (constraints ++ ["0<= " ++ it ++ " <" ++ d.name_], std_set_insert params d.name_)

/-- The function `BuildDomainFromDimensions` (lines 644-675): `none` is an abort,
`some none` the null set of a text the library rejects. -/
def BuildDomainFromDimensions (reads : String → Bool) (dims : List Constant)
    (iterators : List String) : Option (Option isl.built_set) := do
  CHECK (!dims.isEmpty)
  let (constraints, params) ← BuildDomainFromDimensions_loop dims iterators ([], [])
  let params := if params.isEmpty then std_set_insert params "" else params
  let repr := "[" ++ Concat params ", " ++ "] -> \x7b [" ++ Concat iterators ", " ++ "] : " ++
    Concat constraints " and " ++ " \x7d"
  let result : Option isl.built_set :=
    if reads repr then some ⟨repr, params, iterators, constraints⟩ else none
  pure result

/-- The first loop of `BuildDomainFromExprWithDimension`, from the index `i` on:
`iterator_var_set` and `dim_alias` after the expressions listed. -/
def BuildDomainFromExprWithDimension_vars :
    List Expr → Nat → List String × List String → List String × List String
  | [], _, acc => acc
  | e :: exprs, i, (iterator_var_set, dim_alias) =>
    BuildDomainFromExprWithDimension_vars exprs (i + 1)
      ((CollectVarsFromExpr e).foldl std_set_insert iterator_var_set,
        dim_alias ++ [GenIndexedIteratorName i])

/-- The second loop of `BuildDomainFromExprWithDimension`: `alias_eq`, one equation for
each expression and its alias. -/
def BuildDomainFromExprWithDimension_alias_eq (Dump : Expr → String) :
    List Expr → List String → List String
  | e :: exprs, a :: dim_alias =>
    (a ++ "=" ++ Dump e) :: BuildDomainFromExprWithDimension_alias_eq Dump exprs dim_alias
  | _, _ => []

/-- The function `BuildDomainFromExprWithDimension` (lines 677-722): `none` is an abort,
`some none` the null set, which the image is when the library rejects the text of the
alias set or the text of the map.  The text of the map names neither tuple. -/
def BuildDomainFromExprWithDimension (reads : String → Bool) (Dump : Expr → String)
    (exprs : List Expr) (dimensions : List Constant) : Option (Option isl.applied_set) := do
  CHECK (exprs.length == dimensions.length)
  let (iterator_var_set, dim_alias) := BuildDomainFromExprWithDimension_vars exprs 0 ([], [])
  let iterator_vars := iterator_var_set
  let alias_domain ← BuildDomainFromDimensions reads dimensions dim_alias
  let alias_ := dim_alias
  let alias_eq := BuildDomainFromExprWithDimension_alias_eq Dump exprs dim_alias
  let repr := "\x7b [" ++ Concat alias_ ", " ++ "] -> [" ++ Concat iterator_vars ", " ++ "] : " ++
    Concat alias_eq " and " ++ " \x7d"
  let transforms : Option isl.built_map :=
    if reads repr then some ⟨repr, none, alias_, none, iterator_vars, alias_eq⟩ else none
  let result := isl.isl_set_apply alias_domain transforms
  pure result

/-- A handle together with the member `domain` of the `Reference` node it points to;
`none` is the null set, which the node is made with. -/
structure ir.Handle where
  expr : Expr
  domain : Option isl.applied_set

/-- The function `Expr::InferenceIteratorDomain` (lines 600-616), returning the handle
with the node as the call leaves it. -/
def ir.Expr.InferenceIteratorDomain (reads : String → Bool) (Dump : Expr → String)
    (self : Handle) : Option Handle :=
  match self.expr with
  | .mk _ _ (.Reference (.mk _ _ (.Tensor _ dims)) iterators) => do
    CHECK (decide (iterators.length ≤ dims.length))
    if iterators.length = dims.length then do
      let domain ← BuildDomainFromExprWithDimension reads Dump iterators dims
      pure { self with domain := domain }
    else
      pure self
  | _ => pure self

/-- The operator `Expr::operator[]` (lines 521-549), returning the handle it returns with
the node as the call leaves it.  On a `Reference` the index is appended to the node the
handle points to. -/
def ir.Expr.subscript (reads : String → Bool) (Dump : Expr → String) (self : Handle)
    (i : Expr) : Option Handle :=
  let vars := CollectVarsFromExpr i
  let is_var_iterator := !vars.isEmpty
  let i := if is_var_iterator then set_vars_int32 i else i
  match self.expr with
  | .mk pt ct (.Reference target iterators) =>
    let self : Handle := { self with expr := .mk pt ct (.Reference target (iterators ++ [i])) }
    if is_var_iterator then Expr.InferenceIteratorDomain reads Dump self else pure self
  | _ => do
    let node ← Reference.make self.expr [i]
    let result : Handle := ⟨node, none⟩
    if !vars.isEmpty then Expr.InferenceIteratorDomain reads Dump result else pure result

/-- The expression `x[e0][e1]..[ek-1]`: the subscripts applied from left to right. -/
def ir.Expr.subscript_each (reads : String → Bool) (Dump : Expr → String) (x : Handle) :
    List Expr → Option Handle
  | [] => some x
  | e :: rest =>
    (Expr.subscript reads Dump x e).bind (fun r => Expr.subscript_each reads Dump r rest)

/-- A printer for the examples: the name of a variable, the digits of an integer literal,
and the empty text for any other expression. -/
def Dump_atoms : Expr → String
  | .mk _ _ (.Var name) => name
  | .mk _ _ (.IntImm val) => toString val
  | _ => ""

/-- The iterator `j`. -/
def iter_j : Expr := .mk .int32 .primitive (.Var "j")

/-- The literal `0` of type int32. -/
def zero_i32 : Expr := .mk .int32 .primitive (.IntImm 0)

/-- The tensor `C` of int32 with 10 by 20 elements. -/
def tensor_C : Expr :=
  .mk .int32 .primitive (.Tensor "C" [Constant.of_int32 10, Constant.of_int32 20])

/-- A printer for the examples with sums and products: as `Dump_atoms` on a variable and
on an integer literal, and `(a + b)` and `(a * b)` for a sum and a product. -/
def Dump_arith : Expr → String
  | .mk _ _ (.Var name) => name
  | .mk _ _ (.IntImm val) => toString val
  | .mk _ _ (.Binary .Add a b) => "(" ++ Dump_arith a ++ " + " ++ Dump_arith b ++ ")"
  | .mk _ _ (.Binary .Mul a b) => "(" ++ Dump_arith a ++ " * " ++ Dump_arith b ++ ")"
  | _ => ""

/-- The library on the texts of the examples: it reads the texts of the alias sets and the
texts of the maps whose equations are affine, which are listed, and rejects any other
text, such as that of the map with the equation `ii0=(i * j)`. -/
def isl_reads_examples (text : String) : Bool :=
  [ "[] -> \x7b [ii0] : 0<= ii0 <1 \x7d",
    "[] -> \x7b [ii0, ii1] : 0<= ii0 <10 and 0<= ii1 <20 \x7d",
    "[N] -> \x7b [ii0] : 0<= ii0 <N \x7d",
    "\x7b [ii0] -> [i] : ii0=i \x7d",
    "\x7b [ii0] -> [i, j] : ii0=(i + j) \x7d",
    "\x7b [ii0, ii1] -> [i] : ii0=0 and ii1=i \x7d",
    "\x7b [ii0, ii1] -> [i, j] : ii0=j and ii1=i \x7d" ].contains text

/-- The symbolic constant `N` of type int32, no value set. -/
def constant_N : Constant := ⟨"N", .int32, false, 0, 0, .finite 0, .finite 0⟩

/-- The symbolic constant `M` of type int32, no value set. -/
def constant_M : Constant := ⟨"M", .int32, false, 0, 0, .finite 0, .finite 0⟩

/-- A constant of type float32, which is not an integer. -/
def constant_half : Constant := ⟨"", .float32, true, 0, 0, .finite (1 / 2), .finite 0⟩

/-- The tensor `F` of int32 whose one dim is given as a float32 constant, as `Tensor::make`
accepts it. -/
def tensor_F : Expr := .mk .int32 .primitive (.Tensor "F" [constant_half])

/-- The tensor `P` of int32 whose one dim is the symbolic constant `N`. -/
def tensor_P : Expr := .mk .int32 .primitive (.Tensor "P" [constant_N])

/-! ## Equality of constants (`ir.cc`, lines 217-239) -/

/-- The operator `Constant::operator==`: `none` is the abort of `LOG(FATAL)` on a primitive
type the switch does not list. -/
def ir.Constant.eq (self other : Constant) : Option Bool :=
  if !self.name_.isEmpty && self.name_ == other.name_ then some true
  else if self.ptype != other.ptype then some false
  else
    match self.ptype with
    | .float32 => some (self.float32_val_.eq other.float32_val_)
    | .int32 => some (decide (self.int32_val_ = other.int32_val_))
    | .int64 => some (decide (self.int64_val_ = other.int64_val_))
    | .float64 => some (self.float64_val_.eq other.float64_val_)
    | .unk => some true
    | _ => none

/-! ## Vector operations (`ir.cc`, lines 815-894)

The node `SIMDOpr` is kept apart from the nodes above, which the functions of the other
sections walk: a handle to it is the record of the fields the makers fill. -/

/-- The sub-opcode of a vector operation, `SIMDOpr::Opr`. -/
inductive ir.SIMDOpr.Opr where
  | kAdd | kSub | kMul | kDiv | kMin | kMax | kStore | kLoad | kReduceAdd
  deriving DecidableEq, Repr

/-- Modelled from the spec: the implementation kind of a node is declared in a header that
is not part of the sources at hand; a node is a normal value or an address (section 3,
the address of a `Load` is a normal primitive). -/
inductive ir.impl_t where
  | normal | address
  deriving DecidableEq, Repr

/-- A handle to a `SIMDOpr` node: the fields of the node with its primitive and composite
type. -/
structure ir.SIMDOpr where
  ptype : primitive_t
  ctype : composite_t
  vector_width : Int
  opr : SIMDOpr.Opr
  a : Expr
  b : Expr

/-- Modelled from the spec: `ToSimdType` is defined in a file that is not part of the
sources at hand; the composite type is derived from the width (section 3), simd128 for 4
and simd256 for 8, and no other width has one. -/
def ToSimdType (vector_width : Int) : Option composite_t :=
  if vector_width = 4 then some .simd128
  else if vector_width = 8 then some .simd256
  else none

/-- Modelled from the spec: `is_primitive()` is declared in a header that is not part of
the sources at hand; a handle is primitive when its composite type is `primitive`. -/
def ir.Expr.is_primitive (e : Expr) : Option Bool :=
  e.ctype.map (fun ct => decide (ct = composite_t.primitive))

/-- The function `SIMDOpr::make_store` (lines 879-894); `b_impl` is the implementation
kind of the node `b` points to. -/
def ir.SIMDOpr.make_store (vector_width : Int) (a b : Expr) (b_impl : impl_t) :
    Option SIMDOpr := do
  CHECK a.valid
  CHECK b.valid
  CHECK (decide (b_impl = .normal))
  CHECK (← b.is_simd)
  CHECK (decide ((← a.ptype) = (← b.ptype)))
  pure ⟨← b.ptype, ← ToSimdType vector_width, vector_width, .kStore, a, b⟩

/-- The function `SIMDOpr::make_load` (lines 852-877); `a_impl` is the implementation kind
of the node `a` points to, which the function then marks as an address. -/
def ir.SIMDOpr.make_load (vector_width : Int) (a : Expr) (a_impl : impl_t) :
    Option SIMDOpr := do
  CHECK (decide (a_impl = .normal))
  CHECK (← a.is_primitive)
  let ptype ← a.ptype
  let ctype ←
    if vector_width = 4 then some composite_t.simd128
    else if vector_width = 8 then some composite_t.simd256
    else none
  pure ⟨ptype, ctype, vector_width, .kLoad, a, .null⟩

/-- The function `SIMDOpr::make` (lines 815-850); `a_impl` and `b_impl` are the
implementation kinds of the nodes the operands point to. -/
def ir.SIMDOpr.make (vector_width : Int) (opr : SIMDOpr.Opr) (a b : Expr)
    (a_impl b_impl : impl_t) : Option SIMDOpr := do
  CHECK (decide (vector_width = 4 ∨ vector_width = 8))
  match opr with
  | .kAdd | .kSub | .kMul | .kDiv | .kMax | .kMin =>
    let ptype ← a.ptype
    if vector_width = 4 then pure ⟨ptype, .simd128, vector_width, opr, a, b⟩
    else if vector_width = 8 then pure ⟨ptype, .simd256, vector_width, opr, a, b⟩
    else none
  | .kStore => SIMDOpr.make_store vector_width a b b_impl
  | .kLoad => SIMDOpr.make_load vector_width a a_impl
  | _ => none

/-! ## Identity nodes (`ir.cc`, lines 926-945)

The node `Identity` is kept apart from the nodes above: `GetTrimedExpr` reads of a handle
only whether it points to an `Identity` node, and the fields of that node. -/

/-- A handle as `GetTrimedExpr` sees it: a handle to an `Identity` node with its fields
`expr` and `id`, or any other handle. -/
inductive ir.IdentityExpr where
  | other (x : Expr)
  | Identity (expr : IdentityExpr) (id : String)

/-- The loop `while (e)` of `Identity::GetTrimedExpr`, where `e` is what
`handle.As<ir::Identity>()` gives: the loop ends when `e` is null, and a round pushes the
id of `e`, moves `e` to `e->expr.As<ir::Identity>()` and then reads `e->expr`, which
aborts when the new `e` is null. -/
def ir.Identity.GetTrimedExpr_loop :
    IdentityExpr → IdentityExpr → Option (List String) → Option (IdentityExpr × Option (List String))
  | .other _, result, ids => some (result, ids)
  | .Identity expr id, _, ids =>
    let ids := ids.map (fun l => l ++ [id])
    match expr with
    | .other _ => none
    | .Identity expr1 _ => Identity.GetTrimedExpr_loop expr expr1 ids

/-- The function `Identity::GetTrimedExpr` (lines 935-945) on the node with the fields
`expr` and `id`; `ids` is the list the pointer `ids` points to, `none` for a null
pointer.  It returns the result and the list afterwards. -/
def ir.Identity.GetTrimedExpr (expr : IdentityExpr) (id : String) (ids : Option (List String)) :
    Option (IdentityExpr × Option (List String)) :=
  let ids := ids.map (fun l => l ++ [id])
  let result := expr
  Identity.GetTrimedExpr_loop expr result ids

/-! ## The C emitter (`code_gen_c.h`, lines 46-50) -/

/-- The members of `C_CodeGen` that `compiled_code` reads and writes: the text of the
stream `ss_` the printer writes to, and the cache `compiled_code_`. -/
structure backends.C_CodeGen where
  ss_ : String
  compiled_code_ : String
  deriving DecidableEq, Repr

/-- A generator as its constructor leaves it: nothing written, nothing cached. -/
def backends.C_CodeGen.new : backends.C_CodeGen := ⟨"", ""⟩

/-- What the emission of code does to the generator: the printer, constructed on `ss_`,
appends the text to the stream. -/
def backends.C_CodeGen.emit (gen : backends.C_CodeGen) (text : String) : backends.C_CodeGen :=
  { gen with ss_ := gen.ss_ ++ text }

/-- The function `C_CodeGen::compiled_code`: the text returned and the generator
afterwards (the cache is a `mutable` member). -/
def backends.C_CodeGen.compiled_code (gen : backends.C_CodeGen) : String × backends.C_CodeGen :=
  let gen := if gen.compiled_code_.isEmpty then { gen with compiled_code_ := gen.ss_ } else gen
  (gen.compiled_code_, gen)

/-! ## Texts of a set (`isl_utils.cc`, lines 9-43) -/

/-- The loop `for (int i = 0; i < ndims - 1; i++)` of both functions: the name of each dim
but the last, followed by a comma, is appended to the stream. -/
def isl_set_dims_but_last (set : isl.named_set) (ss : String) : String :=
  (List.range (set.dims.length - 1)).foldl (fun ss i => ss ++ set.dims.getD i "" ++ ",") ss

/-- The function `isl_set_to_statement_repr` (lines 29-43). -/
def isl_set_to_statement_repr (set : isl.named_set) : String :=
  let ss := set.tuple
  let ss := ss ++ "["
  let ndims := set.dims.length
  let ss := isl_set_dims_but_last set ss
  let ss := if ndims > 1 then ss ++ set.dims.getD (ndims - 1) "" else ss
  ss ++ "]"

/-- The function `isl_set_to_identity_map` (lines 9-27): the text `repr` that the map it
returns is read from. -/
def isl_set_to_identity_map (set : isl.named_set) : String :=
  let ndims := set.dims.length
  let statement := isl_set_to_statement_repr set
  let ss := "\x7b " ++ statement ++ " -> ["
  let ss := isl_set_dims_but_last set ss
  let ss := if ndims > 1 then ss ++ set.dims.getD (ndims - 1) "" else ss
  ss ++ "] \x7d"

/-- The set `{ S0[i] : 0 <= i < 10 }`. -/
def set_S0_i : isl.named_set := ⟨"\x7b S0[i] : 0 <= i < 10 \x7d", "S0", ["i"]⟩

/-- The set `{ S[i, j, k] : 0 <= i, j, k < 100 }`. -/
def set_S_ijk : isl.named_set :=
  ⟨"\x7b S[i, j, k] : 0 <= i, j, k < 100 \x7d", "S", ["i", "j", "k"]⟩

/-- The schedule of the stage `S` over `i, j, k` after `Split(j, 4)`. -/
def sched_ijk_split_j : isl.sched :=
  .apply_range sched_ijk
    ⟨"\x7b S[i, j, k] -> S[i, j_, j__, k]: j_ = floor(j/4) and j__ = j % 4 \x7d",
     "S[i, j, k]", ["i", "j", "k"], "S", ["i", "j_", "j__", "k"],
     ["j_ = floor(j/4)", "j__ = j % 4"]⟩

/-! ## Theorems -/

theorem CHECK_eq_some (c : Bool) (u : Unit) : CHECK c = some u ↔ c = true := by
  cases c <;> simp [CHECK]

theorem CHECK_eq_none (c : Bool) : CHECK c = none ↔ c = false := by
  cases c <;> simp [CHECK]

/-- What `MakeMathExpr` does on two defined handles, in closed form. -/
theorem MakeMathExpr_mk (T : Op2) (pa pb : primitive_t) (ca cb : composite_t) (na nb : IRNode) :
    MakeMathExpr T (.mk pa ca na) (.mk pb cb nb) =
      if pa ≠ .unk ∧ pb ≠ .unk ∧ pa = pb ∧ (ca ≠ .primitive → cb ≠ .primitive → ca = cb) then
        some (.mk pa ca (.Binary T (.mk pa ca na) (.mk pb cb nb)))
      else none := by
  simp only [MakeMathExpr, Expr.valid, Expr.is_unk, Expr.ptype, Expr.ctype, Expr.is_simd,
    SetOprSimdIfAnyOprandIsSimd, fresh, Expr.set_ctype, Option.map, Option.bind_eq_bind,
    Option.some_bind, Option.pure_def, bind_pure_comp, CHECK]
  by_cases h1 : pa = .unk
  · simp [h1]
  by_cases h2 : pb = .unk
  · simp [h1, h2]
  by_cases h3 : pa = pb
  swap
  · simp [h1, h2, h3]
  by_cases h4 : ca = .primitive
  · by_cases h5 : cb = .primitive <;> simp [h1, h2, h3, h4, h5]
  by_cases h5 : cb = .primitive
  · simp [h1, h2, h3, h4, h5]
  by_cases h6 : ca = cb <;> simp [h1, h2, h3, h4, h5, h6]

/-- Each arithmetic maker other than the four of `MakeMathExpr`, and each comparison
maker, on two defined handles: the checks it runs and the node it builds. -/
theorem makers_mk (pa pb : primitive_t) (ca cb : composite_t) (na nb : IRNode) :
    (∀ T, cmp_make T (.mk pa ca na) (.mk pb cb nb) =
      if pa = pb ∧ pa ≠ .unk then
        some (.mk .boolean .primitive (.Binary T (.mk pa ca na) (.mk pb cb nb))) else none) ∧
    (∀ T, logic_make T (.mk pa ca na) (.mk pb cb nb) =
      if pa = pb ∧ pa = .boolean then
        some (.mk .boolean .primitive (.Binary T (.mk pa ca na) (.mk pb cb nb))) else none) ∧
    (EQ.make (.mk pa ca na) (.mk pb cb nb) =
      if pa = pb ∧ pa ≠ .unk then
        some (.mk .boolean .primitive (.Binary .EQ (.mk pa ca na) (.mk pb cb nb))) else none) ∧
    (NE.make (.mk pa ca na) (.mk pb cb nb) =
      if pa = pb ∧ pa ≠ .unk then
        some (.mk .boolean .primitive (.Binary .NE (.mk pa ca na) (.mk pb cb nb))) else none) ∧
    (Mod.make (.mk pa ca na) (.mk pb cb nb) =
      if pa = pb ∧ pa ≠ .unk then
        some (.mk pa .primitive (.Binary .Mod (.mk pa ca na) (.mk pb cb nb))) else none) ∧
    (Min.make (.mk pa ca na) (.mk pb cb nb) =
      if pa = pb ∧ pa ≠ .unk then
        some (.mk pa .primitive (.Binary .Min (.mk pa ca na) (.mk pb cb nb))) else none) ∧
    (Max.make (.mk pa ca na) (.mk pb cb nb) =
      if pa = pb ∧ pa ≠ .unk then
        some (.mk pa .primitive (.Binary .Max (.mk pa ca na) (.mk pb cb nb))) else none) := by
  by_cases h3 : pa = pb
  · subst h3
    by_cases h1 : pa = .unk
    · subst h1
      simp [cmp_make, logic_make, EQ.make, NE.make, Mod.make, Min.make, Max.make, CHECK,
        Expr.valid, Expr.is_unk, Expr.is_boolean, Expr.ptype, fresh]
    · by_cases h2 : pa = .boolean <;>
      simp [cmp_make, logic_make, EQ.make, NE.make, Mod.make, Min.make, Max.make, CHECK,
        Expr.valid, Expr.is_unk, Expr.is_boolean, Expr.ptype, fresh, h1, h2]
  · by_cases h2 : pb = .unk
    · subst h2
      simp [cmp_make, logic_make, EQ.make, NE.make, Mod.make, Min.make, Max.make, CHECK,
        Expr.valid, Expr.is_unk, Expr.is_boolean, Expr.ptype, fresh, h3]
    · simp [cmp_make, logic_make, EQ.make, NE.make, Mod.make, Min.make, Max.make, CHECK,
        Expr.valid, Expr.is_unk, Expr.is_boolean, Expr.ptype, fresh, h3, h2]

/-- Every maker of a two-operand node aborts on a null left operand. -/
theorem makers_null_left (b : Expr) :
    ∀ m ∈ arithmetic_makers ++ boolean_makers, m.2 .null b = none := by
  simp [arithmetic_makers, boolean_makers, Add.make, Sub.make, Mul.make, Div.make, MakeMathExpr,
    Mod.make, Min.make, Max.make, EQ.make, NE.make, LT.make, LE.make, GT.make, GE.make,
    And.make, Or.make, cmp_make, logic_make, CHECK, Expr.valid]

/-- Every maker of a two-operand node aborts on a null right operand. -/
theorem makers_null_right (a : Expr) :
    ∀ m ∈ arithmetic_makers ++ boolean_makers, m.2 a .null = none := by
  cases a <;>
  simp [arithmetic_makers, boolean_makers, Add.make, Sub.make, Mul.make, Div.make, MakeMathExpr,
    Mod.make, Min.make, Max.make, EQ.make, NE.make, LT.make, LE.make, GT.make, GE.make,
    And.make, Or.make, cmp_make, logic_make, CHECK, Expr.valid]

/-- C1 (type consistency).  Whenever one of `Add/Sub/Mul/Div/Mod/Min/Max::make` returns a
node, the node has the maker's tag, holds the two arguments as its operands, the two
operands have the same primitive type and the node's primitive type is that type; whenever
one of `EQ/NE/LT/LE/GT/GE/And/Or::make` returns a node, the node has the maker's tag, holds
the two arguments, the two operands have the same primitive type and the node's primitive
type is `boolean`. -/
theorem C1_type_consistency (a b n : Expr) :
    (∀ m ∈ arithmetic_makers, m.2 a b = some n →
      ∃ pt ct, n = .mk pt ct (.Binary m.1 a b) ∧ a.ptype = some pt ∧ b.ptype = some pt) ∧
    (∀ m ∈ boolean_makers, m.2 a b = some n →
      ∃ pt ct, n = .mk .boolean ct (.Binary m.1 a b) ∧ a.ptype = some pt ∧
        b.ptype = some pt) := by
  cases a with
  | null =>
    constructor
    · intro m hm h
      rw [makers_null_left b m (List.mem_append_left _ hm)] at h
      cases h
    · intro m hm h
      rw [makers_null_left b m (List.mem_append_right _ hm)] at h
      cases h
  | mk pa ca na =>
    cases b with
    | null =>
      constructor
      · intro m hm h
        rw [makers_null_right _ m (List.mem_append_left _ hm)] at h
        cases h
      · intro m hm h
        rw [makers_null_right _ m (List.mem_append_right _ hm)] at h
        cases h
    | mk pb cb nb =>
      obtain ⟨hc, hl, he, hn, hmod, hmin, hmax⟩ := makers_mk pa pb ca cb na nb
      have hmath := fun T => MakeMathExpr_mk T pa pb ca cb na nb
      constructor
      · intro m hm h
        simp only [arithmetic_makers, List.mem_cons, List.mem_singleton, List.not_mem_nil,
          or_false] at hm
        rcases hm with rfl | rfl | rfl | rfl | rfl | rfl | rfl <;>
          simp only [Add.make, Sub.make, Mul.make, Div.make, hmath, hmod, hmin, hmax] at h <;>
          split at h <;> first
            | (rename_i hcond
               cases h
               obtain ⟨-, -, rfl, -⟩ := hcond
               exact ⟨_, _, rfl, rfl, rfl⟩)
            | (rename_i hcond
               cases h
               obtain ⟨rfl, -⟩ := hcond
               exact ⟨_, _, rfl, rfl, rfl⟩)
            | cases h
      · intro m hm h
        simp only [boolean_makers, List.mem_cons, List.mem_singleton, List.not_mem_nil,
          or_false] at hm
        rcases hm with rfl | rfl | rfl | rfl | rfl | rfl | rfl | rfl <;>
          simp only [LT.make, LE.make, GT.make, GE.make, And.make, Or.make, hc, hl, he, hn] at h <;>
          split at h <;> first
            | (rename_i hcond
               cases h
               obtain ⟨rfl, -⟩ := hcond
               exact ⟨_, _, rfl, rfl, rfl⟩)
            | cases h

/-- C1, at an input: `1 + 2` on int32 literals is an `Add` node of type int32 over the two
literals. -/
theorem C1_type_consistency_witness :
    Add.make one_i32 two_i32 = some (.mk .int32 .primitive (.Binary .Add one_i32 two_i32)) ∧
    ∃ pt ct, Expr.mk .int32 .primitive (.Binary .Add one_i32 two_i32) =
        .mk pt ct (.Binary .Add one_i32 two_i32) ∧
      one_i32.ptype = some pt ∧ two_i32.ptype = some pt :=
  ⟨rfl, (C1_type_consistency one_i32 two_i32 _).1 (.Add, Add.make) (by simp [arithmetic_makers]) rfl⟩

/-- C2, as stated, fails: `Add::make` aborts on two defined float32 operands of which one
is a 128-bit and the other a 256-bit vector, although both are defined, neither has
primitive type `unk` and their primitive types agree. -/
theorem C2_counterexample :
    Add.make v128 v256 = none ∧
    ¬ (v128.valid = false ∨ v256.valid = false ∨ v128.ptype = some .unk ∨
        v256.ptype = some .unk ∨ v128.ptype ≠ v256.ptype) := by
  refine ⟨rfl, ?_⟩
  simp [v128, v256, Expr.valid, Expr.ptype]

/-- C2 (construction errors), amended.  Each of `Add/Sub/Mul/Div::make` aborts if and only
if `a` is undefined, `b` is undefined, `a` or `b` has primitive type `unk`, the primitive
types differ, or both operands are SIMD with different composite types; in every other
case it returns a node of its own tag that holds `a` and `b` as its operands. -/
theorem C2_construction_errors (m : Op2 × (Expr → Expr → Option Expr)) (hm : m ∈ math_makers)
    (a b : Expr) :
    (m.2 a b = none ↔
      (a.valid = false ∨ b.valid = false ∨ a.ptype = some .unk ∨ b.ptype = some .unk ∨
        a.ptype ≠ b.ptype ∨
        (a.is_simd = some true ∧ b.is_simd = some true ∧ a.ctype ≠ b.ctype))) ∧
    (m.2 a b = none ∨ ∃ pt ct, m.2 a b = some (.mk pt ct (.Binary m.1 a b))) := by
  have hmk : m.2 = MakeMathExpr m.1 := by
    simp only [math_makers, List.mem_cons, List.mem_singleton, List.not_mem_nil, or_false] at hm
    rcases hm with rfl | rfl | rfl | rfl <;> rfl
  rw [hmk]
  cases a with
  | null => simp [MakeMathExpr, CHECK, Expr.valid]
  | mk pa ca na =>
    cases b with
    | null => simp [MakeMathExpr, CHECK, Expr.valid]
    | mk pb cb nb =>
      rw [MakeMathExpr_mk]
      simp only [Expr.valid, Expr.ptype, Expr.ctype, Expr.is_simd, Option.map, Option.some.injEq,
        decide_eq_true_eq, ne_eq, Bool.true_eq_false, false_or]
      constructor
      · constructor
        · intro h
          by_contra hcon
          push_neg at hcon
          obtain ⟨h1, h2, h3, h4⟩ := hcon
          rw [if_pos ⟨h1, h2, h3, fun x y => h4 x y⟩] at h
          cases h
        · intro h
          rw [if_neg]
          rintro ⟨h1, h2, h3, h4⟩
          rcases h with h | h | h | ⟨x, y, z⟩
          · exact h1 h
          · exact h2 h
          · exact h h3
          · exact z (h4 x y)
      · split
        · exact Or.inr ⟨_, _, rfl⟩
        · exact Or.inl rfl

/-- C2 amended, at an input: `1 + 2` on int32 literals does not abort and the node holds
the two literals. -/
theorem C2_construction_errors_witness :
    (Add.make one_i32 two_i32 = none ↔
      (one_i32.valid = false ∨ two_i32.valid = false ∨ one_i32.ptype = some .unk ∨
        two_i32.ptype = some .unk ∨ one_i32.ptype ≠ two_i32.ptype ∨
        (one_i32.is_simd = some true ∧ two_i32.is_simd = some true ∧
          one_i32.ctype ≠ two_i32.ctype))) ∧
    (Add.make one_i32 two_i32 = none ∨
      ∃ pt ct, Add.make one_i32 two_i32 = some (.mk pt ct (.Binary .Add one_i32 two_i32))) :=
  C2_construction_errors (.Add, Add.make) (by simp [math_makers]) one_i32 two_i32

theorem vec_back_append {α : Type} (xs : List α) (x : α) : vec_back (xs ++ [x]) = some (xs, x) := by
  induction xs with
  | nil => rfl
  | cons y ys ih => simp [vec_back, ih]

theorem vec_back_append_pair {α : Type} (xs : List α) (x y : α) :
    vec_back (xs ++ [x, y]) = some (xs ++ [x], y) := by
  have : xs ++ [x, y] = (xs ++ [x]) ++ [y] := by simp
  rw [this, vec_back_append]

theorem BuildSnippets_body_nil (stage : Stage) (h : stage.type ≠ .unk) :
    BuildSnippets_body [] stage = some ([] ++ [⟨stage.type, [stage], false⟩]) ∧
    BuildSnippets_inv [] ⟨stage.type, [stage], false⟩ [stage] := by
  constructor
  · simp [BuildSnippets_body, vec_back, Snippet.new, Snippet.AddStage, CHECK, Snippet.is_unk, h]
  · simp [BuildSnippets_inv, h]

theorem BuildSnippets_body_inv (pre : List Snippet) (cur : Snippet) (done : List Stage)
    (stage : Stage) (hinv : BuildSnippets_inv pre cur done) (h : stage.type ≠ .unk) :
    ∃ pre' cur', BuildSnippets_body (pre ++ [cur]) stage = some (pre' ++ [cur']) ∧
      BuildSnippets_inv pre' cur' (done ++ [stage]) := by
  obtain ⟨hjoin, huni, hchain, hend, hopen, hty⟩ := hinv
  by_cases hsame : cur.type_ = stage.type
  · refine ⟨pre, { cur with stages_ := cur.stages_ ++ [stage] }, ?_, ?_⟩
    · simp [BuildSnippets_body, vec_back_append, Snippet.AddStage, CHECK, Snippet.is_unk, h,
        hty, hsame, hopen]
    · refine ⟨?_, ?_, ?_, hend, hopen, hty⟩
      · rw [← hjoin]; simp
      · intro sn hsn
        rw [List.mem_append, List.mem_singleton] at hsn
        rcases hsn with hsn | rfl
        · exact huni sn (List.mem_append_left _ hsn)
        · refine ⟨by simp, ?_⟩
          intro st hst
          rw [List.mem_append, List.mem_singleton] at hst
          rcases hst with hst | rfl
          · exact (huni cur (by simp)).2 st hst
          · exact hsame.symm
      · rw [List.chain'_append] at hchain ⊢
        refine ⟨hchain.1, by simp, ?_⟩
        intro x hx y hy
        have := hchain.2.2 x hx cur (by simp)
        simp only [List.head?_cons, Option.mem_def, Option.some.injEq] at hy
        subst hy
        exact this
  · refine ⟨pre ++ [cur.End], ⟨stage.type, [stage], false⟩, ?_, ?_⟩
    · simp [BuildSnippets_body, vec_back_append, vec_back_append_pair, Snippet.AddStage, CHECK,
        Snippet.is_unk, h, hty, hsame, Snippet.new, Snippet.End]
    · refine ⟨?_, ?_, ?_, ?_, rfl, h⟩
      · rw [← hjoin]; simp [Snippet.End]
      · intro sn hsn
        simp only [List.mem_append, List.mem_singleton] at hsn
        rcases hsn with (hsn | rfl) | rfl
        · exact huni sn (List.mem_append_left _ hsn)
        · exact huni cur (by simp)
        · simp
      · rw [List.chain'_append]
        refine ⟨?_, by simp, ?_⟩
        · rw [List.chain'_append] at hchain ⊢
          refine ⟨hchain.1, by simp, ?_⟩
          intro x hx y hy
          have := hchain.2.2 x hx cur (by simp)
          simp only [List.head?_cons, Option.mem_def, Option.some.injEq] at hy
          subst hy
          exact this
        · intro x hx y hy
          simp only [List.getLast?_concat, Option.mem_def, Option.some.injEq,
            List.head?_cons] at hx hy
          subst hx hy
          exact hsame
      · intro sn hsn
        rw [List.mem_append, List.mem_singleton] at hsn
        rcases hsn with hsn | rfl
        · exact hend sn hsn
        · rfl

theorem BuildSnippets_loop_inv (stages : List Stage) :
    ∀ (pre : List Snippet) (cur : Snippet) (done : List Stage),
      BuildSnippets_inv pre cur done → (∀ st ∈ stages, st.type ≠ .unk) →
      ∃ pre' cur', BuildSnippets_loop (pre ++ [cur]) stages = some (pre' ++ [cur']) ∧
        BuildSnippets_inv pre' cur' (done ++ stages) := by
  induction stages with
  | nil =>
    intro pre cur done hinv _
    exact ⟨pre, cur, rfl, by simpa using hinv⟩
  | cons stage stages ih =>
    intro pre cur done hinv hunk
    obtain ⟨pre1, cur1, hb, hinv1⟩ :=
      BuildSnippets_body_inv pre cur done stage hinv (hunk stage (by simp))
    obtain ⟨pre2, cur2, hl, hinv2⟩ :=
      ih pre1 cur1 (done ++ [stage]) hinv1 (fun st hst => hunk st (by simp [hst]))
    refine ⟨pre2, cur2, ?_, by simpa using hinv2⟩
    simp [BuildSnippets_loop, hb, hl]

/-- C3.  On a function without snippets whose stages all have a type other than `unk`,
`BuildSnippets` returns, and the snippets it leaves are the maximal runs of consecutive
stages of one type, in stage order: the stage lists of the snippets concatenate to the
stage list, no snippet is empty, every stage of a snippet has the type of the snippet, two
adjacent snippets have different types, and every snippet is ended. -/
theorem C3_BuildSnippets_maximal_runs (d : Function.Data) (h0 : d.snippets = [])
    (hunk : ∀ st ∈ d.stages, st.type ≠ .unk) :
    ∃ d', Function.BuildSnippets d = some d' ∧
      d'.stages = d.stages ∧
      (d'.snippets.map Snippet.stages_).flatten = d.stages ∧
      (∀ sn ∈ d'.snippets, sn.stages_ ≠ [] ∧ ∀ st ∈ sn.stages_, st.type = sn.type_) ∧
      List.Chain' (fun a b : Snippet => a.type_ ≠ b.type_) d'.snippets ∧
      (∀ sn ∈ d'.snippets, sn.is_end_ = true) := by
  cases hst : d.stages with
  | nil =>
    refine ⟨{ d with snippets := [] }, ?_, ?_⟩
    · simp [Function.BuildSnippets, h0, hst, BuildSnippets_loop, vec_back]
    · simp [hst]
  | cons stage stages =>
    rw [hst] at hunk
    obtain ⟨hb, hinv⟩ := BuildSnippets_body_nil stage (hunk stage (by simp))
    obtain ⟨pre, cur, hl, hjoin, huni, hchain, hend, -, -⟩ :=
      BuildSnippets_loop_inv stages [] _ [stage] hinv (fun st h => hunk st (by simp [h]))
    rw [List.nil_append] at hb hl
    refine ⟨{ d with snippets := pre ++ [cur.End] }, ?_, ?_⟩
    · simp [Function.BuildSnippets, h0, hst, BuildSnippets_loop, hb, hl, vec_back_append]
    · refine ⟨hst, ?_, ?_, ?_, ?_⟩
      · simpa [Snippet.End] using hjoin
      · intro sn hsn
        simp only [List.mem_append, List.mem_singleton] at hsn
        rcases hsn with hsn | rfl
        · exact huni sn (List.mem_append_left _ hsn)
        · exact huni cur (by simp)
      · rw [List.chain'_append] at hchain ⊢
        refine ⟨hchain.1, by simp, ?_⟩
        intro x hx y hy
        have := hchain.2.2 x hx cur (by simp)
        simp only [List.head?_cons, Option.mem_def, Option.some.injEq] at hy
        subst hy
        exact this
      · intro sn hsn
        simp only [List.mem_append, List.mem_singleton] at hsn
        rcases hsn with hsn | rfl
        · exact hend sn hsn
        · rfl

/-- C3, at an input: two assignments, a call and one more assignment give three snippets,
all ended. -/
theorem C3_BuildSnippets_maximal_runs_witness :
    ∃ d', Function.BuildSnippets function_four_stages = some d' ∧
      d'.stages = function_four_stages.stages ∧
      (d'.snippets.map Snippet.stages_).flatten = function_four_stages.stages ∧
      (∀ sn ∈ d'.snippets, sn.stages_ ≠ [] ∧ ∀ st ∈ sn.stages_, st.type = sn.type_) ∧
      List.Chain' (fun a b : Snippet => a.type_ ≠ b.type_) d'.snippets ∧
      (∀ sn ∈ d'.snippets, sn.is_end_ = true) :=
  C3_BuildSnippets_maximal_runs function_four_stages rfl (by
    intro st hst
    simp only [function_four_stages, List.mem_cons, List.mem_singleton, List.not_mem_nil,
      or_false] at hst
    rcases hst with rfl | rfl | rfl | rfl <;> decide)

/-! ### Dependencies and validity -/

/-- A write followed by a read of one element, both by instances of the domain, is a
dependency. -/
theorem ComputeDeps_of_write_read (D : union_set) (R W : union_map) (s t m : Point)
    (hw : (s, m) ∈ W) (hs : s ∈ D) (hr : (t, m) ∈ R) (ht : t ∈ D) :
    (s, t) ∈ ComputeDeps D R W := by
  simp only [ComputeDeps, isl_union_map_detect_equalities, isl_union_map_union,
    isl_union_map_apply_range, isl_union_map_reverse, isl_union_map_intersect_domain,
    List.mem_append, List.mem_flatMap, List.mem_map, List.mem_filter, decide_eq_true_eq,
    Prod.exists, Prod.mk.injEq, Prod.swap]
  exact Or.inr ⟨s, m, ⟨hw, hs⟩, m, t, ⟨⟨t, m, ⟨hr, ht⟩, rfl, rfl⟩, rfl⟩, rfl, rfl⟩

/-- The sign of `strcmp` is the lexicographic order of the bytes. -/
theorem strcmp_neg_iff (a b : List Nat) : strcmp a b < 0 ↔ List.Lex (· < ·) a b := by
  induction a generalizing b with
  | nil =>
    cases b with
    | nil => simp [strcmp]
    | cons y ys => simp [strcmp, List.Lex.nil]
  | cons x xs ih =>
    cases b with
    | nil => simp [strcmp]
    | cons y ys =>
      rw [strcmp]
      by_cases h1 : x < y
      · simp [h1, List.Lex.rel h1]
      · by_cases h2 : y < x
        · simp only [h1, h2, if_false, if_true]
          constructor
          · intro h; omega
          · intro h
            cases h with
            | cons h => omega
            | rel h => omega
        · have hxy : x = y := by omega
          subst hxy
          simp only [h1, if_false, ih]
          constructor
          · intro h; exact List.Lex.cons h
          · intro h
            cases h with
            | cons h => exact h
            | rel h => omega

/-- What the loop of `ComputeScheduleValidity` adds to the validity from the index `i`
on: the pairs of the maps it keeps. -/
theorem ComputeScheduleValidity_loop_mem (deps : union_map) (p : Point × Point) :
    ∀ (rounds i : Nat) (validity : union_map),
      rounds + i = (isl_union_map_get_map_list deps).length →
      (p ∈ ComputeScheduleValidity_loop deps rounds i validity ↔
        p ∈ validity ∨ ∃ m ∈ (isl_union_map_get_map_list deps).drop i,
          (isl_map_is_identity m = false ∧ strcmp (c_str m.in_tuple) (c_str m.out_tuple) < 0) ∧
            p ∈ isl_union_map_from_map m) := by
  intro rounds
  induction rounds with
  | zero =>
    intro i validity hlen
    have : (isl_union_map_get_map_list deps).drop i = [] := by
      apply List.drop_eq_nil_of_le; omega
    simp [ComputeScheduleValidity_loop, this]
  | succ rounds ih =>
    intro i validity hlen
    have hi : i < (isl_union_map_get_map_list deps).length := by omega
    have hdrop := List.drop_eq_getElem_cons hi
    have hget : (isl_union_map_get_map_list deps).get? i =
        some ((isl_union_map_get_map_list deps)[i]) := by
      simp [List.getElem?_eq_getElem hi]
    rw [ComputeScheduleValidity_loop]
    simp only [hget, hdrop, List.mem_cons, exists_eq_or_imp]
    by_cases hid : isl_map_is_identity (isl_union_map_get_map_list deps)[i] = true
    · simp only [hid, if_true]
      rw [ih (i + 1) validity (by omega)]
      simp
    · simp only [hid, if_false, Bool.false_eq_true]
      by_cases hcmp : strcmp (c_str (isl_union_map_get_map_list deps)[i].in_tuple)
          (c_str (isl_union_map_get_map_list deps)[i].out_tuple) ≥ 0
      · simp only [hcmp, if_true]
        rw [ih (i + 1) validity (by omega)]
        have : ¬ strcmp (c_str (isl_union_map_get_map_list deps)[i].in_tuple)
          (c_str (isl_union_map_get_map_list deps)[i].out_tuple) < 0 := by omega
        simp [this]
      · simp only [hcmp, if_false]
        rw [ih (i + 1) _ (by omega)]
        have : strcmp (c_str (isl_union_map_get_map_list deps)[i].in_tuple)
          (c_str (isl_union_map_get_map_list deps)[i].out_tuple) < 0 := by omega
        simp only [isl_union_map_union, List.mem_append, this, and_true]
        have hid2 : isl_map_is_identity (isl_union_map_get_map_list deps)[i] = false := by
          simpa using hid
        simp only [hid2, true_and]
        tauto

/-- The pairs of the validity `ComputeScheduleValidity` returns, with the test of the
loop as it is written. -/
theorem ComputeScheduleValidity_mem (domain : union_set) (deps : union_map) (p : Point × Point) :
    p ∈ ComputeScheduleValidity domain deps ↔
      ∃ m ∈ isl_union_map_get_map_list deps,
        (isl_map_is_identity m = false ∧ strcmp (c_str m.in_tuple) (c_str m.out_tuple) < 0) ∧
        p ∈ isl_union_map_from_map m := by
  rw [ComputeScheduleValidity, ComputeScheduleValidity_loop_mem deps p _ 0 _ (by
    simp [isl_union_map_n_map])]
  simp [isl_union_map_empty]

/-- C4.  A pair `(s, t)` is in the relation `ComputeDeps` returns exactly when, with the
reads and the writes restricted to the instances of the domain, there is an element `m`
such that `s` reads or writes `m` and `t` writes `m`, or `s` writes `m` and `t` reads `m`:
the relation is `(R ∪ W) ∘ W⁻¹ ∪ W ∘ R⁻¹` on the restricted accesses. -/
theorem C4_ComputeDeps (D : union_set) (R W : union_map) (s t : Point) :
    (s, t) ∈ ComputeDeps D R W ↔
      ∃ m, ((((s, m) ∈ R ∧ s ∈ D) ∨ ((s, m) ∈ W ∧ s ∈ D)) ∧ ((t, m) ∈ W ∧ t ∈ D)) ∨
        (((s, m) ∈ W ∧ s ∈ D) ∧ ((t, m) ∈ R ∧ t ∈ D)) := by
  simp only [ComputeDeps, isl_union_map_detect_equalities, isl_union_map_union,
    isl_union_map_apply_range, isl_union_map_reverse, isl_union_map_intersect_domain,
    List.mem_append, List.mem_flatMap, List.mem_map, List.mem_filter, decide_eq_true_eq,
    Prod.exists, Prod.mk.injEq, Prod.swap]
  constructor
  · rintro (⟨a, b, hab, c, d, ⟨⟨e, f, hef, h1, h2⟩, h3⟩, h4, h5⟩ |
      ⟨a, b, hab, c, d, ⟨⟨e, f, hef, h1, h2⟩, h3⟩, h4, h5⟩)
    · subst h1 h2 h3 h4 h5
      exact ⟨_, Or.inl ⟨hab, hef⟩⟩
    · subst h1 h2 h3 h4 h5
      exact ⟨_, Or.inr ⟨hab, hef⟩⟩
  · rintro ⟨m, ⟨h1, h2⟩ | ⟨h1, h2⟩⟩
    · exact Or.inl ⟨s, m, h1, m, t, ⟨⟨t, m, h2, rfl, rfl⟩, rfl⟩, rfl, rfl⟩
    · exact Or.inr ⟨s, m, h1, m, t, ⟨⟨t, m, h2, rfl, rfl⟩, rfl⟩, rfl, rfl⟩

/-- C5.  `ComputeScheduleValidity` keeps a map of the dependency union exactly when the
map is not an identity map and the name of its source tuple is strictly smaller than the
name of its target tuple in the byte-wise lexicographic order; the validity it returns is
the union of the maps it keeps: a pair is in the validity exactly when it is in a kept
map. -/
theorem C5_ComputeScheduleValidity (domain : union_set) (deps : union_map) (p : Point × Point) :
    p ∈ ComputeScheduleValidity domain deps ↔
      ∃ m ∈ isl_union_map_get_map_list deps,
        (isl_map_is_identity m = false ∧
          List.Lex (· < ·) (c_str m.in_tuple) (c_str m.out_tuple)) ∧
        p ∈ isl_union_map_from_map m := by
  rw [ComputeScheduleValidity, ComputeScheduleValidity_loop_mem deps p _ 0 _ (by
    simp [isl_union_map_n_map])]
  simp only [isl_union_map_empty, List.not_mem_nil, false_or, List.drop_zero]
  constructor
  · rintro ⟨m, hm, ⟨hid, hlt⟩, hp⟩
    exact ⟨m, hm, ⟨hid, (strcmp_neg_iff _ _).1 hlt⟩, hp⟩
  · rintro ⟨m, hm, ⟨hid, hlex⟩, hp⟩
    exact ⟨m, hm, ⟨hid, (strcmp_neg_iff _ _).2 hlex⟩, hp⟩

theorem strcmp_self (a : List Nat) : strcmp a a = 0 := by
  induction a with
  | nil => rfl
  | cons x xs ih => simp [strcmp, ih]

/-- The pairs of a map of a union map carry the tuple names of the map. -/
theorem mem_from_map_tuples (m : isl.map) (p : Point × Point)
    (h : p ∈ isl_union_map_from_map m) : p.1.tuple = m.in_tuple ∧ p.2.tuple = m.out_tuple := by
  simp only [isl_union_map_from_map, List.mem_map] at h
  obtain ⟨q, -, rfl⟩ := h
  exact ⟨rfl, rfl⟩

/-- Every pair of a union map is in one of its maps. -/
theorem exists_map_of_mem (u : union_map) (p : Point × Point) (h : p ∈ u) :
    ∃ m ∈ isl_union_map_get_map_list u, p ∈ isl_union_map_from_map m := by
  refine ⟨⟨p.1.tuple, p.1.coords.length, p.2.tuple, p.2.coords.length,
    (u.filter (fun q => decide (pair_space q = pair_space p))).map
      (fun q => (q.1.coords, q.2.coords))⟩, ?_, ?_⟩
  · simp only [isl_union_map_get_map_list, List.mem_map, List.mem_dedup]
    exact ⟨pair_space p, ⟨p, h, rfl⟩, rfl⟩
  · simp only [isl_union_map_from_map, List.mem_map, List.mem_filter, decide_eq_true_eq]
    exact ⟨(p.1.coords, p.2.coords), ⟨p, ⟨h, rfl⟩, rfl⟩, rfl⟩

/-- Every pair of a map of a union map is a pair of the union map. -/
theorem mem_of_mem_map_list (u : union_map) (m : isl.map) (p : Point × Point)
    (hm : m ∈ isl_union_map_get_map_list u) (hp : p ∈ isl_union_map_from_map m) : p ∈ u := by
  simp only [isl_union_map_get_map_list, List.mem_map, List.mem_dedup] at hm
  obtain ⟨sp, -, rfl⟩ := hm
  simp only [isl_union_map_from_map, List.mem_map, List.mem_filter, decide_eq_true_eq] at hp
  obtain ⟨c, ⟨q, ⟨hq, hsp⟩, rfl⟩, rfl⟩ := hp
  obtain ⟨⟨t1, c1⟩, ⟨t2, c2⟩⟩ := q
  simp only [pair_space] at hsp
  subst hsp
  exact hq

/-- What a collecting loop of a snippet leaves, from a union already started. -/
theorem collect_foldl_some {α β : Type} (step : Option (List α) → β → Option (List α))
    (f : β → List α) (h2 : ∀ u st, step (some u) st = some (u ++ f st)) (stages : List β) :
    ∀ acc : List α, stages.foldl step (some acc) = some (acc ++ stages.flatMap f) := by
  induction stages with
  | nil => intro acc; simp
  | cons st rest ih => intro acc; simp [h2, ih]

/-- What a collecting loop of a snippet leaves: the union over the stages, when there is
a stage. -/
theorem collect_foldl_none {α β : Type} (step : Option (List α) → β → Option (List α))
    (f : β → List α) (h1 : ∀ st, step none st = some (f st))
    (h2 : ∀ u st, step (some u) st = some (u ++ f st)) (stages : List β) (h : stages ≠ []) :
    stages.foldl step none = some (stages.flatMap f) := by
  cases stages with
  | nil => exact absurd rfl h
  | cons st rest => simp [h1, collect_foldl_some step f h2]

/-- The validity of a polyhedral snippet with a stage, in terms of the unions over its
stages. -/
theorem ComputeSchedule_validity_eq (sn : Snippet) (hpoly : sn.type_ = .polyhedral)
    (hne : sn.stages_ ≠ []) :
    sn.ComputeSchedule_validity =
      some (ComputeScheduleValidity
        (sn.stages_.flatMap (fun st => isl_union_set_from_set st.iterator_domain))
        (ComputeDeps
          (sn.stages_.flatMap (fun st => isl_union_set_from_set st.iterator_domain))
          (sn.stages_.flatMap Stage.read_access)
          (sn.stages_.flatMap Stage.write_access))) := by
  have hD : sn.CollectIteratorDomain =
      some (some (sn.stages_.flatMap (fun st => isl_union_set_from_set st.iterator_domain))) := by
    simp only [Snippet.CollectIteratorDomain, hpoly, CHECK, decide_True, if_true,
      Option.pure_def, Option.bind_eq_bind, Option.some_bind]
    refine congrArg some (collect_foldl_none _ _ ?_ ?_ _ hne)
    · intro st; rfl
    · intro u st; rfl
  have hR : sn.CollectReadAccess = some (some (sn.stages_.flatMap Stage.read_access)) := by
    simp only [Snippet.CollectReadAccess, hpoly, CHECK, decide_True, if_true,
      Option.pure_def, Option.bind_eq_bind, Option.some_bind]
    refine congrArg some (collect_foldl_none _ _ ?_ ?_ _ hne)
    · intro st; rfl
    · intro u st; rfl
  have hW : sn.CollectWriteAccess = some (some (sn.stages_.flatMap Stage.write_access)) := by
    simp only [Snippet.CollectWriteAccess, hpoly, CHECK, decide_True, if_true,
      Option.pure_def, Option.bind_eq_bind, Option.some_bind]
    refine congrArg some (collect_foldl_none _ _ ?_ ?_ _ hne)
    · intro st; rfl
    · intro u st; rfl
  simp [Snippet.ComputeSchedule_validity, hD, hR, hW, hpoly, CHECK]

/-- C6, as stated, fails: in the snippet of `S2: A[i] = 1` followed by `S10: B[i] = A[i]`,
the stage `S2` writes `A[0]`, the later stage `S10` reads it, and the validity handed to
the scheduler does not hold the dependency from `S2[0]` to `S10[0]`; it holds the opposite
one. -/
theorem C6_counterexample :
    snippet_S2_S10.stages_ = [stage_write_A "S2", stage_read_A "S10"] ∧
    ([0], (⟨"A", [0]⟩ : Point)) ∈ (stage_write_A "S2").writes ∧
    ([0], (⟨"A", [0]⟩ : Point)) ∈ (stage_read_A "S10").reads ∧
    snippet_S2_S10.ComputeSchedule_validity = some [(⟨"S10", [0]⟩, ⟨"S2", [0]⟩)] ∧
    ((⟨"S2", [0]⟩, ⟨"S10", [0]⟩) : Point × Point) ∉
      [((⟨"S10", [0]⟩, ⟨"S2", [0]⟩) : Point × Point)] := by
  refine ⟨rfl, by decide, by decide, by decide, by decide⟩

/-- C6, amended.  For two stages `s` and `t` of one polyhedral snippet, `s` before `t` in
stage order, with an instance `x` of `s` writing the element `m` and an instance `y` of
`t` reading it, `ComputeSchedule` computes a validity, and the dependency from `x` to `y`
is kept in it exactly when the name of `s` is strictly smaller than the name of `t` in
`strcmp` order. -/
theorem C6_validity_keeps_smaller_names (sn : Snippet) (hpoly : sn.type_ = .polyhedral)
    (pre mid post : List Stage) (s t : Stage)
    (horder : sn.stages_ = pre ++ s :: (mid ++ t :: post))
    (x y : List Int) (m : Point)
    (hx : x ∈ s.domain_points) (hw : (x, m) ∈ s.writes)
    (hy : y ∈ t.domain_points) (hr : (y, m) ∈ t.reads) :
    ∃ v, sn.ComputeSchedule_validity = some v ∧
      (((⟨s.name, x⟩, ⟨t.name, y⟩) : Point × Point) ∈ v ↔
        strcmp (c_str s.name) (c_str t.name) < 0) := by
  have hs : s ∈ sn.stages_ := by rw [horder]; simp
  have ht : t ∈ sn.stages_ := by rw [horder]; simp
  have hne : sn.stages_ ≠ [] := List.ne_nil_of_mem hs
  refine ⟨_, ComputeSchedule_validity_eq sn hpoly hne, ?_⟩
  have hxD : (⟨s.name, x⟩ : Point) ∈
      sn.stages_.flatMap (fun st => isl_union_set_from_set st.iterator_domain) := by
    simp only [List.mem_flatMap, isl_union_set_from_set, Stage.iterator_domain, List.mem_map]
    exact ⟨s, hs, x, hx, rfl⟩
  have hyD : (⟨t.name, y⟩ : Point) ∈
      sn.stages_.flatMap (fun st => isl_union_set_from_set st.iterator_domain) := by
    simp only [List.mem_flatMap, isl_union_set_from_set, Stage.iterator_domain, List.mem_map]
    exact ⟨t, ht, y, hy, rfl⟩
  have hW : ((⟨s.name, x⟩, m) : Point × Point) ∈ sn.stages_.flatMap Stage.write_access := by
    simp only [List.mem_flatMap, Stage.write_access, List.mem_map]
    exact ⟨s, hs, (x, m), hw, rfl⟩
  have hR : ((⟨t.name, y⟩, m) : Point × Point) ∈ sn.stages_.flatMap Stage.read_access := by
    simp only [List.mem_flatMap, Stage.read_access, List.mem_map]
    exact ⟨t, ht, (y, m), hr, rfl⟩
  have hdep := ComputeDeps_of_write_read _ _ _ ⟨s.name, x⟩ ⟨t.name, y⟩ m hW hxD hR hyD
  rw [ComputeScheduleValidity_mem]
  constructor
  · rintro ⟨mp, -, ⟨-, hlt⟩, hp⟩
    obtain ⟨h1, h2⟩ := mem_from_map_tuples mp _ hp
    simpa [← h1, ← h2] using hlt
  · intro hlt
    obtain ⟨mp, hmp, hp⟩ := exists_map_of_mem _ _ hdep
    obtain ⟨h1, h2⟩ := mem_from_map_tuples mp _ hp
    simp only at h1 h2
    refine ⟨mp, hmp, ⟨?_, ?_⟩, hp⟩
    · have hneq : mp.in_tuple ≠ mp.out_tuple := by
        intro heq
        rw [← h1, ← h2] at heq
        rw [heq, strcmp_self] at hlt
        exact absurd hlt (by decide)
      simp [isl_map_is_identity, hneq]
    · rw [← h1, ← h2]
      exact hlt

/-- C6 amended, at an input: in the snippet of `S0: A[i] = 1` followed by
`S1: B[i] = A[i]` the dependency from `S0[0]` to `S1[0]` is kept. -/
theorem C6_validity_keeps_smaller_names_witness :
    ∃ v, snippet_S0_S1.ComputeSchedule_validity = some v ∧
      (((⟨"S0", [0]⟩, ⟨"S1", [0]⟩) : Point × Point) ∈ v ↔
        strcmp (c_str "S0") (c_str "S1") < 0) :=
  C6_validity_keeps_smaller_names snippet_S0_S1 rfl [] [] [] (stage_write_A "S0")
    (stage_read_A "S1") rfl [0] [0] ⟨"A", [0]⟩ (by decide) (by decide) (by decide) (by decide)

theorem null_assign (x : Expr) : Expr.assign .null x = some x := rfl

/-- A maker of a two-operand node returns a defined handle. -/
theorem makers_valid (a b n : Expr) :
    ∀ m ∈ arithmetic_makers ++ boolean_makers, m.2 a b = some n → n.valid = true := by
  intro m hm h
  cases a with
  | null => rw [makers_null_left b m hm] at h; cases h
  | mk pa ca na =>
    cases b with
    | null => rw [makers_null_right _ m hm] at h; cases h
    | mk pb cb nb =>
      obtain ⟨hc, hl, he, hn, hmod, hmin, hmax⟩ := makers_mk pa pb ca cb na nb
      have hmath := fun T => MakeMathExpr_mk T pa pb ca cb na nb
      simp only [arithmetic_makers, boolean_makers, List.mem_append, List.mem_cons,
        List.mem_singleton, List.not_mem_nil, or_false] at hm
      rcases hm with (rfl | rfl | rfl | rfl | rfl | rfl | rfl) |
          (rfl | rfl | rfl | rfl | rfl | rfl | rfl | rfl) <;>
        simp only [Add.make, Sub.make, Mul.make, Div.make, LT.make, LE.make, GT.make, GE.make,
          And.make, Or.make, hmath, hmod, hmin, hmax, hc, hl, he, hn] at h <;>
        split at h <;> first
          | (cases h; rfl)
          | cases h

theorem Minus_make_valid (a n : Expr) (h : Minus.make a = some n) : n.valid = true := by
  cases a with
  | null => simp [Minus.make, CHECK, Expr.valid] at h
  | mk pa ca na =>
    simp only [Minus.make, Expr.valid, Expr.is_unk, Expr.ptype, Option.map, fresh,
      Option.bind_eq_bind, Option.some_bind, Option.pure_def, Option.bind_eq_some] at h
    obtain ⟨-, -, -, -, h⟩ := h
    cases h
    rfl

theorem Call_make_valid (c : String) (args : List Expr) (n : Expr)
    (h : Call.make c args = some n) : n.valid = true := by
  simp only [Call.make, fresh, Option.bind_eq_bind, Option.pure_def, Option.bind_eq_some] at h
  obtain ⟨-, -, -, -, h⟩ := h
  cases h
  rfl

theorem Block_make_eq (list : List Expr) (h : ∀ e ∈ list, e.valid = true) :
    Block.make list = some (.mk .void_ .primitive (.Block list)) := by
  have : list.all Expr.valid = true := by simpa using h
  simp [Block.make, CHECK, this, fresh]

/-- The translation of an expression into a fresh handle leaves a defined handle. -/
theorem IslAstExprToCinnExpr_valid (vp : primitive_t) (e : isl.ast_expr) (x : Expr)
    (h : IslAstExprToCinnExpr vp e .null = some x) : x.valid = true := by
  cases e with
  | int val => simp only [IslAstExprToCinnExpr, null_assign] at h; cases h; rfl
  | id name => simp only [IslAstExprToCinnExpr, null_assign] at h; cases h; rfl
  | op ty args =>
    simp only [IslAstExprToCinnExpr, Option.bind_eq_bind, Option.bind_eq_some] at h
    obtain ⟨ops, -, ops2, -, h⟩ := h
    cases ty <;> simp only [Option.bind_eq_bind, Option.bind_eq_some, null_assign,
      Option.some.injEq] at h
    case and =>
      obtain ⟨_, -, a, -, b, -, r, hr, rfl⟩ := h
      exact makers_valid a b r (.And, And.make) (by simp [arithmetic_makers, boolean_makers]) hr
    case minus =>
      obtain ⟨a, -, r, hr, rfl⟩ := h
      exact Minus_make_valid a r hr
    case call =>
      obtain ⟨ce, -, h⟩ := h
      split at h
      · simp only [Option.some_bind, Option.bind_eq_some, Option.some.injEq] at h
        obtain ⟨r, hr, rfl⟩ := h
        exact Call_make_valid _ _ _ hr
      · simp at h
    all_goals first
      | (obtain ⟨a, -, b, -, r, hr, rfl⟩ := h
         first
          | exact makers_valid a b r (.Or, Or.make) (by simp [arithmetic_makers, boolean_makers]) hr
          | exact makers_valid a b r (.Min, Min.make) (by simp [arithmetic_makers, boolean_makers]) hr
          | exact makers_valid a b r (.Max, Max.make) (by simp [arithmetic_makers, boolean_makers]) hr
          | exact makers_valid a b r (.Add, Add.make) (by simp [arithmetic_makers, boolean_makers]) hr
          | exact makers_valid a b r (.Sub, Sub.make) (by simp [arithmetic_makers, boolean_makers]) hr
          | exact makers_valid a b r (.Mul, Mul.make) (by simp [arithmetic_makers, boolean_makers]) hr
          | exact makers_valid a b r (.Div, Div.make) (by simp [arithmetic_makers, boolean_makers]) hr
          | exact makers_valid a b r (.LE, LE.make) (by simp [arithmetic_makers, boolean_makers]) hr
          | exact makers_valid a b r (.LT, LT.make) (by simp [arithmetic_makers, boolean_makers]) hr
          | exact makers_valid a b r (.GE, GE.make) (by simp [arithmetic_makers, boolean_makers]) hr
          | exact makers_valid a b r (.GT, GT.make) (by simp [arithmetic_makers, boolean_makers]) hr
          | exact makers_valid a b r (.EQ, EQ.make) (by simp [arithmetic_makers, boolean_makers]) hr)
      | cases h

/-- The translation of the children of a block, child by child. -/
theorem EatBlock_children_eq (vp : primitive_t) (children : List isl.ast_node) :
    EatBlock_children vp children =
      children.mapM (fun child => IslAstNodeToCinnExpr vp child .null) := by
  induction children with
  | nil => rfl
  | cons c cs ih =>
    rw [EatBlock_children, ih, List.mapM_cons]

theorem Block_make_valid (list : List Expr) (n : Expr) (h : Block.make list = some n) :
    n.valid = true := by
  simp only [Block.make, fresh, Option.bind_eq_bind, Option.pure_def, Option.bind_eq_some] at h
  obtain ⟨-, -, h⟩ := h
  cases h
  rfl

theorem For_make_valid (a b c d e n : Expr) (h : For.make a b c d e = some n) :
    n.valid = true := by
  simp only [For.make, fresh, Option.bind_eq_bind, Option.pure_def, Option.bind_eq_some] at h
  obtain ⟨-, -, -, -, -, -, -, -, -, -, -, -, -, -, -, -, -, -, -, -, h⟩ := h
  cases h
  rfl

/-- The translation of a node into a fresh handle leaves a defined handle. -/
theorem IslAstNodeToCinnExpr_valid (vp : primitive_t) (n : isl.ast_node) (x : Expr)
    (h : IslAstNodeToCinnExpr vp n .null = some x) : x.valid = true := by
  cases n with
  | block cs =>
    simp only [IslAstNodeToCinnExpr, Option.bind_eq_bind, Option.bind_eq_some, null_assign,
      Option.some.injEq] at h
    obtain ⟨_, -, r, hr, rfl⟩ := h
    exact Block_make_valid _ _ hr
  | for_ it i c inc b =>
    cases it with
    | id name =>
      simp only [IslAstNodeToCinnExpr, Option.bind_eq_bind, Option.some_bind,
        Option.bind_eq_some, null_assign, Option.some.injEq] at h
      obtain ⟨_, -, _, -, _, -, _, -, _, -, h⟩ := h
      split at h <;>
        (simp only [Option.bind_eq_bind, Option.some_bind, Option.bind_eq_some, null_assign,
          Option.some.injEq] at h)
      · obtain ⟨_, -, _, -, r, hr, rfl⟩ := h
        exact For_make_valid _ _ _ _ _ _ hr
      · obtain ⟨_, -, r, hr, rfl⟩ := h
        exact For_make_valid _ _ _ _ _ _ hr
    | int v => simp [IslAstNodeToCinnExpr] at h
    | op t as => simp [IslAstNodeToCinnExpr] at h
  | if_then c t =>
    simp only [IslAstNodeToCinnExpr, IfThenElse.make, IfThenElse.make3, fresh, Expr.valid,
      Option.bind_eq_bind, Option.bind_eq_some, null_assign, Option.some.injEq] at h
    obtain ⟨_, -, _, -, h⟩ := h
    simp at h
    subst h
    rfl
  | if_then_else c t e =>
    simp only [IslAstNodeToCinnExpr, IfThenElse.make, IfThenElse.make3, fresh,
      Option.bind_eq_bind, Option.bind_eq_some, null_assign, Option.some.injEq] at h
    obtain ⟨_, -, _, -, _, -, h⟩ := h
    split at h <;> (cases h; rfl)
  | user e =>
    simp only [IslAstNodeToCinnExpr] at h
    exact IslAstExprToCinnExpr_valid vp e x h
  | mark id c =>
    simp only [IslAstNodeToCinnExpr, Option.bind_eq_bind, Option.bind_eq_some, null_assign,
      Option.some.injEq] at h
    obtain ⟨_, -, r, hr, rfl⟩ := h
    exact Block_make_valid _ _ hr

/-- The translations of the children of a block are defined handles. -/
theorem EatBlock_children_valid (vp : primitive_t) :
    ∀ (children : List isl.ast_node) (exprs : List Expr),
      children.mapM (fun child => IslAstNodeToCinnExpr vp child .null) = some exprs →
      ∀ e ∈ exprs, e.valid = true := by
  intro children
  induction children with
  | nil =>
    intro exprs h e he
    simp only [List.mapM_nil, Option.pure_def, Option.some.injEq] at h
    subst h
    cases he
  | cons c cs ih =>
    intro exprs h e he
    simp only [List.mapM_cons, Option.pure_def, Option.bind_eq_bind, Option.bind_eq_some,
      Option.some.injEq] at h
    obtain ⟨x, hx, xs, hxs, rfl⟩ := h
    rw [List.mem_cons] at he
    rcases he with rfl | he
    · exact IslAstNodeToCinnExpr_valid vp c _ hx
    · exact ih xs hxs e he

/-- C7: the translation of the loop `for (c0 = 0; c0 <= 19; c0 += 1) S0(c0);`.  The `For`
node holds the translations of the three expressions and a block around the translated
body, and its iterator is the variable `c0` of primitive type float32, not int32. -/
theorem C7_EatFor_iterator_float32 :
    IslAstNodeToCinnExpr .unk for_c0 .null =
      some (.mk .void_ .primitive (.For
        (.mk .int32 .primitive (.IntImm 0))
        (.mk .boolean .primitive (.Binary .LE (.mk .int32 .primitive (.Var "c0"))
          (.mk .int32 .primitive (.IntImm 19))))
        (.mk .int32 .primitive (.IntImm 1))
        (.mk .void_ .primitive (.Block
          [.mk .void_ .primitive (.Call "S0" [.mk .int32 .primitive (.Var "c0")])]))
        (.mk .float32 .primitive (.Var "c0")))) ∧
    IslAstExprToCinnExpr .unk (.int 0) .null = some (.mk .int32 .primitive (.IntImm 0)) ∧
    IslAstExprToCinnExpr .unk (.op .le [.id "c0", .int 19]) .null =
      some (.mk .boolean .primitive (.Binary .LE (.mk .int32 .primitive (.Var "c0"))
        (.mk .int32 .primitive (.IntImm 19)))) ∧
    IslAstExprToCinnExpr .unk (.int 1) .null = some (.mk .int32 .primitive (.IntImm 1)) ∧
    IslAstNodeToCinnExpr .unk (.user (.op .call [.id "S0", .id "c0"])) .null =
      some (.mk .void_ .primitive (.Call "S0" [.mk .int32 .primitive (.Var "c0")])) ∧
    (Var.make "c0" .float32).ptype ≠ some .int32 :=
  ⟨rfl, rfl, rfl, rfl, rfl, by decide⟩

/-- C8.  On a fresh handle `IslAstNodeToCinnExpr` returns: for a block, a `Block` whose
children are the translations of the children of the block, in the same order and number;
for an `if` without `else`, `IfThenElse(cond, then)`; for an `if` with `else`,
`IfThenElse(cond, then, else)`; for a mark, the block of `Mark(id)` and the translated
child; for a user node, the translation of its expression.  It aborts exactly when the
translation of a part aborts. -/
theorem C8_IslAstNodeToCinnExpr (vp : primitive_t) :
    (∀ children, IslAstNodeToCinnExpr vp (.block children) .null =
      (children.mapM (fun child => IslAstNodeToCinnExpr vp child .null)).bind (fun exprs =>
        some (.mk .void_ .primitive (.Block exprs)))) ∧
    (∀ cond then_, IslAstNodeToCinnExpr vp (.if_then cond then_) .null =
      (IslAstNodeToCinnExpr vp then_ .null).bind (fun ir_then =>
        (IslAstExprToCinnExpr vp cond .null).bind (fun ir_cond =>
          some (.mk .void_ .primitive (.IfThenElse ir_cond ir_then .null))))) ∧
    (∀ cond then_ else_, IslAstNodeToCinnExpr vp (.if_then_else cond then_ else_) .null =
      (IslAstNodeToCinnExpr vp then_ .null).bind (fun ir_then =>
        (IslAstNodeToCinnExpr vp else_ .null).bind (fun ir_else =>
          (IslAstExprToCinnExpr vp cond .null).bind (fun ir_cond =>
            some (.mk .void_ .primitive (.IfThenElse ir_cond ir_then ir_else)))))) ∧
    (∀ id child, IslAstNodeToCinnExpr vp (.mark id child) .null =
      (IslAstNodeToCinnExpr vp child .null).bind (fun ir_child =>
        some (.mk .void_ .primitive (.Block [.mk .unk .primitive (.Mark id), ir_child])))) ∧
    (∀ expr, IslAstNodeToCinnExpr vp (.user expr) .null = IslAstExprToCinnExpr vp expr .null) := by
  refine ⟨?_, ?_, ?_, ?_, ?_⟩
  · intro children
    rw [IslAstNodeToCinnExpr, EatBlock_children_eq]
    cases hm : children.mapM (fun child => IslAstNodeToCinnExpr vp child .null) with
    | none => rfl
    | some exprs =>
      have hv := EatBlock_children_valid vp children exprs hm
      simp [Block_make_eq exprs hv, null_assign]
  · intro cond then_
    rw [IslAstNodeToCinnExpr]
    cases IslAstNodeToCinnExpr vp then_ .null with
    | none => rfl
    | some t =>
      cases IslAstExprToCinnExpr vp cond .null with
      | none => rfl
      | some c => rfl
  · intro cond then_ else_
    rw [IslAstNodeToCinnExpr]
    cases IslAstNodeToCinnExpr vp then_ .null with
    | none => rfl
    | some t =>
      cases he : IslAstNodeToCinnExpr vp else_ .null with
      | none => rfl
      | some e =>
        have hv := IslAstNodeToCinnExpr_valid vp else_ e he
        cases IslAstExprToCinnExpr vp cond .null with
        | none => rfl
        | some c => simp [hv, null_assign, IfThenElse.make3, fresh]
  · intro id child
    rw [IslAstNodeToCinnExpr]
    cases hc : IslAstNodeToCinnExpr vp child .null with
    | none => rfl
    | some c =>
      have hv := IslAstNodeToCinnExpr_valid vp child c hc
      have := Block_make_eq [Mark.make id, c] (by
        intro e he
        simp only [List.mem_cons, List.mem_singleton, List.not_mem_nil, or_false] at he
        rcases he with rfl | rfl
        · rfl
        · exact hv)
      show (Block.make [Mark.make id, c]).bind (fun b => Expr.assign .null b) = _
      rw [this]
      rfl
  · intro expr
    rw [IslAstNodeToCinnExpr]

theorem mem_OP_2_ARGS_FOR_EACH (op : Op2) : op ∈ OP_2_ARGS_FOR_EACH := by
  cases op <;> simp [OP_2_ARGS_FOR_EACH]

theorem mem_OP_1_ARGS_FOR_EACH (op : Op1) : op ∈ OP_1_ARGS_FOR_EACH := by
  cases op <;> simp [OP_1_ARGS_FOR_EACH]

theorem valid_null : Expr.valid .null = false := rfl

/-- An expression the helper can walk is a defined handle. -/
theorem walkable_valid (e : Expr) (h : walkable e) : e.valid = true := by
  cases e with
  | null => simp [walkable] at h
  | mk pt ct n => rfl

mutual
/-- On an expression it can walk, the helper returns the substitution. -/
theorem Replace_eq_substitute (m : List (String × Expr)) :
    ∀ e : Expr, walkable e →
      ReplaceCinnIndiceWithIslTransformedIndicesHelper m e = some (substitute_indices m e)
  | .null, h => by simp [walkable] at h
  | .mk pt ct (.Binary op a b), h => by
    simp only [walkable] at h
    simp only [ReplaceCinnIndiceWithIslTransformedIndicesHelper, mem_OP_2_ARGS_FOR_EACH,
      if_true, Replace_eq_substitute m a h.1, Replace_eq_substitute m b h.2,
      substitute_indices]
    rfl
  | .mk pt ct (.Unary op a), h => by
    simp only [walkable] at h
    simp only [ReplaceCinnIndiceWithIslTransformedIndicesHelper, mem_OP_1_ARGS_FOR_EACH,
      if_true, Replace_eq_substitute m a h, substitute_indices]
    rfl
  | .mk pt ct (.Var name), _ => by
    simp only [ReplaceCinnIndiceWithIslTransformedIndicesHelper, substitute_indices, CopyExpr]
    cases List.lookup name m <;> rfl
  | .mk pt ct (.Call caller arguments), h => by
    simp only [walkable] at h
    simp only [ReplaceCinnIndiceWithIslTransformedIndicesHelper,
      Replace_each_eq_substitute m arguments h, substitute_indices]
    rfl
  | .mk pt ct (.Reference target iterators), h => by
    simp only [walkable] at h
    simp only [ReplaceCinnIndiceWithIslTransformedIndicesHelper,
      Replace_each_eq_substitute m iterators h, substitute_indices]
    rfl
  | .mk pt ct (.IfThenElse c t f), h => by
    simp only [walkable] at h
    obtain ⟨hc, ht, hf⟩ := h
    rcases ht with rfl | ht <;> rcases hf with rfl | hf
    · simp [ReplaceCinnIndiceWithIslTransformedIndicesHelper, Replace_eq_substitute m c hc,
        substitute_indices, valid_null]
    · simp [ReplaceCinnIndiceWithIslTransformedIndicesHelper, Replace_eq_substitute m c hc,
        Replace_eq_substitute m f hf, substitute_indices, valid_null, walkable_valid f hf]
    · simp [ReplaceCinnIndiceWithIslTransformedIndicesHelper, Replace_eq_substitute m c hc,
        Replace_eq_substitute m t ht, substitute_indices, valid_null, walkable_valid t ht]
    · simp [ReplaceCinnIndiceWithIslTransformedIndicesHelper, Replace_eq_substitute m c hc,
        Replace_eq_substitute m t ht, Replace_eq_substitute m f hf, substitute_indices,
        walkable_valid t ht, walkable_valid f hf]
  | .mk pt ct (.IntImm _), _ => rfl
  | .mk pt ct (.Tensor _ _), _ => rfl
  | .mk pt ct (.Block _), _ => rfl
  | .mk pt ct (.For _ _ _ _ _), _ => rfl
  | .mk pt ct (.Mark _), _ => rfl
  | .mk pt ct (.Allocate _ _ _), _ => rfl
/-- On expressions it can walk, the loop of the helper returns the substitutions. -/
theorem Replace_each_eq_substitute (m : List (String × Expr)) :
    ∀ es : List Expr, walkable_each es →
      ReplaceCinnIndiceWithIslTransformedIndicesHelper_each m es =
        some (substitute_indices_each m es)
  | [], _ => rfl
  | e :: rest, h => by
    simp only [walkable_each] at h
    simp only [ReplaceCinnIndiceWithIslTransformedIndicesHelper_each,
      Replace_eq_substitute m e h.1, Replace_each_eq_substitute m rest h.2,
      substitute_indices_each]
    rfl
end

mutual
/-- The substitution by the empty map changes nothing. -/
theorem substitute_indices_nil : ∀ e : Expr, substitute_indices [] e = e
  | .null => rfl
  | .mk pt ct (.Binary op a b) => by
    simp only [substitute_indices, substitute_indices_nil a, substitute_indices_nil b]
  | .mk pt ct (.Unary op a) => by
    simp only [substitute_indices, substitute_indices_nil a]
  | .mk pt ct (.Var name) => rfl
  | .mk pt ct (.Call caller arguments) => by
    simp only [substitute_indices, substitute_indices_each_nil arguments]
  | .mk pt ct (.Reference target iterators) => by
    simp only [substitute_indices, substitute_indices_each_nil iterators]
  | .mk pt ct (.IfThenElse c t f) => by
    simp only [substitute_indices, substitute_indices_nil c, substitute_indices_nil t,
      substitute_indices_nil f]
  | .mk pt ct (.IntImm _) => rfl
  | .mk pt ct (.Tensor _ _) => rfl
  | .mk pt ct (.Block _) => rfl
  | .mk pt ct (.For _ _ _ _ _) => rfl
  | .mk pt ct (.Mark _) => rfl
  | .mk pt ct (.Allocate _ _ _) => rfl
/-- The substitution by the empty map changes nothing in a list. -/
theorem substitute_indices_each_nil : ∀ es : List Expr, substitute_indices_each [] es = es
  | [] => rfl
  | e :: rest => by
    simp only [substitute_indices_each, substitute_indices_nil e,
      substitute_indices_each_nil rest]
end

/-- C9.  For every index map `m` and every expression `e` made of `Var`, `IntImm`,
`Tensor`, `Reference`, `Call`, `IfThenElse` and unary and binary operator nodes with
defined operands, the helper returns `e` with each `Var` whose name is a key of `m`, at any
depth inside operator operands, `Call` arguments, `Reference` indices and the condition and
branches of an `IfThenElse`, replaced by the expression `m` maps it to, and every other
node unchanged; with an empty `m` it returns `e` itself. -/
theorem C9_Replace_indices (m : List (String × Expr)) (e : Expr) (h : walkable e) :
    ReplaceCinnIndiceWithIslTransformedIndicesHelper m e = some (substitute_indices m e) ∧
    ReplaceCinnIndiceWithIslTransformedIndicesHelper [] e = some e := by
  refine ⟨Replace_eq_substitute m e h, ?_⟩
  rw [Replace_eq_substitute [] e h, substitute_indices_nil]

/-- C9, at an input: in `A[i + 1] = B[j]` the map `i -> c0, j -> c1 + 1` replaces both
iterators inside the references. -/
theorem C9_Replace_indices_witness :
    ReplaceCinnIndiceWithIslTransformedIndicesHelper indices_c0_c1 assign_A_B =
      some (substitute_indices indices_c0_c1 assign_A_B) ∧
    ReplaceCinnIndiceWithIslTransformedIndicesHelper [] assign_A_B = some assign_A_B :=
  C9_Replace_indices indices_c0_c1 assign_A_B (by
    simp [assign_A_B, walkable, walkable_each, iter_i, one_i32])

theorem vec_back_eq_some {α : Type} :
    ∀ (l init : List α) (back : α), vec_back l = some (init, back) → l = init ++ [back] := by
  intro l
  induction l with
  | nil => intro init back h; simp [vec_back] at h
  | cons x xs ih =>
    intro init back h
    rw [vec_back] at h
    cases hxs : vec_back xs with
    | none =>
      rw [hxs] at h
      simp only [Option.some.injEq, Prod.mk.injEq] at h
      obtain ⟨rfl, rfl⟩ := h
      cases xs with
      | nil => rfl
      | cons y ys =>
        rw [vec_back] at hxs
        cases hys : vec_back ys <;> simp [hys] at hxs
    | some p =>
      obtain ⟨i, b⟩ := p
      rw [hxs] at h
      simp only [Option.some.injEq, Prod.mk.injEq] at h
      obtain ⟨rfl, rfl⟩ := h
      rw [ih i b hxs]
      rfl

/-- The transformed expression of a snippet whose stages are typed is not a bare
`Reference`, as long as the polyhedral path does not return one: it is the expression of a
call or allocate stage, a block, or what the polyhedral path returns. -/
theorem GetTransformedExpr_not_Reference (pe : Snippet → Option Expr)
    (hpe : ∀ sn e, pe sn = some e → e.type ≠ some .Reference)
    (sn : Snippet) (hty : sn.stages_typed) (e : Expr)
    (h : sn.GetTransformedExpr pe = some e) : e.type ≠ some .Reference := by
  simp only [Snippet.GetTransformedExpr, Option.bind_eq_bind, Option.bind_eq_some] at h
  obtain ⟨-, -, h⟩ := h
  split at h
  · split at h
    · simp only [Option.bind_eq_some, Option.pure_def, Option.some.injEq] at h
      obtain ⟨⟨i, st⟩, hb, rfl⟩ := h
      have hmem : st ∈ sn.stages_ := by
        rw [vec_back_eq_some _ _ _ hb]; simp
      obtain ⟨hunk, -⟩ := hty st hmem
      intro href
      apply hunk
      simp [Stage.type, Expr.is_assign_derived, href]
    · simp only [Block.make, fresh, Option.bind_eq_bind, Option.pure_def,
        Option.bind_eq_some, Option.some.injEq] at h
      obtain ⟨-, -, rfl⟩ := h
      simp [Expr.type, IRNode.type]
  · exact hpe sn e h

/-- The loop over the snippets returns the transformed expressions, one for each snippet
in order, when each snippet has one. -/
theorem ComputeTransformedExpr_exprs_eq (pe : Snippet → Option Expr) :
    ∀ (snippets : List Snippet) (exprs : List Expr),
      List.Forall₂ (fun sn e => sn.GetTransformedExpr pe = some e ∧ e.valid = true)
        snippets exprs →
      ComputeTransformedExpr_exprs pe snippets = some exprs ∧ (∀ e ∈ exprs, e.valid = true) ∧
        ∀ sn ∈ snippets, ∃ e, sn.GetTransformedExpr pe = some e := by
  intro snippets exprs h
  induction h with
  | nil => exact ⟨rfl, by simp, by simp⟩
  | cons hhead _ ih =>
    obtain ⟨hl, hv, hex⟩ := ih
    refine ⟨?_, ?_, ?_⟩
    · simp [ComputeTransformedExpr_exprs, hhead.1, hl]
    · intro e he
      rw [List.mem_cons] at he
      rcases he with rfl | he
      · exact hhead.2
      · exact hv e he
    · intro sn hsn
      rw [List.mem_cons] at hsn
      rcases hsn with rfl | hsn
      · exact ⟨_, hhead.1⟩
      · exact hex sn hsn

/-- C10.  For a function whose transformed expression has not been computed yet and whose
snippets hold typed stages: with one snippet, `ComputeTransformedExpr` returns the
transformed expression of that snippet, not wrapped in a block; with more than one, each
with a defined transformed expression, it returns a `Block` whose children are the
transformed expressions of the snippets in snippet order.  A snippet has a transformed
expression only when it is ended.  The polyhedral path, which is outside the sources at
hand, is taken not to return a bare `Reference`. -/
theorem C10_ComputeTransformedExpr (pe : Snippet → Option Expr)
    (hpe : ∀ sn e, pe sn = some e → e.type ≠ some .Reference)
    (d : Function.Data) (h0 : d.transformed_expr = .null)
    (hty : ∀ sn ∈ d.snippets, sn.stages_typed) :
    (∀ sn e, d.snippets = [sn] → sn.GetTransformedExpr pe = some e →
      Function.ComputeTransformedExpr pe d = some (e, { d with transformed_expr := e })) ∧
    (∀ exprs, 1 < d.snippets.length →
      List.Forall₂ (fun sn e => sn.GetTransformedExpr pe = some e ∧ e.valid = true)
        d.snippets exprs →
      Function.ComputeTransformedExpr pe d =
        some (.mk .void_ .primitive (.Block exprs),
          { d with transformed_expr := .mk .void_ .primitive (.Block exprs) })) := by
  constructor
  · intro sn e hsn he
    simp [Function.ComputeTransformedExpr, h0, valid_null, hsn, vec_back, he, null_assign]
  · intro exprs hlen hall
    obtain ⟨hloop, hvalid, hex⟩ := ComputeTransformedExpr_exprs_eq pe d.snippets exprs hall
    have hne : d.snippets ≠ [] := by
      intro hnil
      rw [hnil] at hlen
      simp at hlen
    rcases List.eq_nil_or_concat d.snippets with hnil | ⟨init, back, hsn⟩
    · exact absurd hnil hne
    · have hback : back ∈ d.snippets := by rw [hsn]; simp
      obtain ⟨e, he⟩ := hex back hback
      have href := GetTransformedExpr_not_Reference pe hpe back (hty back hback) e he
      have hassign : e.assign (.mk .void_ .primitive (.Block exprs)) =
          some (.mk .void_ .primitive (.Block exprs)) := by
        simp [Expr.assign, href]
      have hvb : vec_back d.snippets = some (init, back) := by
        rw [hsn, List.concat_eq_append, vec_back_append]
      simp [Function.ComputeTransformedExpr, h0, valid_null, hvb, he, null_assign, hlen, hloop,
        Block_make_eq exprs hvalid, hassign]

/-- C10, at an input: with the two call snippets `S0` and `S1` the transformed expression
is the block of the two calls. -/
theorem C10_ComputeTransformedExpr_witness :
    Function.ComputeTransformedExpr (fun _ => none) function_two_snippets =
      some (.mk .void_ .primitive (.Block [(call_stage "S0").expr, (call_stage "S1").expr]),
        { function_two_snippets with
          transformed_expr :=
            .mk .void_ .primitive (.Block [(call_stage "S0").expr, (call_stage "S1").expr]) }) :=
  (C10_ComputeTransformedExpr (fun _ => none) (by intro sn e h; cases h) function_two_snippets
    rfl (by
      intro sn hsn st hst
      simp only [function_two_snippets, List.mem_cons, List.mem_singleton, List.not_mem_nil,
        or_false] at hsn
      rcases hsn with rfl | rfl <;>
        (simp only [snippet_call, List.mem_singleton] at hst
         subst hst
         exact ⟨by decide, by decide⟩))).2
    [(call_stage "S0").expr, (call_stage "S1").expr] (by decide)
    (List.Forall₂.cons ⟨rfl, rfl⟩ (List.Forall₂.cons ⟨rfl, rfl⟩ List.Forall₂.nil))

/-- What `XAssignMake` does on two defined handles, in closed form. -/
theorem XAssignMake_mk (T : Op2) (pa pb : primitive_t) (ca cb : composite_t) (na nb : IRNode) :
    XAssignMake T (.mk pa ca na) (.mk pb cb nb) =
      if pb = .unk then none
      else some (.mk pb .primitive (.Binary T (.mk pb ca na) (.mk pb cb nb))) := by
  by_cases h : pb = .unk
  · subst h
    simp [XAssignMake, CHECK, Expr.valid, Expr.is_unk, Expr.ptype]
  · simp [XAssignMake, CHECK, Expr.valid, Expr.is_unk, Expr.ptype, Expr.set_ptype, fresh, h]

/-- Each maker of the assignment family is `XAssignMake` at its own tag. -/
theorem assign_makers_eq (m : Op2 × (Expr → Expr → Option Expr)) (hm : m ∈ assign_makers) :
    m.2 = XAssignMake m.1 := by
  simp only [assign_makers, List.mem_cons, List.mem_singleton, List.not_mem_nil, or_false] at hm
  rcases hm with rfl | rfl | rfl | rfl | rfl <;> rfl

/-- C17.  For defined `a` and `b`, each of `Assign/SumAssign/SubAssign/MulAssign/DivAssign::make`
aborts when `b` has primitive type `unk`; otherwise it returns a node of its own tag whose
primitive type is that of `b`, whose right operand is `b` and whose left operand is `a`
with the primitive type of `b`, whatever primitive type `a` had. -/
theorem C17_XAssignMake (m : Op2 × (Expr → Expr → Option Expr)) (hm : m ∈ assign_makers)
    (a b : Expr) (ha : a.valid = true) (hb : b.valid = true) :
    (b.ptype = some .unk → m.2 a b = none) ∧
    (∀ pb, b.ptype = some pb → pb ≠ .unk →
      ∃ a', a.set_ptype pb = some a' ∧ a'.ptype = some pb ∧
        m.2 a b = some (.mk pb .primitive (.Binary m.1 a' b))) := by
  rw [assign_makers_eq m hm]
  cases a with
  | null => simp [Expr.valid] at ha
  | mk pa ca na =>
    cases b with
    | null => simp [Expr.valid] at hb
    | mk pb cb nb =>
      rw [XAssignMake_mk]
      constructor
      · intro h
        simp only [Expr.ptype, Option.some.injEq] at h
        simp [h]
      · intro p hp hne
        simp only [Expr.ptype, Option.some.injEq] at hp
        subst hp
        exact ⟨.mk pb ca na, rfl, rfl, by simp [hne]⟩

/-- C17, at an input: `A[i] += t` with `t` of type float32 gives a `SumAssign` node of type
float32 whose left operand is `A[i]` retyped to float32. -/
theorem C17_XAssignMake_witness :
    (rhs_f32.ptype = some .unk → SumAssign.make ref_A rhs_f32 = none) ∧
    (∀ pb, rhs_f32.ptype = some pb → pb ≠ .unk →
      ∃ a', ref_A.set_ptype pb = some a' ∧ a'.ptype = some pb ∧
        SumAssign.make ref_A rhs_f32 = some (.mk pb .primitive (.Binary .SumAssign a' rhs_f32))) :=
  C17_XAssignMake (.SumAssign, SumAssign.make) (by simp [assign_makers]) ref_A rhs_f32 rfl rfl

/-- Each assignment operator on a `Reference` with a defined right-hand side is the maker
of its tag; on a handle that is null or not a `Reference` it returns the right-hand
side. -/
theorem assign_operators_eq (m : Op2 × (Expr → Expr → Option Expr))
    (hm : m ∈ assign_operators) (x r : Expr) :
    m.2 x r =
      if x.valid = true ∧ x.type = some .Reference then
        (if r.valid = true then XAssignMake m.1 x r else none)
      else some r := by
  simp only [assign_operators, List.mem_cons, List.mem_singleton, List.not_mem_nil,
    or_false] at hm
  rcases hm with rfl | rfl | rfl | rfl | rfl <;>
    simp only [Expr.assign, Expr.sum_assign, Expr.sub_assign, Expr.mul_assign, Expr.div_assign,
      Assign.make, SumAssign.make, SubAssign.make, MulAssign.make, DivAssign.make] <;>
    by_cases hv : x.valid = true <;> by_cases ht : x.type = some .Reference <;>
    by_cases hr : r.valid = true <;> simp [hv, ht, hr, CHECK]

/-- C16, as stated, fails: the right-hand side `Mark::make("m")` is defined, `A[i]` is a
defined `Reference`, and `A[i] = m` aborts instead of leaving an `Assign` node, because the
mark has primitive type `unk`. -/
theorem C16_counterexample :
    mark_m.valid = true ∧ ref_A.valid = true ∧ ref_A.type = some .Reference ∧
    Expr.assign ref_A mark_m = none :=
  ⟨rfl, rfl, rfl, rfl⟩

/-- C16, amended.  For every handle `x`, every defined right-hand side `r` and each of `=`,
`+=`, `-=`, `*=`, `/=`: if `x` is a defined `Reference`, the operator aborts when `r` has
primitive type `unk`, and otherwise leaves in `x` a new `Assign`, `SumAssign`, `SubAssign`,
`MulAssign` or `DivAssign` node respectively, whose left operand is the former `Reference`
(retyped to the primitive type of `r`) and whose right operand is `r`; if `x` is undefined
or not a `Reference`, the operator leaves `r` in `x` and builds no node. -/
theorem C16_assignment_operators (m : Op2 × (Expr → Expr → Option Expr))
    (hm : m ∈ assign_operators) (x r : Expr) (hr : r.valid = true) :
    (x.valid = true → x.type = some .Reference →
      (r.ptype = some .unk → m.2 x r = none) ∧
      (∀ pr, r.ptype = some pr → pr ≠ .unk →
        ∃ x', x.set_ptype pr = some x' ∧
          m.2 x r = some (.mk pr .primitive (.Binary m.1 x' r)))) ∧
    ((x.valid = false ∨ x.type ≠ some .Reference) → m.2 x r = some r) := by
  rw [assign_operators_eq m hm]
  constructor
  · intro hv ht
    rw [if_pos ⟨hv, ht⟩, if_pos hr]
    cases x with
    | null => simp [Expr.valid] at hv
    | mk px cx nx =>
      cases r with
      | null => simp [Expr.valid] at hr
      | mk pr cr nr =>
        rw [XAssignMake_mk]
        constructor
        · intro h
          simp only [Expr.ptype, Option.some.injEq] at h
          simp [h]
        · intro p hp hne
          simp only [Expr.ptype, Option.some.injEq] at hp
          subst hp
          exact ⟨.mk pr cx nx, rfl, by simp [hne]⟩
  · intro h
    rw [if_neg]
    rintro ⟨hv, ht⟩
    rcases h with h | h
    · rw [hv] at h; cases h
    · exact h ht

/-- C16 amended, at an input: `A[i] *= t` with `t` of type float32 leaves a `MulAssign`
node over `A[i]` and `t`. -/
theorem C16_assignment_operators_witness :
    (ref_A.valid = true → ref_A.type = some .Reference →
      (rhs_f32.ptype = some .unk → Expr.mul_assign ref_A rhs_f32 = none) ∧
      (∀ pr, rhs_f32.ptype = some pr → pr ≠ .unk →
        ∃ x', ref_A.set_ptype pr = some x' ∧
          Expr.mul_assign ref_A rhs_f32 =
            some (.mk pr .primitive (.Binary .MulAssign x' rhs_f32)))) ∧
    ((ref_A.valid = false ∨ ref_A.type ≠ some .Reference) →
      Expr.mul_assign ref_A rhs_f32 = some rhs_f32) :=
  C16_assignment_operators (.MulAssign, Expr.mul_assign) (by simp [assign_operators])
    ref_A rhs_f32 rfl

/-- A stage offered to a list of snippets whose last one is ended and has the type of the
stage is rejected by `Snippet::AddStage`. -/
theorem BuildSnippets_body_ended (pre : List Snippet) (cur : Snippet) (stage : Stage)
    (hend : cur.is_end_ = true) (hty : cur.type_ ≠ .unk) (hsame : cur.type_ = stage.type) :
    BuildSnippets_body (pre ++ [cur]) stage = none := by
  have hty2 : stage.type ≠ .unk := hsame ▸ hty
  simp [BuildSnippets_body, vec_back_append, Snippet.is_unk, hty2, hsame, Snippet.AddStage,
    CHECK, hend]

/-- The last stage of a function is a stage of the open snippet of the loop. -/
theorem BuildSnippets_inv_last (pre : List Snippet) (cur : Snippet) (done : List Stage)
    (last : Stage) (hinv : BuildSnippets_inv pre cur done)
    (hlast : done.getLast? = some last) : last.type = cur.type_ := by
  obtain ⟨hjoin, huni, -, -, -, -⟩ := hinv
  obtain ⟨hne, hall⟩ := huni cur (by simp)
  apply hall
  have h : done = (pre.map Snippet.stages_).flatten ++ cur.stages_ := by
    rw [← hjoin]; simp
  rw [h, List.getLast?_append_of_ne_nil _ hne] at hlast
  exact List.mem_of_getLast?_eq_some hlast

/-- A transformed expression, once computed and defined, is returned again by
`ComputeTransformedExpr` and the function stays as it is. -/
theorem ComputeTransformedExpr_cached (pe : Snippet → Option Expr) (f f' : Function.Data)
    (e : Expr) (h : Function.ComputeTransformedExpr pe f = some (e, f'))
    (hv : e.valid = true) : Function.ComputeTransformedExpr pe f' = some (e, f') := by
  by_cases hf : f.transformed_expr.valid = true
  · simp only [Function.ComputeTransformedExpr, hf, if_true, Option.pure_def,
      Option.some.injEq, Prod.mk.injEq] at h
    obtain ⟨rfl, rfl⟩ := h
    simp [Function.ComputeTransformedExpr, hf]
  · have hte : f'.transformed_expr = e := by
      rw [Function.ComputeTransformedExpr, if_neg hf] at h
      simp only [Option.bind_eq_bind, Option.pure_def, Option.bind_eq_some] at h
      obtain ⟨_, -, _, -, _, -, h⟩ := h
      split at h
      · simp only [Option.bind_eq_bind, Option.bind_eq_some, Option.some.injEq,
          Prod.mk.injEq] at h
        obtain ⟨_, -, _, -, _, -, rfl, rfl⟩ := h
        rfl
      · simp only [Option.bind_eq_bind, Option.some_bind, Option.some.injEq,
          Prod.mk.injEq] at h
        obtain ⟨rfl, rfl⟩ := h
        rfl
    simp [Function.ComputeTransformedExpr, hte, hv]

/-- C11, as stated, fails: on the function of the single stage `S0` the first run of
`BuildSnippets` returns and the second run, over the same stage list, aborts. -/
theorem C11_counterexample :
    (Function.BuildSnippets function_one_stage).isSome = true ∧
    (Function.BuildSnippets function_one_stage).bind Function.BuildSnippets = none :=
  ⟨rfl, rfl⟩

/-- C11, amended.  On a function without snippets whose stages all have a type other than
`unk` and whose first stage has the type of its last stage, `BuildSnippets` returns and a
second run over the same stage list aborts: `Snippet::AddStage` rejects a stage for the
ended last snippet.  What is kept on a second call is the transformed expression: once
`ComputeTransformedExpr` has returned a defined expression, calling it again returns the
same expression and leaves the function as it is. -/
theorem C11_BuildSnippets_twice (d : Function.Data) (h0 : d.snippets = [])
    (hunk : ∀ st ∈ d.stages, st.type ≠ .unk) (first last : Stage)
    (hfirst : d.stages.head? = some first) (hlast : d.stages.getLast? = some last)
    (hsame : first.type = last.type) :
    (∃ d', Function.BuildSnippets d = some d' ∧ d'.stages = d.stages ∧
      Function.BuildSnippets d' = none) ∧
    (∀ (pe : Snippet → Option Expr) (f f' : Function.Data) (e : Expr),
      Function.ComputeTransformedExpr pe f = some (e, f') → e.valid = true →
      Function.ComputeTransformedExpr pe f' = some (e, f')) := by
  refine ⟨?_, fun pe f f' e h hv => ComputeTransformedExpr_cached pe f f' e h hv⟩
  cases hst : d.stages with
  | nil => rw [hst] at hfirst; cases hfirst
  | cons stage stages =>
    rw [hst] at hunk hfirst hlast
    simp only [List.head?_cons, Option.some.injEq] at hfirst
    subst hfirst
    obtain ⟨hb, hinv⟩ := BuildSnippets_body_nil stage (hunk stage (by simp))
    obtain ⟨pre, cur, hl, hinv2⟩ :=
      BuildSnippets_loop_inv stages [] _ [stage] hinv (fun st h => hunk st (by simp [h]))
    rw [List.nil_append] at hb hl
    have hcur : last.type = cur.type_ := BuildSnippets_inv_last pre cur _ last hinv2 hlast
    have hcurunk : cur.type_ ≠ .unk := hinv2.2.2.2.2.2
    refine ⟨{ d with snippets := pre ++ [cur.End] }, ?_, hst, ?_⟩
    · simp [Function.BuildSnippets, h0, hst, BuildSnippets_loop, hb, hl, vec_back_append]
    · have hbody : BuildSnippets_body (pre ++ [cur.End]) stage = none :=
        BuildSnippets_body_ended pre cur.End stage rfl hcurunk (by
          show cur.type_ = stage.type
          rw [hsame, hcur])
      simp [Function.BuildSnippets, hst, BuildSnippets_loop, hbody]

/-- C11 amended, at an input: the function of the single stage `S0`. -/
theorem C11_BuildSnippets_twice_witness :
    (∃ d', Function.BuildSnippets function_one_stage = some d' ∧
      d'.stages = function_one_stage.stages ∧ Function.BuildSnippets d' = none) ∧
    (∀ (pe : Snippet → Option Expr) (f f' : Function.Data) (e : Expr),
      Function.ComputeTransformedExpr pe f = some (e, f') → e.valid = true →
      Function.ComputeTransformedExpr pe f' = some (e, f')) :=
  C11_BuildSnippets_twice function_one_stage rfl (by
    intro st hst
    simp only [function_one_stage, List.mem_singleton] at hst
    subst hst
    decide) (assign_stage "S0") (assign_stage "S0") rfl rfl rfl

/-- What `CheckNameValid` leaves in the name set: the name is in it, nothing else is
added, and a set that held the name is unchanged. -/
theorem CheckNameValid_set (name_set_ : List String) (name : String) :
    (∀ n, n ∈ (Var.CheckNameValid name_set_ name).2 ↔ n = name ∨ n ∈ name_set_) ∧
    (name ∈ name_set_ → Var.CheckNameValid name_set_ name = (false, name_set_)) ∧
    (name ∉ name_set_ → Var.CheckNameValid name_set_ name = (true, name :: name_set_)) := by
  by_cases h : name ∈ name_set_
  · refine ⟨?_, ?_, fun hn => absurd h hn⟩
    · intro n
      have hc : Var.CheckNameValid name_set_ name = (false, name_set_) := by
        simp [Var.CheckNameValid, h]
      rw [hc]
      constructor
      · intro hn; exact Or.inr hn
      · rintro (rfl | hn)
        · exact h
        · exact hn
    · intro _
      simp [Var.CheckNameValid, h]
  · refine ⟨?_, fun hn => absurd hn h, ?_⟩
    · intro n
      simp [Var.CheckNameValid, h]
    · intro _
      simp [Var.CheckNameValid, h]

/-- C20, as stated, fails: after `Var i("i", 0, 100)` has registered the name `i`, the
constructor `Var("i", 0, 150)` is not rejected; it returns a second variable named `i` and
leaves the registry as it was. -/
theorem C20_counterexample :
    Var.new_bounds [] "i" 0 100 =
      (⟨"i", .int32, some ⟨Constant.of_int32 0, Constant.of_int32 100⟩⟩, ["i"]) ∧
    Var.CheckNameValid ["i"] "i" = (false, ["i"]) ∧
    Var.new_bounds ["i"] "i" 0 150 =
      (⟨"i", .int32, some ⟨Constant.of_int32 0, Constant.of_int32 150⟩⟩, ["i"]) := by
  refine ⟨by decide, by decide, by decide⟩

/-- C20, amended.  Each constructor of `Var` with an explicit name returns a variable of
that name whatever the registry holds, and leaves in the registry the names it held and the
name given; a name that was registered already is accepted again, `CheckNameValid`
answering `false` to a caller that does not read the answer. -/
theorem C20_Var_names_registered (name_set_ : List String) (name : String) :
    (∀ lower upper, (Var.new_bounds name_set_ name lower upper).1.name_ = name ∧
      ∀ n, n ∈ (Var.new_bounds name_set_ name lower upper).2 ↔ n = name ∨ n ∈ name_set_) ∧
    (∀ dtype, (Var.new_typed name_set_ name dtype).1.name_ = name ∧
      ∀ n, n ∈ (Var.new_typed name_set_ name dtype).2 ↔ n = name ∨ n ∈ name_set_) ∧
    (∀ type interval, (Var.new_interval name_set_ name type interval).1.name_ = name ∧
      ∀ n, n ∈ (Var.new_interval name_set_ name type interval).2 ↔
        n = name ∨ n ∈ name_set_) ∧
    (∀ type lower upper, (Var.new_constants name_set_ name type lower upper).1.name_ = name ∧
      ∀ n, n ∈ (Var.new_constants name_set_ name type lower upper).2 ↔
        n = name ∨ n ∈ name_set_) ∧
    (name ∈ name_set_ → Var.CheckNameValid name_set_ name = (false, name_set_)) := by
  obtain ⟨hmem, hin, -⟩ := CheckNameValid_set name_set_ name
  exact ⟨fun _ _ => ⟨rfl, hmem⟩, fun _ => ⟨rfl, hmem⟩, fun _ _ => ⟨rfl, hmem⟩,
    fun _ _ _ => ⟨rfl, hmem⟩, hin⟩

/-- C19: the constructor `Stage("S0", "{ S0[i] : 0 <= i < 10 }")` on an empty registry
returns a stage whose name is the empty string, not `S0`, and records it under the key
`""`; nothing is recorded under `S0`. -/
theorem C19_Stage_named_has_empty_name :
    Stage.new_named read_S0 [] "S0" "\x7b S0[i] : 0 <= i < 10 \x7d" =
      some (⟨"", some ⟨"\x7b S0[i] : 0 <= i < 10 \x7d", "S0", ["i"]⟩,
              some (.identity ⟨"\x7b S0[i] : 0 <= i < 10 \x7d", "S0", ["i"]⟩)⟩,
            [("", ⟨"", some ⟨"\x7b S0[i] : 0 <= i < 10 \x7d", "S0", ["i"]⟩,
              some (.identity ⟨"\x7b S0[i] : 0 <= i < 10 \x7d", "S0", ["i"]⟩)⟩)]) ∧
    (Stage.new_named read_S0 [] "S0" "\x7b S0[i] : 0 <= i < 10 \x7d").map
      (fun r => Generator.GetStageByName r.2 "S0") = some none ∧
    (Stage.set_name [] Stage.InitData "S0").map (fun r => r.1.name) = some "S0" := by
  refine ⟨by decide, by decide, by decide⟩

/-- The loop of `Split` over dims that do not hold the iterator appends them to the dims
gathered and leaves the constraints as they are. -/
theorem Split_loop_not_mem (iter n0 n1 r0 r1 : String) (dims : List String)
    (h : iter ∉ dims) (td tc : List String) :
    Stage.Split_loop iter n0 n1 r0 r1 dims (td, tc) = (td ++ dims, tc) := by
  induction dims generalizing td with
  | nil => simp [Stage.Split_loop]
  | cons d rest ih =>
    have hd : iter ≠ d := fun e => h (e ▸ List.mem_cons_self _ _)
    have hr : iter ∉ rest := fun e => h (List.mem_cons_of_mem _ e)
    simp [Stage.Split_loop, hd, ih hr]

/-- The loop of `Split` over dims that hold the iterator once. -/
theorem Split_loop_once (iter n0 n1 r0 r1 : String) (pre post : List String)
    (hpre : iter ∉ pre) (hpost : iter ∉ post) :
    Stage.Split_loop iter n0 n1 r0 r1 (pre ++ iter :: post) ([], []) =
      (pre ++ [n0, n1] ++ post, [r0, r1]) := by
  have key : ∀ (pre td : List String), iter ∉ pre →
      Stage.Split_loop iter n0 n1 r0 r1 (pre ++ iter :: post) (td, []) =
        (td ++ pre ++ [n0, n1] ++ post, [r0, r1]) := by
    intro pre
    induction pre with
    | nil =>
      intro td _
      simp [Stage.Split_loop, Split_loop_not_mem iter n0 n1 r0 r1 post hpost]
    | cons d rest ih =>
      intro td hp
      have hd : iter ≠ d := fun e => hp (e ▸ List.mem_cons_self _ _)
      have hr : iter ∉ rest := fun e => hp (List.mem_cons_of_mem _ e)
      simp [Stage.Split_loop, hd, ih (td ++ [d]) hr]
  simpa using key pre [] hpre

/-- What `Split` stores, for an iterator that is an output dim once. -/
theorem Split_eq (name : String) (s : isl.sched) (iter : String) (size : Int)
    (pre post : List String) (hdims : s.out_dims = pre ++ iter :: post)
    (hpre : iter ∉ pre) (hpost : iter ∉ post) (hsize : 0 < size) :
    Stage.Split name (some s) iter size =
      some (.apply_range s
        ⟨"\x7b " ++ isl_map_get_statement_repr_out s ++ " -> " ++ name ++ "[" ++
          Concat (pre ++ [iter ++ "_", iter ++ "__"] ++ post) ", " ++ "]: " ++
          Concat [iter ++ "_" ++ " = floor(" ++ iter ++ "/" ++ toString size ++ ")",
            iter ++ "__" ++ " = " ++ iter ++ " % " ++ toString size] " and " ++ " \x7d",
        isl_map_get_statement_repr_out s, pre ++ iter :: post, name,
        pre ++ [iter ++ "_", iter ++ "__"] ++ post,
        [iter ++ "_" ++ " = floor(" ++ iter ++ "/" ++ toString size ++ ")",
         iter ++ "__" ++ " = " ++ iter ++ " % " ++ toString size]⟩) := by
  have hhas : isl_map_has_dim_name s iter = true := by
    simp [isl_map_has_dim_name, hdims]
  have hloop := Split_loop_once iter (iter ++ "_") (iter ++ "__")
    (iter ++ "_" ++ " = floor(" ++ iter ++ "/" ++ toString size ++ ")")
    (iter ++ "__" ++ " = " ++ iter ++ " % " ++ toString size) pre post hpre hpost
  simp only [Stage.Split, Option.bind_eq_bind, Option.some_bind, CHECK, hsize, hhas,
    gt_iff_lt, decide_True, if_true, hdims, hloop, Option.pure_def]

/-- What a `std::set` of names holds after an insertion. -/
theorem mem_std_set_insert (s : List String) (x n : String) :
    n ∈ std_set_insert s x ↔ n = x ∨ n ∈ s := by
  unfold std_set_insert
  by_cases h : s.contains x = true
  · rw [if_pos h]
    constructor
    · intro hn; exact Or.inr hn
    · rintro (rfl | hn)
      · simpa using h
      · exact hn
  · rw [if_neg h]
    exact List.mem_orderedInsert _

/-- An insertion into a `std::set` of names keeps the names distinct. -/
theorem nodup_std_set_insert (s : List String) (x : String) (hs : s.Nodup) :
    (std_set_insert s x).Nodup := by
  unfold std_set_insert
  by_cases h : s.contains x = true
  · rw [if_pos h]; exact hs
  · rw [if_neg h]
    have hx : x ∉ s := by simpa using h
    exact ((List.perm_orderedInsert _ x s).nodup_iff).mpr (List.nodup_cons.mpr ⟨hx, hs⟩)

/-- What a `std::set` of names holds after the insertion of a list of names. -/
theorem mem_foldl_std_set_insert (xs : List String) (s : List String) (n : String) :
    n ∈ xs.foldl std_set_insert s ↔ n ∈ s ∨ n ∈ xs := by
  induction xs generalizing s with
  | nil => simp
  | cons x rest ih =>
    rw [List.foldl_cons, ih, mem_std_set_insert, List.mem_cons]
    tauto

/-- The insertion of a list of names into a `std::set` keeps the names distinct. -/
theorem nodup_foldl_std_set_insert (xs : List String) (s : List String) (hs : s.Nodup) :
    (xs.foldl std_set_insert s).Nodup := by
  induction xs generalizing s with
  | nil => exact hs
  | cons x rest ih => exact ih _ (nodup_std_set_insert s x hs)

/-- The first loop of `BuildDomainFromExprWithDimension`: one alias `ii<k>` for each
expression, and the set of the names of the variables of the expressions. -/
theorem BuildDomainFromExprWithDimension_vars_spec (exprs : List Expr) (i : Nat)
    (acc : List String × List String) :
    (BuildDomainFromExprWithDimension_vars exprs i acc).2 =
      acc.2 ++ (List.range' i exprs.length).map GenIndexedIteratorName ∧
    (∀ n, n ∈ (BuildDomainFromExprWithDimension_vars exprs i acc).1 ↔
      n ∈ acc.1 ∨ ∃ e ∈ exprs, n ∈ CollectVarsFromExpr e) ∧
    (acc.1.Nodup → (BuildDomainFromExprWithDimension_vars exprs i acc).1.Nodup) := by
  induction exprs generalizing i acc with
  | nil =>
    obtain ⟨s, a⟩ := acc
    simp [BuildDomainFromExprWithDimension_vars]
  | cons e rest ih =>
    obtain ⟨s, a⟩ := acc
    obtain ⟨h1, h2, h3⟩ := ih (i + 1)
      ((CollectVarsFromExpr e).foldl std_set_insert s, a ++ [GenIndexedIteratorName i])
    refine ⟨?_, ?_, ?_⟩
    · rw [BuildDomainFromExprWithDimension_vars, h1]
      simp [List.range'_succ]
    · intro n
      rw [BuildDomainFromExprWithDimension_vars, h2, mem_foldl_std_set_insert]
      simp only [List.mem_cons, exists_eq_or_imp]
      tauto
    · intro hs
      rw [BuildDomainFromExprWithDimension_vars]
      exact h3 (nodup_foldl_std_set_insert _ _ hs)

/-- The loop of `BuildDomainFromDimensions` returns exactly when every dim is an integer
and has an iterator. -/
theorem BuildDomainFromDimensions_loop_isSome (dims : List Constant) (iterators : List String)
    (acc : List String × List String) :
    (BuildDomainFromDimensions_loop dims iterators acc).isSome = true ↔
      dims.length ≤ iterators.length ∧ ∀ d ∈ dims, d.is_integer = true := by
  induction dims generalizing iterators acc with
  | nil => simp [BuildDomainFromDimensions_loop]
  | cons d rest ih =>
    obtain ⟨c, p⟩ := acc
    cases iterators with
    | nil => simp [BuildDomainFromDimensions_loop]
    | cons it its =>
      by_cases hd : d.is_integer = true
      · by_cases hv : d.value_set_ = true
        · simp [BuildDomainFromDimensions_loop, CHECK, hd, hv, ih]
        · simp [BuildDomainFromDimensions_loop, CHECK, hd, hv, ih]
      · simp [BuildDomainFromDimensions_loop, CHECK, hd]

/-- The function `BuildDomainFromDimensions` returns exactly when there is a dim, and
every dim is an integer and has an iterator.  What it returns is the set of the text it
builds, over the iterators, or the null set when the library rejects the text. -/
theorem BuildDomainFromDimensions_spec (reads : String → Bool) (dims : List Constant)
    (iterators : List String) :
    ((BuildDomainFromDimensions reads dims iterators).isSome = true ↔
      dims ≠ [] ∧ dims.length ≤ iterators.length ∧ ∀ d ∈ dims, d.is_integer = true) ∧
    ∀ r, BuildDomainFromDimensions reads dims iterators = some r →
      ∃ S : isl.built_set, r = (if reads S.repr then some S else none) ∧
        S.dims = iterators ∧
        S.repr = "[" ++ Concat S.params ", " ++ "] -> \x7b [" ++ Concat S.dims ", " ++
          "] : " ++ Concat S.constraints " and " ++ " \x7d" := by
  constructor
  · rw [← BuildDomainFromDimensions_loop_isSome dims iterators ([], [])]
    by_cases hne : dims = []
    · simp [BuildDomainFromDimensions, CHECK, hne]
    · cases hl : BuildDomainFromDimensions_loop dims iterators ([], []) with
      | none => simp [BuildDomainFromDimensions, CHECK, hne, hl]
      | some r =>
        obtain ⟨c, p⟩ := r
        simp [BuildDomainFromDimensions, CHECK, hne, hl]
  · intro r hr
    by_cases hne : dims = []
    · simp [BuildDomainFromDimensions, CHECK, hne] at hr
    · cases hl : BuildDomainFromDimensions_loop dims iterators ([], []) with
      | none => simp [BuildDomainFromDimensions, CHECK, hne, hl] at hr
      | some q =>
        obtain ⟨c, p⟩ := q
        simp [BuildDomainFromDimensions, CHECK, hne, hl] at hr
        refine ⟨⟨"[" ++ Concat (if p = [] then std_set_insert p "" else p) ", " ++
            "] -> \x7b [" ++ Concat iterators ", " ++ "] : " ++ Concat c " and " ++ " \x7d",
          if p = [] then std_set_insert p "" else p, iterators, c⟩, ?_, rfl, rfl⟩
        rw [← hr]

/-- The image of a set under a map, each possibly null. -/
theorem isl_set_apply_ite (a b : Bool) (S : isl.built_set) (M : isl.built_map) :
    isl.isl_set_apply (if a = true then some S else none) (if b = true then some M else none) =
      if (a && b) = true then some ⟨S, M⟩ else none := by
  cases a <;> cases b <;> rfl

/-- The function `BuildDomainFromExprWithDimension` returns exactly when there are as many
expressions as dims, at least one, and every dim is an integer.  What it returns is null
when the library rejects the text of the alias set or the text of the map, and otherwise
the image of the alias set over `ii0, ii1, ..` under the map to the distinct names of the
variables of the expressions, neither tuple of which has a name. -/
theorem BuildDomainFromExprWithDimension_spec (reads : String → Bool) (Dump : Expr → String)
    (exprs : List Expr) (dimensions : List Constant) :
    ((BuildDomainFromExprWithDimension reads Dump exprs dimensions).isSome = true ↔
      exprs.length = dimensions.length ∧ dimensions ≠ [] ∧
        ∀ d ∈ dimensions, d.is_integer = true) ∧
    ∀ r, BuildDomainFromExprWithDimension reads Dump exprs dimensions = some r →
      ∃ (S : isl.built_set) (M : isl.built_map),
        r = (if (reads S.repr && reads M.repr) = true then some ⟨S, M⟩ else none) ∧
        S.dims = (List.range dimensions.length).map GenIndexedIteratorName ∧
        S.repr = "[" ++ Concat S.params ", " ++ "] -> \x7b [" ++ Concat S.dims ", " ++
          "] : " ++ Concat S.constraints " and " ++ " \x7d" ∧
        M.repr = "\x7b [" ++ Concat M.in_dims ", " ++ "] -> [" ++ Concat M.out_dims ", " ++
          "] : " ++ Concat M.conds " and " ++ " \x7d" ∧
        M.in_tuple = none ∧ M.in_dims = S.dims ∧ M.out_tuple = none ∧
        M.conds = BuildDomainFromExprWithDimension_alias_eq Dump exprs S.dims ∧
        M.out_dims.Nodup ∧
        (∀ n, n ∈ M.out_dims ↔ ∃ e ∈ exprs, n ∈ CollectVarsFromExpr e) ∧
        M.out_dims.length = (exprs.flatMap CollectVarsFromExpr).dedup.length := by
  obtain ⟨halias, hmem, hnd⟩ := BuildDomainFromExprWithDimension_vars_spec exprs 0 ([], [])
  cases hv : BuildDomainFromExprWithDimension_vars exprs 0 ([], []) with
  | mk s a =>
    rw [hv] at halias hmem hnd
    simp only [List.nil_append, List.not_mem_nil, false_or] at halias hmem
    have hlen : a.length = exprs.length := by simp [halias]
    obtain ⟨hsome, hset⟩ := BuildDomainFromDimensions_spec reads dimensions a
    by_cases hl : exprs.length = dimensions.length
    · cases hb : BuildDomainFromDimensions reads dimensions a with
      | none =>
        have hfun : BuildDomainFromExprWithDimension reads Dump exprs dimensions = none := by
          simp [BuildDomainFromExprWithDimension, CHECK, hl, hv, hb]
        rw [hfun]
        rw [hb] at hsome
        refine ⟨?_, fun r hr => by cases hr⟩
        constructor
        · intro h; cases h
        · rintro ⟨-, hne, hint⟩
          have := hsome.mpr ⟨hne, by omega, hint⟩
          cases this
      | some q =>
        obtain ⟨S, hq, hSd, hSr⟩ := hset q hb
        have hfun : BuildDomainFromExprWithDimension reads Dump exprs dimensions =
            some (isl.isl_set_apply q
              (if reads ("\x7b [" ++ Concat a ", " ++ "] -> [" ++ Concat s ", " ++ "] : " ++
                  Concat (BuildDomainFromExprWithDimension_alias_eq Dump exprs a) " and " ++
                  " \x7d") = true then
                some ⟨"\x7b [" ++ Concat a ", " ++ "] -> [" ++ Concat s ", " ++ "] : " ++
                  Concat (BuildDomainFromExprWithDimension_alias_eq Dump exprs a) " and " ++
                  " \x7d", none, a, none, s,
                  BuildDomainFromExprWithDimension_alias_eq Dump exprs a⟩
              else none)) := by
          simp [BuildDomainFromExprWithDimension, CHECK, hl, hv, hb]
        rw [hfun]
        rw [hb] at hsome
        have hc := hsome.mp rfl
        refine ⟨?_, ?_⟩
        · constructor
          · intro _; exact ⟨hl, hc.1, hc.2.2⟩
          · intro _; rfl
        · intro r hr
          cases hr
          refine ⟨S, ⟨"\x7b [" ++ Concat a ", " ++ "] -> [" ++ Concat s ", " ++ "] : " ++
              Concat (BuildDomainFromExprWithDimension_alias_eq Dump exprs a) " and " ++
              " \x7d", none, a, none, s,
              BuildDomainFromExprWithDimension_alias_eq Dump exprs a⟩,
            ?_, ?_, hSr, rfl, rfl, hSd.symm, rfl, ?_, hnd List.nodup_nil, hmem, ?_⟩
          · rw [hq]
            exact isl_set_apply_ite _ _ _ _
          · rw [hSd, halias, ← hl, List.range_eq_range']
          · rw [hSd]
          · apply List.Perm.length_eq
            apply (List.perm_ext_iff_of_nodup (hnd List.nodup_nil) (List.nodup_dedup _)).mpr
            intro n
            rw [hmem, List.mem_dedup, List.mem_flatMap]
    · have hfun : BuildDomainFromExprWithDimension reads Dump exprs dimensions = none := by
        simp [BuildDomainFromExprWithDimension, CHECK, hl]
      rw [hfun]
      refine ⟨?_, fun r hr => by cases hr⟩
      constructor
      · intro h; cases h
      · rintro ⟨h, -⟩; exact absurd h hl

/-- The domain of the indices `j, i` on the dims `10, 20`, as the library reads it. -/
theorem BuildDomain_j_i :
    BuildDomainFromExprWithDimension isl_reads_examples Dump_arith [iter_j, iter_i]
        [Constant.of_int32 10, Constant.of_int32 20] =
      some (some
        ⟨⟨"[] -> \x7b [ii0, ii1] : 0<= ii0 <10 and 0<= ii1 <20 \x7d", [""], ["ii0", "ii1"],
           ["0<= ii0 <10", "0<= ii1 <20"]⟩,
         ⟨"\x7b [ii0, ii1] -> [i, j] : ii0=j and ii1=i \x7d", none, ["ii0", "ii1"], none,
           ["i", "j"], ["ii0=j", "ii1=i"]⟩⟩) := rfl

mutual
/-- An expression without variables is left as it is when its variables are given the
type int32. -/
theorem set_vars_int32_of_no_vars :
    ∀ e : Expr, CollectVarsFromExpr e = [] → set_vars_int32 e = e
  | .null, _ => rfl
  | .mk _ _ (.Var name), h => by simp [CollectVarsFromExpr] at h
  | .mk pt ct (.Binary op a b), h => by
    simp only [CollectVarsFromExpr, List.append_eq_nil] at h
    simp only [set_vars_int32, set_vars_int32_of_no_vars a h.1,
      set_vars_int32_of_no_vars b h.2]
  | .mk pt ct (.Unary op a), h => by
    simp only [CollectVarsFromExpr] at h
    simp only [set_vars_int32, set_vars_int32_of_no_vars a h]
  | .mk pt ct (.Call caller arguments), h => by
    simp only [CollectVarsFromExpr] at h
    simp only [set_vars_int32, set_vars_int32_each_of_no_vars arguments h]
  | .mk pt ct (.Reference target iterators), h => by
    simp only [CollectVarsFromExpr, List.append_eq_nil] at h
    simp only [set_vars_int32, set_vars_int32_of_no_vars target h.1,
      set_vars_int32_each_of_no_vars iterators h.2]
  | .mk pt ct (.IfThenElse c t f), h => by
    simp only [CollectVarsFromExpr, List.append_eq_nil] at h
    simp only [set_vars_int32, set_vars_int32_of_no_vars c h.1.1,
      set_vars_int32_of_no_vars t h.1.2, set_vars_int32_of_no_vars f h.2]
  | .mk pt ct (.Block body), h => by
    simp only [CollectVarsFromExpr] at h
    simp only [set_vars_int32, set_vars_int32_each_of_no_vars body h]
  | .mk pt ct (.For i c n b it), h => by
    simp only [CollectVarsFromExpr, List.append_eq_nil] at h
    simp only [set_vars_int32, set_vars_int32_of_no_vars i h.1.1.1.1,
      set_vars_int32_of_no_vars c h.1.1.1.2, set_vars_int32_of_no_vars n h.1.1.2,
      set_vars_int32_of_no_vars b h.1.2, set_vars_int32_of_no_vars it h.2]
  | .mk pt ct (.Allocate n s t), h => by
    simp only [CollectVarsFromExpr] at h
    simp only [set_vars_int32, set_vars_int32_of_no_vars s h]
  | .mk pt ct (.IntImm _), _ => rfl
  | .mk pt ct (.Tensor _ _), _ => rfl
  | .mk pt ct (.Mark _), _ => rfl
/-- The same for each expression of a list. -/
theorem set_vars_int32_each_of_no_vars :
    ∀ es : List Expr, CollectVarsFromExpr_each es = [] → set_vars_int32_each es = es
  | [], _ => rfl
  | e :: rest, h => by
    simp only [CollectVarsFromExpr_each, List.append_eq_nil] at h
    simp only [set_vars_int32_each, set_vars_int32_of_no_vars e h.1,
      set_vars_int32_each_of_no_vars rest h.2]
end

/-- The domain of a reference indexed as many times as its tensor has dims, at least once:
the function aborts exactly when a dim is not an integer. -/
theorem BuildDomain_of_tensor_dims (reads : String → Bool) (Dump : Expr → String)
    (its : List Expr) (dims : List Constant) (hlen : its.length = dims.length)
    (hne : its ≠ []) :
    (BuildDomainFromExprWithDimension reads Dump its dims = none ↔
      ∃ d ∈ dims, d.is_integer = false) ∧
    ((∀ d ∈ dims, d.is_integer = true) →
      ∃ D, BuildDomainFromExprWithDimension reads Dump its dims = some D) := by
  have hsome := (BuildDomainFromExprWithDimension_spec reads Dump its dims).1
  have hd : dims ≠ [] := by
    intro h
    subst h
    exact hne (List.length_eq_zero.mp hlen)
  constructor
  · constructor
    · intro hnone
      by_contra hcon
      push_neg at hcon
      have := hsome.mpr ⟨hlen, hd, fun d hdm => by simpa using hcon d hdm⟩
      rw [hnone] at this
      cases this
    · rintro ⟨d, hdm, hint⟩
      cases h : BuildDomainFromExprWithDimension reads Dump its dims with
      | none => rfl
      | some r =>
        have := (hsome.mp (by rw [h]; rfl)).2.2 d hdm
        rw [hint] at this
        cases this
  · intro hint
    exact Option.isSome_iff_exists.mp (hsome.mpr ⟨hlen, hd, hint⟩)

/-- The function `InferenceIteratorDomain` on a reference to a tensor. -/
theorem InferenceIteratorDomain_tensor (reads : String → Bool) (Dump : Expr → String)
    (pt : primitive_t) (ct : composite_t) (p : primitive_t) (c : composite_t) (name : String)
    (dims : List Constant) (its : List Expr) (dom : Option isl.applied_set) :
    Expr.InferenceIteratorDomain reads Dump
        ⟨.mk pt ct (.Reference (.mk p c (.Tensor name dims)) its), dom⟩ =
      if dims.length < its.length then none
      else if its.length = dims.length then
        (BuildDomainFromExprWithDimension reads Dump its dims).map
          (fun d => ⟨.mk pt ct (.Reference (.mk p c (.Tensor name dims)) its), d⟩)
      else some ⟨.mk pt ct (.Reference (.mk p c (.Tensor name dims)) its), dom⟩ := by
  by_cases h1 : dims.length < its.length
  · have h1b : ¬ its.length ≤ dims.length := by omega
    simp [Expr.InferenceIteratorDomain, CHECK, h1, h1b]
  · have h1b : its.length ≤ dims.length := by omega
    by_cases h2 : its.length = dims.length
    · cases hb : BuildDomainFromExprWithDimension reads Dump its dims <;>
        simp [Expr.InferenceIteratorDomain, CHECK, h1, h1b, h2, hb]
    · simp [Expr.InferenceIteratorDomain, CHECK, h1, h1b, h2]

/-- The function `InferenceIteratorDomain` leaves alone a handle that is not a reference
to a tensor. -/
theorem InferenceIteratorDomain_not_tensor (reads : String → Bool) (Dump : Expr → String)
    (self : Handle)
    (h : ∀ pt ct p c name dims its,
      self.expr ≠ .mk pt ct (.Reference (.mk p c (.Tensor name dims)) its)) :
    Expr.InferenceIteratorDomain reads Dump self = some self := by
  unfold Expr.InferenceIteratorDomain
  split
  · next pt ct p c name dims its heq => exact absurd heq (h pt ct p c name dims its)
  · rfl

/-- The function `InferenceIteratorDomain` returns the handle it was given. -/
theorem InferenceIteratorDomain_expr (reads : String → Bool) (Dump : Expr → String)
    (self res : Handle)
    (h : Expr.InferenceIteratorDomain reads Dump self = some res) : res.expr = self.expr := by
  unfold Expr.InferenceIteratorDomain at h
  split at h
  · simp only [Option.bind_eq_bind, Option.bind_eq_some] at h
    obtain ⟨_, -, h⟩ := h
    split at h
    · simp only [Option.bind_eq_bind, Option.bind_eq_some, Option.pure_def,
        Option.some.injEq] at h
      obtain ⟨_, -, rfl⟩ := h
      rfl
    · cases h; rfl
  · cases h; rfl

/-- The operator `operator[]` on a reference: the index is appended, and the domain is
inferred when the index holds a variable. -/
theorem subscript_Reference (reads : String → Bool) (Dump : Expr → String) (pt : primitive_t)
    (ct : composite_t) (T : Expr) (its : List Expr) (dom : Option isl.applied_set) (e : Expr) :
    Expr.subscript reads Dump ⟨.mk pt ct (.Reference T its), dom⟩ e =
      if CollectVarsFromExpr e = [] then
        some ⟨.mk pt ct (.Reference T (its ++ [set_vars_int32 e])), dom⟩
      else Expr.InferenceIteratorDomain reads Dump
        ⟨.mk pt ct (.Reference T (its ++ [set_vars_int32 e])), dom⟩ := by
  by_cases hv : CollectVarsFromExpr e = []
  · simp [Expr.subscript, hv, set_vars_int32_of_no_vars e hv]
  · simp [Expr.subscript, hv]

/-- The operator `operator[]` on a defined handle that is not a reference: a new reference
to the handle, made when the handle and the index have known types, with its domain
inferred when the index holds a variable. -/
theorem subscript_not_Reference (reads : String → Bool) (Dump : Expr → String)
    (px : primitive_t) (cx : composite_t) (nx : IRNode) (dom : Option isl.applied_set)
    (e : Expr) (hx : nx.type ≠ .Reference) :
    Expr.subscript reads Dump ⟨.mk px cx nx, dom⟩ e =
      if px ≠ .unk ∧ (set_vars_int32 e).is_unk = some false then
        (if CollectVarsFromExpr e = [] then
          some ⟨.mk px .primitive (.Reference (.mk px cx nx) [set_vars_int32 e]), none⟩
        else Expr.InferenceIteratorDomain reads Dump
          ⟨.mk px .primitive (.Reference (.mk px cx nx) [set_vars_int32 e]), none⟩)
      else none := by
  have hmake : Reference.make (.mk px cx nx) [set_vars_int32 e] =
      if px ≠ .unk ∧ (set_vars_int32 e).is_unk = some false then
        some (.mk px .primitive (.Reference (.mk px cx nx) [set_vars_int32 e]))
      else none := by
    cases he : set_vars_int32 e with
    | null => simp [Reference.make, Reference.make_check, CHECK, Expr.valid, Expr.is_unk,
        Expr.ptype]
    | mk pe ce ne =>
      by_cases h1 : px = .unk
      · simp [Reference.make, Reference.make_check, CHECK, Expr.valid, Expr.is_unk,
          Expr.ptype, h1]
      · by_cases h2 : pe = .unk
        · simp [Reference.make, Reference.make_check, CHECK, Expr.valid, Expr.is_unk,
            Expr.ptype, h1, h2]
        · simp [Reference.make, Reference.make_check, CHECK, Expr.valid, Expr.is_unk,
            Expr.ptype, h1, h2, fresh]
  have hsub : Expr.subscript reads Dump ⟨.mk px cx nx, dom⟩ e =
      (Reference.make (.mk px cx nx) [set_vars_int32 e]).bind (fun node =>
        if CollectVarsFromExpr e = [] then some ⟨node, none⟩
        else Expr.InferenceIteratorDomain reads Dump ⟨node, none⟩) := by
    by_cases hv : CollectVarsFromExpr e = []
    · cases nx <;> first
        | exact absurd rfl hx
        | simp [Expr.subscript, hv, set_vars_int32_of_no_vars e hv]
    · cases nx <;> first
        | exact absurd rfl hx
        | simp [Expr.subscript, hv]
  rw [hsub, hmake]
  by_cases hc : px ≠ .unk ∧ (set_vars_int32 e).is_unk = some false
  · rw [if_pos hc, if_pos hc]; rfl
  · rw [if_neg hc, if_neg hc]; rfl

/-- The operator `operator[]` on a reference, by cases: when it aborts, and what it
returns. -/
theorem subscript_Reference_cases (reads : String → Bool) (Dump : Expr → String)
    (pt : primitive_t) (ct : composite_t) (T : Expr) (its : List Expr)
    (dom : Option isl.applied_set) (e : Expr) :
    (Expr.subscript reads Dump ⟨.mk pt ct (.Reference T its), dom⟩ e = none ↔
      CollectVarsFromExpr e ≠ [] ∧
        ∃ p c name dims, T = .mk p c (.Tensor name dims) ∧
          (dims.length < its.length + 1 ∨
            (dims.length = its.length + 1 ∧ ∃ d ∈ dims, d.is_integer = false))) ∧
    (∀ res, Expr.subscript reads Dump ⟨.mk pt ct (.Reference T its), dom⟩ e = some res →
      res.expr = .mk pt ct (.Reference T (its ++ [set_vars_int32 e]))) := by
  rw [subscript_Reference]
  by_cases hv : CollectVarsFromExpr e = []
  · rw [if_pos hv]
    refine ⟨⟨(fun h => by cases h), fun h => absurd hv h.1⟩, ?_⟩
    intro res hres
    cases hres
    rfl
  · rw [if_neg hv]
    refine ⟨?_, fun res hres => InferenceIteratorDomain_expr reads Dump _ res hres⟩
    by_cases ht : ∃ p c name dims, T = .mk p c (.Tensor name dims)
    · obtain ⟨p, c, name, dims, rfl⟩ := ht
      rw [InferenceIteratorDomain_tensor]
      simp only [List.length_append, List.length_cons, List.length_nil, Nat.zero_add]
      have hinj : ∀ p1 c1 name1 dims1,
          Expr.mk p c (.Tensor name dims) = .mk p1 c1 (.Tensor name1 dims1) → dims1 = dims := by
        intro p1 c1 name1 dims1 heq
        injection heq with _ _ hn
        injection hn with _ hd
        exact hd.symm
      by_cases h1 : dims.length < its.length + 1
      · rw [if_pos h1]
        exact ⟨fun _ => ⟨hv, p, c, name, dims, rfl, Or.inl h1⟩, fun _ => rfl⟩
      · rw [if_neg h1]
        by_cases h2 : its.length + 1 = dims.length
        · rw [if_pos h2]
          have hb := (BuildDomain_of_tensor_dims reads Dump (its ++ [set_vars_int32 e]) dims
            (by simp [h2]) (by simp)).1
          constructor
          · intro h
            have hnone : BuildDomainFromExprWithDimension reads Dump
                (its ++ [set_vars_int32 e]) dims = none := by
              cases hbd : BuildDomainFromExprWithDimension reads Dump
                  (its ++ [set_vars_int32 e]) dims with
              | none => rfl
              | some r => rw [hbd] at h; cases h
            exact ⟨hv, p, c, name, dims, rfl, Or.inr ⟨h2.symm, hb.mp hnone⟩⟩
          · rintro ⟨-, p1, c1, name1, dims1, heq, hor⟩
            have := hinj p1 c1 name1 dims1 heq
            subst this
            rcases hor with hlt | ⟨-, hd⟩
            · exact absurd hlt h1
            · rw [hb.mpr hd]; rfl
        · rw [if_neg h2]
          refine ⟨(fun h => by cases h), ?_⟩
          rintro ⟨-, p1, c1, name1, dims1, heq, hor⟩
          have := hinj p1 c1 name1 dims1 heq
          subst this
          rcases hor with hlt | ⟨heq2, -⟩
          · exact absurd hlt h1
          · exact absurd heq2.symm h2
    · rw [InferenceIteratorDomain_not_tensor]
      · refine ⟨(fun h => by cases h), ?_⟩
        rintro ⟨-, p, c, name, dims, rfl, -⟩
        exact absurd ⟨p, c, name, dims, rfl⟩ ht
      · intro pt' ct' p c name dims its' heq
        injection heq with _ _ hn
        injection hn with hT _
        exact ht ⟨p, c, name, dims, hT⟩

/-- The operator `operator[]` on a defined handle that is not a reference, by cases: when
it aborts, and what it returns. -/
theorem subscript_not_Reference_cases (reads : String → Bool) (Dump : Expr → String)
    (px : primitive_t) (cx : composite_t) (nx : IRNode) (dom : Option isl.applied_set)
    (e : Expr) (hx : nx.type ≠ .Reference) :
    (Expr.subscript reads Dump ⟨.mk px cx nx, dom⟩ e = none ↔
      px = .unk ∨ (set_vars_int32 e).is_unk ≠ some false ∨
        (CollectVarsFromExpr e ≠ [] ∧ ∃ name dims, nx = .Tensor name dims ∧
          (dims = [] ∨ (dims.length = 1 ∧ ∃ d ∈ dims, d.is_integer = false)))) ∧
    (∀ res, Expr.subscript reads Dump ⟨.mk px cx nx, dom⟩ e = some res →
      res.expr = .mk px .primitive (.Reference (.mk px cx nx) [set_vars_int32 e])) := by
  rw [subscript_not_Reference reads Dump px cx nx dom e hx]
  by_cases hc : px ≠ .unk ∧ (set_vars_int32 e).is_unk = some false
  · rw [if_pos hc]
    by_cases hv : CollectVarsFromExpr e = []
    · rw [if_pos hv]
      refine ⟨⟨(fun h => by cases h), ?_⟩, ?_⟩
      · rintro (h | h | h)
        · exact absurd h hc.1
        · exact absurd hc.2 h
        · exact absurd hv h.1
      · intro res hres
        cases hres
        rfl
    · rw [if_neg hv]
      refine ⟨?_, fun res hres => InferenceIteratorDomain_expr reads Dump _ res hres⟩
      by_cases ht : ∃ name dims, nx = .Tensor name dims
      · obtain ⟨name, dims, rfl⟩ := ht
        rw [InferenceIteratorDomain_tensor]
        simp only [List.length_cons, List.length_nil, Nat.zero_add]
        have hinj : ∀ name1 dims1,
            IRNode.Tensor name dims = .Tensor name1 dims1 → dims1 = dims := by
          intro name1 dims1 heq
          injection heq with _ hd
          exact hd.symm
        by_cases h1 : dims.length < 1
        · rw [if_pos h1]
          have hd : dims = [] := List.length_eq_zero.mp (by omega)
          exact ⟨fun _ => Or.inr (Or.inr ⟨hv, name, dims, rfl, Or.inl hd⟩), fun _ => rfl⟩
        · rw [if_neg h1]
          have hne : dims ≠ [] := by
            intro h
            subst h
            exact h1 (by simp)
          by_cases h2 : 1 = dims.length
          · rw [if_pos h2]
            have hb := (BuildDomain_of_tensor_dims reads Dump [set_vars_int32 e] dims
              (by simp [← h2]) (by simp)).1
            constructor
            · intro h
              have hnone : BuildDomainFromExprWithDimension reads Dump
                  [set_vars_int32 e] dims = none := by
                cases hbd : BuildDomainFromExprWithDimension reads Dump
                    [set_vars_int32 e] dims with
                | none => rfl
                | some r => rw [hbd] at h; cases h
              exact Or.inr (Or.inr ⟨hv, name, dims, rfl, Or.inr ⟨h2.symm, hb.mp hnone⟩⟩)
            · rintro (h | h | ⟨-, name1, dims1, heq, hor⟩)
              · exact absurd h hc.1
              · exact absurd hc.2 h
              · have := hinj name1 dims1 heq
                subst this
                rcases hor with hd | ⟨-, hd⟩
                · exact absurd hd hne
                · rw [hb.mpr hd]; rfl
          · rw [if_neg h2]
            refine ⟨(fun h => by cases h), ?_⟩
            rintro (h | h | ⟨-, name1, dims1, heq, hor⟩)
            · exact absurd h hc.1
            · exact absurd hc.2 h
            · have := hinj name1 dims1 heq
              subst this
              rcases hor with hd | ⟨hl, -⟩
              · exact absurd hd hne
              · exact absurd hl.symm h2
      · rw [InferenceIteratorDomain_not_tensor]
        · refine ⟨(fun h => by cases h), ?_⟩
          rintro (h | h | ⟨-, name, dims, rfl, -⟩)
          · exact absurd h hc.1
          · exact absurd hc.2 h
          · exact absurd ⟨name, dims, rfl⟩ ht
        · intro pt' ct' p c name dims its' heq
          injection heq with _ _ hn
          injection hn with hT _
          injection hT with _ _ hnx
          exact ht ⟨name, dims, hnx⟩
  · rw [if_neg hc]
    refine ⟨⟨fun _ => ?_, fun _ => rfl⟩, fun res hres => by cases hres⟩
    by_cases h1 : px = .unk
    · exact Or.inl h1
    · exact Or.inr (Or.inl (fun h2 => hc ⟨h1, h2⟩))

/-- C12, as stated, fails: on the reference `A[i]` to the tensor `A` of rank 1 the
subscript `[j]` returns no reference, it aborts; so does the subscript `[0]` on the
defined handle `Mark("m")`, which is not a reference and has no known type; and so does
the subscript `[i]` on the tensor `F`, whose dim is given as a float32 constant. -/
theorem C12_counterexample :
    ref_A = .mk .int32 .primitive (.Reference tensor_A [iter_i]) ∧
    Expr.subscript isl_reads_examples Dump_arith ⟨ref_A, none⟩ iter_j = none ∧
    mark_m.valid = true ∧ mark_m.type = some .Mark ∧
    Expr.subscript isl_reads_examples Dump_arith ⟨mark_m, none⟩ zero_i32 = none ∧
    tensor_F.valid = true ∧ tensor_F.type = some .Tensor ∧
    Expr.subscript isl_reads_examples Dump_arith ⟨tensor_F, none⟩ iter_i = none :=
  ⟨rfl, rfl, rfl, rfl, rfl, rfl, rfl, rfl⟩

/-- C12, amended.  The index appended is `e` with its variables given the type int32.
On a reference `r` with a defined target `T` and indices `its`, `r[e]` aborts exactly when
`e` holds a variable and `T` is a tensor that has fewer than `|its| + 1` dims, or has
`|its| + 1` dims one of which is not an integer; otherwise it returns the reference with
the same target `T` and the indices `its ++ [e]`, never a reference to `r`.  On a defined
handle `x` that is not a reference, `x[e]` aborts exactly when `x` has no known type, or
`e` is undefined or has no known type, or `e` holds a variable and `x` is a tensor without
dims or with one dim that is not an integer; otherwise it returns a new reference with
target `x` and the one index `e`.  This holds whatever texts the library reads; the dims
of a tensor that are integers with a value are taken to be of type int32. -/
theorem C12_subscript_extends (reads : String → Bool) (Dump : Expr → String) (e : Expr) :
    (∀ pt ct T its dom, T.valid = true →
      (∀ p c name dims, T = .mk p c (.Tensor name dims) →
        ∀ d ∈ dims, d.value_set_ = true → d.is_integer = true → d.ptype = .int32) →
      (Expr.subscript reads Dump ⟨.mk pt ct (.Reference T its), dom⟩ e = none ↔
        CollectVarsFromExpr e ≠ [] ∧
          ∃ p c name dims, T = .mk p c (.Tensor name dims) ∧
            (dims.length < its.length + 1 ∨
              (dims.length = its.length + 1 ∧ ∃ d ∈ dims, d.is_integer = false))) ∧
      (∀ res, Expr.subscript reads Dump ⟨.mk pt ct (.Reference T its), dom⟩ e = some res →
        res.expr = .mk pt ct (.Reference T (its ++ [set_vars_int32 e])))) ∧
    (∀ px cx nx dom, nx.type ≠ .Reference →
      (∀ name dims, nx = .Tensor name dims →
        ∀ d ∈ dims, d.value_set_ = true → d.is_integer = true → d.ptype = .int32) →
      (Expr.subscript reads Dump ⟨.mk px cx nx, dom⟩ e = none ↔
        px = .unk ∨ (set_vars_int32 e).is_unk ≠ some false ∨
          (CollectVarsFromExpr e ≠ [] ∧ ∃ name dims, nx = .Tensor name dims ∧
            (dims = [] ∨ (dims.length = 1 ∧ ∃ d ∈ dims, d.is_integer = false)))) ∧
      (∀ res, Expr.subscript reads Dump ⟨.mk px cx nx, dom⟩ e = some res →
        res.expr = .mk px .primitive (.Reference (.mk px cx nx) [set_vars_int32 e]))) :=
  ⟨fun pt ct T its dom _ _ => subscript_Reference_cases reads Dump pt ct T its dom e,
   fun px cx nx dom hx _ => subscript_not_Reference_cases reads Dump px cx nx dom e hx⟩

/-- C15: a reference to a tensor that has as many indices as the tensor has dims takes
one more index that holds no variable; `operator[]` returns the reference with one index
more than the rank instead of aborting. -/
theorem C15_constant_index_past_rank (reads : String → Bool) (Dump : Expr → String)
    (pt : primitive_t) (ct : composite_t) (p : primitive_t) (c : composite_t) (name : String)
    (dims : List Constant) (its : List Expr) (dom : Option isl.applied_set) (e : Expr)
    (hlen : its.length = dims.length) (hv : CollectVarsFromExpr e = []) :
    Expr.subscript reads Dump
        ⟨.mk pt ct (.Reference (.mk p c (.Tensor name dims)) its), dom⟩ e =
      some ⟨.mk pt ct (.Reference (.mk p c (.Tensor name dims)) (its ++ [e])), dom⟩ ∧
    (its ++ [e]).length = dims.length + 1 := by
  rw [subscript_Reference, if_pos hv, set_vars_int32_of_no_vars e hv]
  exact ⟨rfl, by simp [hlen]⟩

theorem C15_constant_index_past_rank_witness :
    Expr.subscript isl_reads_examples Dump_atoms
        ⟨.mk .int32 .primitive
          (.Reference (.mk .int32 .primitive (.Tensor "A" [Constant.of_int32 1])) [zero_i32]),
          none⟩ zero_i32 =
      some ⟨.mk .int32 .primitive
        (.Reference (.mk .int32 .primitive (.Tensor "A" [Constant.of_int32 1]))
          ([zero_i32] ++ [zero_i32])), none⟩ ∧
    ([zero_i32] ++ [zero_i32]).length = [Constant.of_int32 1].length + 1 :=
  C15_constant_index_past_rank isl_reads_examples Dump_atoms .int32 .primitive .int32
    .primitive "A" [Constant.of_int32 1] [zero_i32] none zero_i32 rfl rfl

/-- The reference `C[0][i]` to the tensor `C` of 10 by 20 elements has a domain, the
library reading both texts. -/
theorem subscript_C_0_i :
    Expr.subscript_each isl_reads_examples Dump_arith ⟨tensor_C, none⟩ [zero_i32, iter_i] =
      some ⟨.mk .int32 .primitive (.Reference tensor_C [zero_i32, iter_i]),
        some ⟨⟨"[] -> \x7b [ii0, ii1] : 0<= ii0 <10 and 0<= ii1 <20 \x7d", [""],
            ["ii0", "ii1"], ["0<= ii0 <10", "0<= ii1 <20"]⟩,
          ⟨"\x7b [ii0, ii1] -> [i] : ii0=0 and ii1=i \x7d", none, ["ii0", "ii1"], none, ["i"],
            ["ii0=0", "ii1=i"]⟩⟩⟩ ∧
    Expr.subscript isl_reads_examples Dump_arith ⟨tensor_P, none⟩ iter_i =
      some ⟨.mk .int32 .primitive (.Reference tensor_P [iter_i]),
        some ⟨⟨"[N] -> \x7b [ii0] : 0<= ii0 <N \x7d", ["N"], ["ii0"], ["0<= ii0 <N"]⟩,
          ⟨"\x7b [ii0] -> [i] : ii0=i \x7d", none, ["ii0"], none, ["i"], ["ii0=i"]⟩⟩⟩ :=
  ⟨rfl, rfl⟩

/-! ### Constants, vector operations, identities, the emitter and the texts of a set -/

/-- C21: two constants of type int32 with equal values compare equal whatever their names
are, so do two symbolic constants with different names; and on two constants of a type
the switch does not list the comparison aborts unless they share a non-empty name. -/
theorem C21_Constant_eq_ignores_different_names (a b : Constant) (hp : a.ptype = b.ptype)
    (hn : a.name_ ≠ b.name_) :
    (a.ptype = .int32 → a.int32_val_ = b.int32_val_ → Constant.eq a b = some true) ∧
    ((a.ptype = .int8 ∨ a.ptype = .int16 ∨ a.ptype = .boolean ∨ a.ptype = .void_) →
      Constant.eq a b = none) := by
  have h0 : (!a.name_.isEmpty && a.name_ == b.name_) = false := by
    simp [hn]
  constructor
  · intro h32 hv
    have hb : b.ptype = .int32 := hp ▸ h32
    simp [Constant.eq, h0, h32, hb, hv]
  · intro h
    rcases h with h | h | h | h <;>
      · have hb := hp ▸ h
        simp [Constant.eq, h0, h, hb]

theorem C21_Constant_eq_ignores_different_names_witness :
    (constant_N.ptype = .int32 → constant_N.int32_val_ = constant_M.int32_val_ →
      Constant.eq constant_N constant_M = some true) ∧
    ((constant_N.ptype = .int8 ∨ constant_N.ptype = .int16 ∨ constant_N.ptype = .boolean ∨
        constant_N.ptype = .void_) →
      Constant.eq constant_N constant_M = none) :=
  C21_Constant_eq_ignores_different_names constant_N constant_M rfl (by decide)

/-- C22: `make_store`, called directly or through `make` with the opcode `Store`, takes a
source of either vector type for either width: with the width 4 and a source of composite
type simd256 it returns a `Store` node of composite type simd128 whose source is simd256,
and with the width 8 and a source of simd128 a node of simd256. -/
theorem C22_make_store_takes_any_simd_source (pt : primitive_t) (ca : composite_t)
    (na nb : IRNode) (a_impl : impl_t) :
    SIMDOpr.make_store 4 (.mk pt ca na) (.mk pt .simd256 nb) .normal =
      some ⟨pt, .simd128, 4, .kStore, .mk pt ca na, .mk pt .simd256 nb⟩ ∧
    SIMDOpr.make 4 .kStore (.mk pt ca na) (.mk pt .simd256 nb) a_impl .normal =
      some ⟨pt, .simd128, 4, .kStore, .mk pt ca na, .mk pt .simd256 nb⟩ ∧
    SIMDOpr.make_store 8 (.mk pt ca na) (.mk pt .simd128 nb) .normal =
      some ⟨pt, .simd256, 8, .kStore, .mk pt ca na, .mk pt .simd128 nb⟩ ∧
    SIMDOpr.make 8 .kStore (.mk pt ca na) (.mk pt .simd128 nb) a_impl .normal =
      some ⟨pt, .simd256, 8, .kStore, .mk pt ca na, .mk pt .simd128 nb⟩ := by
  refine ⟨?_, ?_, ?_, ?_⟩ <;>
    simp [SIMDOpr.make, SIMDOpr.make_store, CHECK, Expr.valid, Expr.is_simd, Expr.ctype,
      Expr.ptype, ToSimdType]

/-- C24: with a left operand of composite type `primitive` and a right operand of a SIMD
composite type, both of one known primitive type, each of `Add`, `Sub`, `Mul` and
`Div::make` returns a node of composite type `primitive`, not of the SIMD type of the
right operand. -/
theorem C24_right_operand_simd_gives_primitive (m : Op2 × (Expr → Expr → Option Expr))
    (hm : m ∈ math_makers) (pt : primitive_t) (cb : composite_t) (na nb : IRNode)
    (hpt : pt ≠ .unk) (hcb : cb ≠ .primitive) :
    m.2 (.mk pt .primitive na) (.mk pt cb nb) =
      some (.mk pt .primitive (.Binary m.1 (.mk pt .primitive na) (.mk pt cb nb))) ∧
    (Expr.mk pt cb nb).is_simd = some true := by
  have hmk : m.2 = MakeMathExpr m.1 := by
    simp only [math_makers, List.mem_cons, List.mem_singleton, List.not_mem_nil, or_false] at hm
    rcases hm with rfl | rfl | rfl | rfl <;> rfl
  rw [hmk, MakeMathExpr_mk]
  refine ⟨?_, by simp [Expr.is_simd, Expr.ctype, hcb]⟩
  rw [if_pos]
  exact ⟨hpt, hpt, rfl, fun h => absurd rfl h⟩

theorem C24_right_operand_simd_gives_primitive_witness :
    Add.make (.mk .float32 .primitive (.Var "t")) (.mk .float32 .simd128 (.Var "v")) =
      some (.mk .float32 .primitive (.Binary .Add (.mk .float32 .primitive (.Var "t"))
        (.mk .float32 .simd128 (.Var "v")))) ∧
    (Expr.mk .float32 .simd128 (.Var "v")).is_simd = some true :=
  C24_right_operand_simd_gives_primitive (.Add, Add.make) (by simp [math_makers]) .float32
    .simd128 (.Var "t") (.Var "v") (by decide) (by decide)

/-- C23: once `compiled_code` has returned a non-empty text, it returns that text again
after more code has been emitted, not the text of the stream: after the emission of
`text1`, a call, and the emission of `text2`, the stream holds `text1 ++ text2` and the
second call returns `text1`. -/
theorem C23_compiled_code_is_cached (text1 text2 : String) (h1 : text1 ≠ "") :
    ((backends.C_CodeGen.new.emit text1).compiled_code).1 = text1 ∧
    ((((backends.C_CodeGen.new.emit text1).compiled_code).2.emit text2)).ss_ = text1 ++ text2 ∧
    ((((backends.C_CodeGen.new.emit text1).compiled_code).2.emit text2).compiled_code).1 =
      text1 := by
  have he : text1.isEmpty = false := by
    cases h : text1.isEmpty
    · rfl
    · exact absurd ((String.isEmpty_iff text1).mp h) h1
  have h0 : "".isEmpty = true := rfl
  simp [backends.C_CodeGen.new, backends.C_CodeGen.emit, backends.C_CodeGen.compiled_code, he,
    h0]

theorem C23_compiled_code_is_cached_witness :
    ((backends.C_CodeGen.new.emit "void f () \x7b \x7d").compiled_code).1 =
      "void f () \x7b \x7d" ∧
    ((((backends.C_CodeGen.new.emit "void f () \x7b \x7d").compiled_code).2.emit
      "void g () \x7b \x7d")).ss_ = "void f () \x7b \x7d" ++ "void g () \x7b \x7d" ∧
    ((((backends.C_CodeGen.new.emit "void f () \x7b \x7d").compiled_code).2.emit
      "void g () \x7b \x7d").compiled_code).1 = "void f () \x7b \x7d" :=
  C23_compiled_code_is_cached "void f () \x7b \x7d" "void g () \x7b \x7d" (by decide)

/-- The loop of `GetTrimedExpr` entered on a handle to an `Identity` node aborts. -/
theorem GetTrimedExpr_loop_Identity :
    ∀ (inner : IdentityExpr) (id : String) (result : IdentityExpr) (ids : Option (List String)),
      Identity.GetTrimedExpr_loop (.Identity inner id) result ids = none
  | .other _, _, _, _ => rfl
  | .Identity e i, id, _, ids => by
    rw [Identity.GetTrimedExpr_loop]
    exact GetTrimedExpr_loop_Identity e i e _

/-- C29: on a chain of two or more nested `Identity` nodes, `GetTrimedExpr` on the
outermost node reads through a null pointer and aborts; only the chain of one node returns
the expression inside, with its id appended to the list. -/
theorem C29_GetTrimedExpr_nested_aborts (id0 : String) (ids : Option (List String)) :
    (∀ (inner : IdentityExpr) (id1 : String),
      Identity.GetTrimedExpr (.Identity inner id1) id0 ids = none) ∧
    (∀ x : Expr, Identity.GetTrimedExpr (.other x) id0 ids =
      some (.other x, ids.map (fun l => l ++ [id0]))) :=
  ⟨fun inner id1 => GetTrimedExpr_loop_Identity inner id1 (.Identity inner id1)
    (ids.map (fun l => l ++ [id0])), fun _ => rfl⟩

/-- C30: for a set with the tuple name `T` and the single dim `d`, the statement text is
`T[]` and the text of the identity map is `{ T[] -> [] }`: the name of the dim is left
out.  With three dims the texts list them all. -/
theorem C30_single_dim_left_out (text T d : String) :
    isl_set_to_statement_repr ⟨text, T, [d]⟩ = T ++ "[]" ∧
    isl_set_to_identity_map ⟨text, T, [d]⟩ = "\x7b " ++ (T ++ "[]") ++ " -> [] \x7d" ∧
    isl_set_to_statement_repr set_S_ijk = "S[i,j,k]" ∧
    isl_set_to_identity_map set_S_ijk = "\x7b S[i,j,k] -> [i,j,k] \x7d" := by
  have h1 : isl_set_to_statement_repr ⟨text, T, [d]⟩ = T ++ "[]" := by
    show T ++ "[" ++ "]" = T ++ "[]"
    rw [String.append_assoc]
    rfl
  refine ⟨h1, ?_, by decide, by decide⟩
  show "\x7b " ++ isl_set_to_statement_repr ⟨text, T, [d]⟩ ++ " -> [" ++ "] \x7d" = _
  rw [h1, String.append_assoc _ " -> [" "] \x7d"]
  rfl

/-- The loop `set_ops_ptype` leaves every operand defined and of the type it sets. -/
theorem mapM_set_ptype (pt : primitive_t) :
    ∀ (ops ops2 : List Expr), ops.mapM (fun op => op.set_ptype pt) = some ops2 →
      ∀ x ∈ ops2, ∃ ct n, x = .mk pt ct n
  | [], ops2, h, x, hx => by
    simp only [List.mapM_nil, Option.pure_def, Option.some.injEq] at h
    subst h
    cases hx
  | op :: rest, ops2, h, x, hx => by
    simp only [List.mapM_cons, Option.bind_eq_bind, Option.bind_eq_some, Option.pure_def,
      Option.some.injEq] at h
    obtain ⟨y, hy, ys, hys, rfl⟩ := h
    rcases List.mem_cons.mp hx with rfl | hx
    · cases op with
      | null => cases hy
      | mk p c n =>
        simp only [Expr.set_ptype, Option.some.injEq] at hy
        exact ⟨c, n, hy.symm⟩
    · exact mapM_set_ptype pt rest ys hys x hx

/-- The maker `Or::make` aborts on a left operand of type int32. -/
theorem Or_make_int32 (ct : composite_t) (n : IRNode) (b : Expr) :
    Or.make (.mk .int32 ct n) b = none := by
  cases b with
  | null => simp [Or.make, logic_make, CHECK, Expr.valid]
  | mk pb cb nb =>
    rw [Or.make, (makers_mk .int32 pb ct cb n nb).2.1 .Or, if_neg]
    rintro ⟨-, h⟩
    cases h

/-- C28: the translation of an `or` expression aborts whatever its operands are: the
operands are given the type int32 and `Or::make` takes boolean operands only.  The
translation of the `and` expression over the same operands returns an `And` node of type
boolean. -/
theorem C28_or_aborts (var_ptype : primitive_t) (args : List isl.ast_expr) (expr : Expr) :
    IslAstExprToCinnExpr var_ptype (.op .or args) expr = none ∧
    IslAstExprToCinnExpr .int32
        (.op .and [.op .le [.id "c0", .int 1], .op .ge [.id "c0", .int 5]]) .null =
      some (.mk .boolean .primitive (.Binary .And
        (.mk .boolean .primitive (.Binary .LE (.mk .int32 .primitive (.Var "c0"))
          (.mk .int32 .primitive (.IntImm 1))))
        (.mk .boolean .primitive (.Binary .GE (.mk .int32 .primitive (.Var "c0"))
          (.mk .int32 .primitive (.IntImm 5)))))) := by
  refine ⟨?_, rfl⟩
  rw [IslAstExprToCinnExpr]
  cases h1 : IslAstExprToCinnExpr_ops var_ptype args with
  | none => rfl
  | some ops =>
    cases h2 : ops.mapM (fun op => op.set_ptype .int32) with
    | none => simp only [Option.bind_eq_bind, Option.some_bind, h2, Option.none_bind]
    | some ops2 =>
      simp only [Option.bind_eq_bind, Option.some_bind, h2]
      cases h3 : ops2.get? 0 with
      | none => rfl
      | some a =>
        obtain ⟨ct, n, rfl⟩ := mapM_set_ptype .int32 ops ops2 h2 a (List.get?_mem h3)
        cases h4 : ops2.get? 1 with
        | none => rfl
        | some b => simp [Or_make_int32]

/-- The output dims of the schedule that `Split` stores, for an iterator that is an output
dim once. -/
theorem Split_out_dims (name : String) (s : isl.sched) (iter : String) (size : Int)
    (pre post : List String) (hdims : s.out_dims = pre ++ iter :: post)
    (hpre : iter ∉ pre) (hpost : iter ∉ post) (hsize : 0 < size) :
    ∃ s1, Stage.Split name (some s) iter size = some s1 ∧
      s1.out_dims = pre ++ [iter ++ "_", iter ++ "__"] ++ post :=
  ⟨_, Split_eq name s iter size pre post hdims hpre hpost hsize, rfl⟩

/-- C25: `Split` on an iterator `iter` of a schedule with pairwise distinct output dims,
one of which is already named `iter_` or `iter__`, returns a schedule whose output dims
are not pairwise distinct. -/
theorem C25_Split_repeats_a_name (name : String) (s : isl.sched) (iter : String) (size : Int)
    (pre post : List String) (hdims : s.out_dims = pre ++ iter :: post)
    (hnd : s.out_dims.Nodup) (hsize : 0 < size)
    (hclash : iter ++ "_" ∈ pre ++ post ∨ iter ++ "__" ∈ pre ++ post) :
    ∃ s1, Stage.Split name (some s) iter size = some s1 ∧ ¬ s1.out_dims.Nodup := by
  rw [hdims] at hnd
  have hpre : iter ∉ pre := fun h =>
    (List.nodup_append.mp hnd).2.2 h (List.mem_cons_self _ _)
  have hpost : iter ∉ post :=
    (List.nodup_cons.mp (List.nodup_append.mp hnd).2.1).1
  obtain ⟨s1, hs1, hd⟩ := Split_out_dims name s iter size pre post hdims hpre hpost hsize
  refine ⟨s1, hs1, ?_⟩
  rw [hd]
  intro h
  simp only [List.append_assoc, List.cons_append, List.nil_append, List.nodup_append,
    List.nodup_cons, List.mem_cons, List.mem_append, not_or] at h hclash
  obtain ⟨-, ⟨⟨-, h2⟩, ⟨h3, -⟩⟩, h4⟩ := h
  rcases hclash with (hc | hc) | (hc | hc)
  · exact h4 hc (by simp)
  · exact h2 hc
  · exact h4 hc (by simp)
  · exact h3 hc

/-- The schedule `sched_ijk_split_j` is what `Split(j, 4)` stores for the stage `S` over
`i, j, k`. -/
theorem Split_sched_ijk : Stage.Split "S" (some sched_ijk) "j" 4 = some sched_ijk_split_j := by
  decide

/-- C25, at an input: after `Split(j, 4)` on the stage `S` over `i, j, k` the output dims
are `i, j_, j__, k`, and `Split(j_, 2)` then names two output dims `j__`. -/
theorem C25_Split_repeats_a_name_witness :
    ∃ s1, Stage.Split "S" (some sched_ijk_split_j) "j_" 2 = some s1 ∧ ¬ s1.out_dims.Nodup :=
  C25_Split_repeats_a_name "S" sched_ijk_split_j "j_" 2 ["i"] ["j__", "k"] rfl (by decide)
    (by decide) (by decide)

/-- The pairs of the relation `ComputeDeps` returns: `s` reads or writes an element that
`t` writes, or `s` writes an element that `t` reads, both being instances of the domain. -/
theorem ComputeDeps_mem (D : union_set) (R W : union_map) (s t : Point) :
    (s, t) ∈ ComputeDeps D R W ↔
      ∃ m, ((((s, m) ∈ R ∧ s ∈ D) ∨ ((s, m) ∈ W ∧ s ∈ D)) ∧ ((t, m) ∈ W ∧ t ∈ D)) ∨
        (((s, m) ∈ W ∧ s ∈ D) ∧ ((t, m) ∈ R ∧ t ∈ D)) := by
  simp only [ComputeDeps, isl_union_map_detect_equalities, isl_union_map_union,
    isl_union_map_apply_range, isl_union_map_reverse, isl_union_map_intersect_domain,
    List.mem_append, List.mem_flatMap, List.mem_map, List.mem_filter, decide_eq_true_eq,
    Prod.exists, Prod.mk.injEq, Prod.swap]
  constructor
  · rintro (⟨a, b, hab, c, d, ⟨⟨e, f, hef, h1, h2⟩, h3⟩, h4, h5⟩ |
      ⟨a, b, hab, c, d, ⟨⟨e, f, hef, h1, h2⟩, h3⟩, h4, h5⟩)
    · subst h1 h2 h3 h4 h5
      exact ⟨_, Or.inl ⟨hab, hef⟩⟩
    · subst h1 h2 h3 h4 h5
      exact ⟨_, Or.inr ⟨hab, hef⟩⟩
  · rintro ⟨m, ⟨h1, h2⟩ | ⟨h1, h2⟩⟩
    · exact Or.inl ⟨s, m, h1, m, t, ⟨⟨t, m, h2, rfl, rfl⟩, rfl⟩, rfl, rfl⟩
    · exact Or.inr ⟨s, m, h1, m, t, ⟨⟨t, m, h2, rfl, rfl⟩, rfl⟩, rfl, rfl⟩

/-- C26.  The relation `ComputeDeps` returns is symmetric, and two instances it relates
share an element that one of them writes: it never relates two instances that only read
the elements they have in common. -/
theorem C26_ComputeDeps_symmetric (D : union_set) (R W : union_map) (s t : Point)
    (h : (s, t) ∈ ComputeDeps D R W) :
    (t, s) ∈ ComputeDeps D R W ∧
    ∃ m, ((s, m) ∈ W ∨ (t, m) ∈ W) ∧ ((s, m) ∈ R ∨ (s, m) ∈ W) ∧
      ((t, m) ∈ R ∨ (t, m) ∈ W) := by
  obtain ⟨m, hm⟩ := (ComputeDeps_mem D R W s t).mp h
  rcases hm with ⟨hs | hs, ht⟩ | ⟨hs, ht⟩
  · exact ⟨(ComputeDeps_mem D R W t s).mpr ⟨m, Or.inr ⟨ht, hs⟩⟩,
      m, Or.inr ht.1, Or.inl hs.1, Or.inr ht.1⟩
  · exact ⟨(ComputeDeps_mem D R W t s).mpr ⟨m, Or.inl ⟨Or.inr ht, hs⟩⟩,
      m, Or.inl hs.1, Or.inr hs.1, Or.inr ht.1⟩
  · exact ⟨(ComputeDeps_mem D R W t s).mpr ⟨m, Or.inl ⟨Or.inl ht, hs⟩⟩,
      m, Or.inl hs.1, Or.inr hs.1, Or.inl ht.1⟩

/-- C26, at an input: `S0[0]` writes `A[0]` and `S1[0]` reads it. -/
theorem C26_ComputeDeps_symmetric_witness :
    ((⟨"S1", [0]⟩, ⟨"S0", [0]⟩) : Point × Point) ∈
      ComputeDeps [⟨"S0", [0]⟩, ⟨"S1", [0]⟩] [(⟨"S1", [0]⟩, ⟨"A", [0]⟩)]
        [(⟨"S0", [0]⟩, ⟨"A", [0]⟩)] ∧
    ∃ m, (((⟨"S0", [0]⟩, m) : Point × Point) ∈ [((⟨"S0", [0]⟩, ⟨"A", [0]⟩) : Point × Point)] ∨
        ((⟨"S1", [0]⟩, m) : Point × Point) ∈ [((⟨"S0", [0]⟩, ⟨"A", [0]⟩) : Point × Point)]) ∧
      (((⟨"S0", [0]⟩, m) : Point × Point) ∈ [((⟨"S1", [0]⟩, ⟨"A", [0]⟩) : Point × Point)] ∨
        ((⟨"S0", [0]⟩, m) : Point × Point) ∈ [((⟨"S0", [0]⟩, ⟨"A", [0]⟩) : Point × Point)]) ∧
      (((⟨"S1", [0]⟩, m) : Point × Point) ∈ [((⟨"S1", [0]⟩, ⟨"A", [0]⟩) : Point × Point)] ∨
        ((⟨"S1", [0]⟩, m) : Point × Point) ∈ [((⟨"S0", [0]⟩, ⟨"A", [0]⟩) : Point × Point)]) :=
  C26_ComputeDeps_symmetric [⟨"S0", [0]⟩, ⟨"S1", [0]⟩] [(⟨"S1", [0]⟩, ⟨"A", [0]⟩)]
    [(⟨"S0", [0]⟩, ⟨"A", [0]⟩)] ⟨"S0", [0]⟩ ⟨"S1", [0]⟩ (by decide)

/-- The order `strcmp(a, b) < 0` on names is transitive. -/
theorem strcmp_neg_trans (a b c : String) (hab : strcmp (c_str a) (c_str b) < 0)
    (hbc : strcmp (c_str b) (c_str c) < 0) : strcmp (c_str a) (c_str c) < 0 :=
  (strcmp_neg_iff _ _).mpr
    (IsTrans.trans (c_str a) (c_str b) (c_str c) ((strcmp_neg_iff _ _).mp hab)
      ((strcmp_neg_iff _ _).mp hbc))

/-- Every pair of the validity goes from a name to a strictly larger one. -/
theorem ComputeScheduleValidity_increasing (domain : union_set) (deps : union_map)
    (p : Point × Point) (hp : p ∈ ComputeScheduleValidity domain deps) :
    strcmp (c_str p.1.tuple) (c_str p.2.tuple) < 0 := by
  obtain ⟨m, -, ⟨-, hlt⟩, hpm⟩ := (ComputeScheduleValidity_mem domain deps p).mp hp
  obtain ⟨h1, h2⟩ := mem_from_map_tuples m p hpm
  rw [h1, h2]
  exact hlt

/-- Along a path of pairs that each go to a strictly larger name, the name the path ends in
is strictly larger than the name it starts from. -/
theorem path_increasing (v : union_map)
    (hv : ∀ p ∈ v, strcmp (c_str p.1.tuple) (c_str p.2.tuple) < 0) :
    ∀ (path : List (Point × Point)) (first last : Point × Point),
      (∀ p ∈ path, p ∈ v) → path.Chain' (fun p q => p.2.tuple = q.1.tuple) →
      path.head? = some first → path.getLast? = some last →
      strcmp (c_str first.1.tuple) (c_str last.2.tuple) < 0
  | [], _, _, _, _, hf, _ => by cases hf
  | [p], first, last, hmem, _, hf, hl => by
    simp only [List.head?_cons, Option.some.injEq] at hf
    simp only [List.getLast?_singleton, Option.some.injEq] at hl
    subst hf hl
    exact hv _ (hmem _ (List.mem_singleton_self _))
  | p :: q :: rest, first, last, hmem, hch, hf, hl => by
    simp only [List.head?_cons, Option.some.injEq] at hf
    subst hf
    rw [List.getLast?_cons_cons] at hl
    obtain ⟨hpq, hch2⟩ := List.chain'_cons.mp hch
    have ih := path_increasing v hv (q :: rest) q last
      (fun x hx => hmem x (List.mem_cons_of_mem _ hx)) hch2 rfl hl
    have h1 := hv _ (hmem _ (List.mem_cons_self _ _))
    rw [hpq] at h1
    exact strcmp_neg_trans _ _ _ h1 ih

/-- C27.  The validity `ComputeScheduleValidity` returns, as a graph on the tuple names of
the statements, is acyclic: every pair of it goes from a name to a strictly larger one in
`strcmp` order, so no pair goes from a statement to itself, no two pairs go in opposite
directions between two statements, and no path of pairs ends in the name it starts
from. -/
theorem C27_validity_acyclic (domain : union_set) (deps : union_map) :
    (∀ p ∈ ComputeScheduleValidity domain deps,
      strcmp (c_str p.1.tuple) (c_str p.2.tuple) < 0) ∧
    (∀ p ∈ ComputeScheduleValidity domain deps, p.1.tuple ≠ p.2.tuple) ∧
    (∀ p ∈ ComputeScheduleValidity domain deps, ∀ q ∈ ComputeScheduleValidity domain deps,
      ¬ (q.1.tuple = p.2.tuple ∧ q.2.tuple = p.1.tuple)) ∧
    (∀ (path : List (Point × Point)) (first last : Point × Point),
      (∀ p ∈ path, p ∈ ComputeScheduleValidity domain deps) →
      path.Chain' (fun p q => p.2.tuple = q.1.tuple) →
      path.head? = some first → path.getLast? = some last →
      last.2.tuple ≠ first.1.tuple) := by
  have hv := ComputeScheduleValidity_increasing domain deps
  have hirr : ∀ a b : String, strcmp (c_str a) (c_str b) < 0 → a ≠ b := by
    intro a b h hab
    rw [hab, strcmp_self] at h
    exact absurd h (by decide)
  refine ⟨hv, fun p hp => hirr _ _ (hv p hp), ?_, ?_⟩
  · rintro p hp q hq ⟨h1, h2⟩
    have hp1 := hv p hp
    have hq1 := hv q hq
    rw [h1, h2] at hq1
    exact hirr _ _ (strcmp_neg_trans _ _ _ hp1 hq1) rfl
  · intro path first last hmem hch hf hl heq
    have h := path_increasing _ hv path first last hmem hch hf hl
    exact hirr _ _ h heq.symm


end cinn
